import Mathlib

/-!
MultiKeys: output factory and remap lookup.

A shallow embedding of `MultiKeys/MultiKeys/Remaps.cpp` (class `OutputFactory`,
`Multikeys::Remapper::EvaluateKey`) and of `MultiKeys/MultiKeys/MultiKeys.h`
(`DecisionRecord`), followed by theorems about them.

Conventions of the embedding:

* machine integers are `Nat`; a store into a `WORD`/`USHORT` is `% 2 ^ 16`, arithmetic on a
  `UINT` is `% 2 ^ 32`;
* `new T[n]` yields `n` cells of unspecified content, given by a function `mem : Nat → INPUT`;
* an access outside an array is a `Fault` (the C++ behaviour is undefined there);
* a returned pointer is an `Option`: `none` is `nullptr`.
-/

namespace MultiKeys

/-! ## Platform constants (Windows SDK) -/

def INPUT_KEYBOARD : Nat := 1
def KEYEVENTF_EXTENDEDKEY : Nat := 0x0001
def KEYEVENTF_KEYUP : Nat := 0x0002
def KEYEVENTF_UNICODE : Nat := 0x0004

def VK_LWIN : Nat := 0x5B
def VK_RWIN : Nat := 0x5C
def VK_LSHIFT : Nat := 0xA0
def VK_RSHIFT : Nat := 0xA1
def VK_LCONTROL : Nat := 0xA2
def VK_RCONTROL : Nat := 0xA3
def VK_LMENU : Nat := 0xA4
def VK_RMENU : Nat := 0xA5

/-- The `ki` member of a Win32 `INPUT`: `wVk` and `wScan` are `WORD`s, the rest `DWORD`s. -/
structure KEYBDINPUT where
  wVk : Nat
  wScan : Nat
  dwFlags : Nat
  time : Nat
  dwExtraInfo : Nat
deriving DecidableEq, Repr

/-- A Win32 `INPUT` as the factory uses it: the `type` tag and the keyboard member. -/
structure INPUT where
  type : Nat
  ki : KEYBDINPUT
deriving DecidableEq, Repr

/-- An access outside the bounds of an array. -/
inductive Fault where
  | outOfBounds
deriving DecidableEq, Repr

deriving instance DecidableEq for Except

/-- A `ULONG_PTR` argument: its integer `value` and, for when it is cast to a pointer, the
array of 32-bit cells readable at that address (`target`; empty when nothing is). -/
structure ULONG_PTR where
  value : Nat
  target : List Nat
deriving DecidableEq, Repr

/-- The enumeration `KeystrokeOutputType`; `Invalid` stands for any value that is none of the
six enumerators (the `default:` label of the switch). -/
inductive KeystrokeOutputType where
  | UnicodeOutput
  | VirtualOutput
  | MacroOutput
  | StringOutput
  | ScriptOutput
  | NoOutput
  | Invalid
deriving DecidableEq, Repr

/-- The objects behind an `IKeystrokeOutput *`, one constructor per derived class, with the
fields `getInstance` assigns. `inputCount` is held as a `UINT`. -/
inductive IKeystrokeOutput where
  | UnicodeOutput (codepoint inputCount : Nat) (keystrokesDown keystrokesUp : List INPUT)
  | VirtualKeyOutput (inputCount : Nat) (keystrokesDown keystrokesUp : List INPUT)
  | MacroOutput (inputCount : Nat) (keystrokes : List INPUT)
  | StringOutput (inputCount : Nat) (keystrokes : List INPUT)
  | ScriptOutput (filename : ULONG_PTR)
  | NoOutput
deriving DecidableEq, Repr

/-- The eight `VIRTUAL_MODIFIER_*` constants. They are declared in `Remaps.h`, which is not
among the sources, so they are parameters of the embedding. -/
structure VirtualModifiers where
  VIRTUAL_MODIFIER_LCTRL : Nat
  VIRTUAL_MODIFIER_RCTRL : Nat
  VIRTUAL_MODIFIER_LALT : Nat
  VIRTUAL_MODIFIER_RALT : Nat
  VIRTUAL_MODIFIER_LWIN : Nat
  VIRTUAL_MODIFIER_RWIN : Nat
  VIRTUAL_MODIFIER_LSHIFT : Nat
  VIRTUAL_MODIFIER_RSHIFT : Nat
deriving DecidableEq, Repr

/-- The constants in the order in which `getInstance` tests them. -/
def VirtualModifiers.toList (M : VirtualModifiers) : List Nat :=
  [M.VIRTUAL_MODIFIER_LCTRL, M.VIRTUAL_MODIFIER_RCTRL, M.VIRTUAL_MODIFIER_LALT,
   M.VIRTUAL_MODIFIER_RALT, M.VIRTUAL_MODIFIER_LWIN, M.VIRTUAL_MODIFIER_RWIN,
   M.VIRTUAL_MODIFIER_LSHIFT, M.VIRTUAL_MODIFIER_RSHIFT]

/-- The eight constants are distinct single bits of the low byte: together they are exactly
the values `0x01, 0x02, ..., 0x80`, in some order. -/
def VirtualModifiers.WellFormed (M : VirtualModifiers) : Prop :=
  M.toList.Perm [1, 2, 4, 8, 16, 32, 64, 128]

instance (M : VirtualModifiers) : Decidable M.WellFormed := by
  unfold VirtualModifiers.WellFormed; infer_instance

/-! ## Arrays -/

/-- The result of `new INPUT[n]`: `n` cells whose content is whatever `mem` holds. -/
def newArray (mem : Nat → INPUT) (n : Nat) : List INPUT :=
  (List.range n).map mem

/-- The read `a[i]`. -/
def readAt : List Nat → Nat → Except Fault Nat
  | [], _ => .error .outOfBounds
  | x :: _, 0 => .ok x
  | _ :: xs, i + 1 => readAt xs i

/-- The write `a[i] = f (a[i])`; a plain store is the case of a constant `f`. -/
def modifyAt : List INPUT → Nat → (INPUT → INPUT) → Except Fault (List INPUT)
  | [], _, _ => .error .outOfBounds
  | x :: xs, 0, f => .ok (f x :: xs)
  | x :: xs, i + 1, f =>
    match modifyAt xs i f with
    | .ok ys => .ok (x :: ys)
    | .error e => .error e

/-- The store `x.ki.wVk = v` into a `WORD`. -/
def setVk (v : Nat) (x : INPUT) : INPUT :=
  { x with ki := { x.ki with wVk := v % 2 ^ 16 } }

/-- The store `x.ki.wScan = v` into a `WORD`. -/
def setScan (v : Nat) (x : INPUT) : INPUT :=
  { x with ki := { x.ki with wScan := v % 2 ^ 16 } }

/-- The update `x.ki.dwFlags |= v`. -/
def orFlags (v : Nat) (x : INPUT) : INPUT :=
  { x with ki := { x.ki with dwFlags := x.ki.dwFlags ||| v } }

/-! ## `class OutputFactory` -/

/-- The four prototype members of `OutputFactory`. -/
structure OutputFactory where
  UnicodePrototypeDown : INPUT
  UnicodePrototypeUp : INPUT
  VirtualKeyPrototypeDown : INPUT
  VirtualKeyPrototypeUp : INPUT
deriving DecidableEq, Repr

/-- The constructor `OutputFactory::OutputFactory()`, run on storage whose previous content
is `raw`. It assigns `type`, `dwExtraInfo`, `dwFlags`, `time` and one of `wVk`, `wScan` in
each `...Down` prototype and copies that to the `...Up` one before setting `KEYEVENTF_KEYUP`;
`UnicodePrototypeDown.ki.wScan` and `VirtualKeyPrototypeDown.ki.wVk` keep what `raw` held. -/
def OutputFactory.construct (raw : OutputFactory) : OutputFactory :=
  let ud : INPUT :=
    { type := INPUT_KEYBOARD,
      ki := { raw.UnicodePrototypeDown.ki with
                dwExtraInfo := 0, dwFlags := KEYEVENTF_UNICODE, time := 0, wVk := 0 } }
  let vd : INPUT :=
    { type := INPUT_KEYBOARD,
      ki := { raw.VirtualKeyPrototypeDown.ki with
                dwExtraInfo := 0, dwFlags := KEYEVENTF_EXTENDEDKEY, time := 0, wScan := 0 } }
  { UnicodePrototypeDown := ud,
    UnicodePrototypeUp := orFlags KEYEVENTF_KEYUP ud,
    VirtualKeyPrototypeDown := vd,
    VirtualKeyPrototypeUp := orFlags KEYEVENTF_KEYUP vd }

/-- The counting loop of case `VirtualOutput`:
`for (i = 0; i < 8; i++) if ((_lParam >> i) & 1) modifierCount++;` on a `USHORT`. -/
def countModifiers (lParam : Nat) : Nat :=
  (List.range 8).foldl
    (fun modifierCount i =>
      if (lParam >>> i) &&& 1 ≠ 0 then (modifierCount + 1) % 2 ^ 16 else modifierCount) 0

/-- The state of the modifier placement: `currentIndex`, `keystrokesDown`, `keystrokesUp`. -/
structure VirtualFill where
  currentIndex : Nat
  keystrokesDown : List INPUT
  keystrokesUp : List INPUT
deriving DecidableEq, Repr

/-- The two stores `keystrokesDown[currentIndex].ki.wVk = vk;` and
`keystrokesUp[modifierCount - currentIndex].ki.wVk = vk;`. The difference is computed in
`int`, so it is a negative index when `currentIndex` exceeds `modifierCount`. -/
def storeKey (modifierCount vk : Nat) (s : VirtualFill) : Except Fault VirtualFill := do
  let down ← modifyAt s.keystrokesDown s.currentIndex (setVk vk)
  if modifierCount < s.currentIndex then throw Fault.outOfBounds
  let up ← modifyAt s.keystrokesUp (modifierCount - s.currentIndex) (setVk vk)
  pure { s with keystrokesDown := down, keystrokesUp := up }

/-- One of the eight blocks `if (cond) { ...wVk = vk; ...wVk = vk; currentIndex++; }`. -/
def placeModifier (modifierCount : Nat) (cond : Bool) (vk : Nat) (s : VirtualFill) :
    Except Fault VirtualFill :=
  if cond then do
    let s1 ← storeKey modifierCount vk s
    pure { s1 with currentIndex := (s1.currentIndex + 1) % 2 ^ 16 }
  else pure s

/-- The first loop of case `StringOutput`, `remaining` iterations from index `i`:
`if (codepoints[i] > 0xffff) stringOutput->inputCount += 2;`. -/
def stringCount (codepoints : List Nat) : Nat → Nat → Nat → Except Fault Nat
  | 0, _, inputCount => pure inputCount
  | remaining + 1, i, inputCount => do
    let c ← readAt codepoints i
    stringCount codepoints remaining (i + 1)
      (if c > 0xffff then (inputCount + 2) % 2 ^ 32 else inputCount)

/-- The fill loop of case `StringOutput`, `remaining` iterations from index `i`, with
`currentIndex` a `UINT`. -/
def stringFill (self : OutputFactory) (codepoints : List Nat) :
    Nat → Nat → Nat → List INPUT → Except Fault (List INPUT)
  | 0, _, _, keystrokes => pure keystrokes
  | remaining + 1, i, currentIndex, keystrokes => do
    let c ← readAt codepoints i
    if c ≤ 0xffff then
      let k ← modifyAt keystrokes currentIndex (fun _ => self.UnicodePrototypeDown)
      let k ← modifyAt k currentIndex (setScan c)
      let currentIndex := (currentIndex + 1) % 2 ^ 32
      let k ← modifyAt k currentIndex (fun _ => self.UnicodePrototypeUp)
      let k ← modifyAt k currentIndex (setScan c)
      let currentIndex := (currentIndex + 1) % 2 ^ 32
      stringFill self codepoints remaining (i + 1) currentIndex k
    else
      let highSurrogate := (0xd800 + ((c - 0x10000) >>> 10)) % 2 ^ 16
      let lowSurrogate := (0xdc00 + (c &&& 0x3ff)) % 2 ^ 16
      let k ← modifyAt keystrokes currentIndex (fun _ => self.UnicodePrototypeDown)
      let k ← modifyAt k ((currentIndex + 1) % 2 ^ 32) (fun _ => self.UnicodePrototypeDown)
      let k ← modifyAt k currentIndex (setScan highSurrogate)
      let k ← modifyAt k ((currentIndex + 1) % 2 ^ 32) (setScan lowSurrogate)
      let currentIndex := (currentIndex + 2) % 2 ^ 32
      let k ← modifyAt k currentIndex (fun _ => self.UnicodePrototypeUp)
      let k ← modifyAt k ((currentIndex + 1) % 2 ^ 32) (fun _ => self.UnicodePrototypeUp)
      let k ← modifyAt k currentIndex (setScan highSurrogate)
      let k ← modifyAt k ((currentIndex + 1) % 2 ^ 32) (setScan lowSurrogate)
      let currentIndex := (currentIndex + 2) % 2 ^ 32
      stringFill self codepoints remaining (i + 1) currentIndex k

/-- The loop of case `MacroOutput`, `remaining` iterations from index `i`. -/
def macroFill (self : OutputFactory) (sequence : List Nat) :
    Nat → Nat → List INPUT → Except Fault (List INPUT)
  | 0, _, keystrokes => pure keystrokes
  | remaining + 1, i, keystrokes => do
    let e ← readAt sequence i
    let keyup := (e >>> 31) &&& 1
    let virtualKeyCode := (e &&& 0xff) % 2 ^ 16
    let k ← modifyAt keystrokes i (fun _ => self.VirtualKeyPrototypeDown)
    let k ← modifyAt k i (setVk virtualKeyCode)
    let k ← if keyup ≠ 0 then modifyAt k i (orFlags KEYEVENTF_KEYUP) else pure k
    macroFill self sequence remaining (i + 1) k

/-- The method `OutputFactory::getInstance(_type, _nParam, _lParam)`. `_nParam` is a `UINT`.
The result is the returned pointer (`none` for `nullptr`), or a fault. -/
def OutputFactory.getInstance (self : OutputFactory) (M : VirtualModifiers)
    (mem : Nat → INPUT) (_type : KeystrokeOutputType) (_nParam : Nat) (_lParam : ULONG_PTR) :
    Except Fault (Option IKeystrokeOutput) :=
  match _type with
  | .UnicodeOutput =>
    let codepoint := _nParam
    if codepoint ≤ 0xffff then
      pure (some (.UnicodeOutput codepoint 1
        [setScan codepoint self.UnicodePrototypeDown]
        [setScan codepoint self.UnicodePrototypeUp]))
    else
      let cp := codepoint - 0x10000
      let high := (0xd800 + (cp >>> 10)) % 2 ^ 16
      let low := (0xdc00 + (cp &&& 0x3ff)) % 2 ^ 16
      pure (some (.UnicodeOutput codepoint 2
        [setScan high self.UnicodePrototypeDown, setScan low self.UnicodePrototypeDown]
        [setScan high self.UnicodePrototypeUp, setScan low self.UnicodePrototypeUp]))
  | .VirtualOutput => do
    let l := _lParam.value
    let modifierCount := countModifiers l
    let inputCount := modifierCount + 1
    let s0 : VirtualFill :=
      { currentIndex := 0,
        keystrokesDown := (newArray mem (modifierCount + 1)).map
          (fun _ => self.VirtualKeyPrototypeDown),
        keystrokesUp := (newArray mem (modifierCount + 1)).map
          (fun _ => self.VirtualKeyPrototypeUp) }
    let s ← placeModifier modifierCount
      (l &&& M.VIRTUAL_MODIFIER_LCTRL == M.VIRTUAL_MODIFIER_LCTRL) VK_LCONTROL s0
    let s ← placeModifier modifierCount
      (l &&& M.VIRTUAL_MODIFIER_RCTRL == M.VIRTUAL_MODIFIER_RCTRL) VK_RCONTROL s
    let s ← placeModifier modifierCount
      (l &&& M.VIRTUAL_MODIFIER_LALT == M.VIRTUAL_MODIFIER_LALT) VK_LMENU s
    let s ← placeModifier modifierCount
      (l &&& M.VIRTUAL_MODIFIER_RALT == M.VIRTUAL_MODIFIER_RALT) VK_RMENU s
    let s ← placeModifier modifierCount
      (l &&& M.VIRTUAL_MODIFIER_LWIN == M.VIRTUAL_MODIFIER_LWIN) VK_LWIN s
    let s ← placeModifier modifierCount
      (l &&& M.VIRTUAL_MODIFIER_RWIN == M.VIRTUAL_MODIFIER_RWIN) VK_RWIN s
    let s ← placeModifier modifierCount
      (l &&& M.VIRTUAL_MODIFIER_LSHIFT == M.VIRTUAL_MODIFIER_RSHIFT) VK_LSHIFT s
    let s ← placeModifier modifierCount
      (l &&& M.VIRTUAL_MODIFIER_RSHIFT == M.VIRTUAL_MODIFIER_RSHIFT) VK_RSHIFT s
    let s ← storeKey modifierCount (_nParam % 2 ^ 16) s
    pure (some (.VirtualKeyOutput inputCount s.keystrokesDown s.keystrokesUp))
  | .MacroOutput =>
    if _lParam.value = 0 then pure none
    else do
      let sequence := _lParam.target
      let seqCount := _nParam
      let keystrokes ← macroFill self sequence seqCount 0 (newArray mem seqCount)
      pure (some (.MacroOutput seqCount keystrokes))
  | .StringOutput =>
    if _lParam.value = 0 then pure none
    else do
      let codepoints := _lParam.target
      let seqCount := _nParam
      let inputCount ← stringCount codepoints seqCount 0 ((seqCount * 2) % 2 ^ 32)
      let keystrokes ← stringFill self codepoints seqCount 0 0 (newArray mem inputCount)
      pure (some (.StringOutput inputCount keystrokes))
  | .ScriptOutput => pure (some (.ScriptOutput _lParam))
  | .NoOutput => pure (some .NoOutput)
  | .Invalid => pure none

/-! ## `Multikeys::Remapper` -/

/-- The Win32 `RAWKEYBOARD` record handed to `EvaluateKey`. -/
structure RAWKEYBOARD where
  MakeCode : Nat
  Flags : Nat
  Reserved : Nat
  VKey : Nat
  Message : Nat
  ExtraInformation : Nat
deriving DecidableEq, Repr

/-- Modelled from the spec: the lookup key `KEYSTROKE_INPUT`, whose declaration (`Remaps.h`) is
not among the sources. It has the members `modifiers`, `scancode` and `flags` that
`Parser::ReadFile` assigns, and `KEYSTROKE_INPUT(m, s, f)` sets them in that order. -/
structure KEYSTROKE_INPUT where
  modifiers : Nat
  scancode : Nat
  flags : Nat
deriving DecidableEq, Repr

/-- One device of the table: its name (the wide characters before the terminator) and its
`remaps`, a `std::map<KEYSTROKE_INPUT, IKeystrokeOutput*>` held as its list of entries. -/
structure KEYBOARD where
  device_name : List Nat
  remaps : List (KEYSTROKE_INPUT × Option IKeystrokeOutput)
deriving DecidableEq, Repr

/-- The object `Multikeys::Remapper`: its member `keyboards`. -/
structure Remapper where
  keyboards : List KEYBOARD
deriving DecidableEq, Repr

/-- The C function `wcscmp` on two strings given without their terminators: negative, zero
or positive as the first is below, equal to or above the second. -/
def wcscmp : List Nat → List Nat → Int
  | [], [] => 0
  | [], _ :: _ => -1
  | _ :: _, [] => 1
  | a :: as, b :: bs => if a < b then -1 else if b < a then 1 else wcscmp as bs

/-- Modelled from the spec: `remaps.find(input)`. The ordering of `KEYSTROKE_INPUT` that the
map uses is declared in `Remaps.h`, not among the sources; keys are unique and an entry is
found when its key (scan code, modifiers, flags) equals the lookup key. The result is the
entry found, `none` standing for `remaps.end()`. -/
def mapFind (remaps : List (KEYSTROKE_INPUT × Option IKeystrokeOutput))
    (input : KEYSTROKE_INPUT) : Option (KEYSTROKE_INPUT × Option IKeystrokeOutput) :=
  remaps.find? (fun e => e.1 == input)

/-- What a call of `EvaluateKey` leaves behind: the returned `BOOL`, the content of
`*out_action`, and the member `keyboards`. -/
structure Evaluation where
  result : Bool
  out_action : Option IKeystrokeOutput
  keyboards : List KEYBOARD
deriving DecidableEq, Repr

/-- The device loop of `EvaluateKey` over the keyboards still to visit: the returned `BOOL`
and the content of `*out_action`. -/
def evaluateLoop (input : KEYSTROKE_INPUT) (deviceName : List Nat)
    (out_action : Option IKeystrokeOutput) : List KEYBOARD → Bool × Option IKeystrokeOutput
  | [] => (false, out_action)
  | kb :: rest =>
    if wcscmp kb.device_name deviceName = 0 then
      match mapFind kb.remaps input with
      | some pair => (true, pair.2)
      | none => (false, out_action)
    else evaluateLoop input deviceName out_action rest

/-- The method `Multikeys::Remapper::EvaluateKey(keypressed, deviceName, out_action)`, where
`out_action` is the content of `*out_action` before the call. -/
def Remapper.EvaluateKey (self : Remapper) (keypressed : RAWKEYBOARD) (deviceName : List Nat)
    (out_action : Option IKeystrokeOutput) : Evaluation :=
  let input : KEYSTROKE_INPUT := ⟨0, keypressed.MakeCode, keypressed.Flags⟩
  let r := evaluateLoop input deviceName out_action self.keyboards
  { result := r.1, out_action := r.2, keyboards := self.keyboards }

/-! ## `struct DecisionRecord` (`MultiKeys.h`) -/

/-- The record `DecisionRecord`; `decision` is the `BOOL` as a truth value. -/
structure DecisionRecord where
  keyboardInput : RAWKEYBOARD
  mappedAction : Option IKeystrokeOutput
  decision : Bool
deriving DecidableEq, Repr

/-- The constructor `DecisionRecord(_keyboardInput, _decision)`. -/
def DecisionRecord.ofDecision (_keyboardInput : RAWKEYBOARD) (_decision : Bool) :
    DecisionRecord :=
  { keyboardInput := _keyboardInput, mappedAction := none, decision := _decision }

/-- The constructor `DecisionRecord(_keyboardInput, _mappedInput, _decision)`. -/
def DecisionRecord.ofAction (_keyboardInput : RAWKEYBOARD)
    (_mappedInput : Option IKeystrokeOutput) (_decision : Bool) : DecisionRecord :=
  { keyboardInput := _keyboardInput, mappedAction := _mappedInput, decision := _decision }

/-! ## Vocabulary of the statements -/

/-- Whether the bits of the constant `F` are all set in the mask `l`: the test
`(_lParam & F) == F`. -/
def flagSet (l F : Nat) : Bool := l &&& F == F

/-- The key codes of the modifiers whose flag is set in the mask `l`, in the canonical order
Ctrl-L, Ctrl-R, Alt-L, Alt-R, Win-L, Win-R, Shift-L, Shift-R. -/
def canonicalModifiers (M : VirtualModifiers) (l : Nat) : List Nat :=
  (if flagSet l M.VIRTUAL_MODIFIER_LCTRL then [VK_LCONTROL] else []) ++
  (if flagSet l M.VIRTUAL_MODIFIER_RCTRL then [VK_RCONTROL] else []) ++
  (if flagSet l M.VIRTUAL_MODIFIER_LALT then [VK_LMENU] else []) ++
  (if flagSet l M.VIRTUAL_MODIFIER_RALT then [VK_RMENU] else []) ++
  (if flagSet l M.VIRTUAL_MODIFIER_LWIN then [VK_LWIN] else []) ++
  (if flagSet l M.VIRTUAL_MODIFIER_RWIN then [VK_RWIN] else []) ++
  (if flagSet l M.VIRTUAL_MODIFIER_LSHIFT then [VK_LSHIFT] else []) ++
  (if flagSet l M.VIRTUAL_MODIFIER_RSHIFT then [VK_RSHIFT] else [])

/-- The key codes of the modifiers that `getInstance` places for the mask `l` when the
constants are well formed: the canonical ones but Shift-L. -/
def placedModifiers (M : VirtualModifiers) (l : Nat) : List Nat :=
  (if flagSet l M.VIRTUAL_MODIFIER_LCTRL then [VK_LCONTROL] else []) ++
  (if flagSet l M.VIRTUAL_MODIFIER_RCTRL then [VK_RCONTROL] else []) ++
  (if flagSet l M.VIRTUAL_MODIFIER_LALT then [VK_LMENU] else []) ++
  (if flagSet l M.VIRTUAL_MODIFIER_RALT then [VK_RMENU] else []) ++
  (if flagSet l M.VIRTUAL_MODIFIER_LWIN then [VK_LWIN] else []) ++
  (if flagSet l M.VIRTUAL_MODIFIER_RWIN then [VK_RWIN] else []) ++
  (if flagSet l M.VIRTUAL_MODIFIER_RSHIFT then [VK_RSHIFT] else [])

/-- The number of set bits among the low eight bits of `l`. -/
def popCount8 (l : Nat) : Nat :=
  ((List.range 8).filter (fun i => l.testBit i)).length

/-- The content of `keystrokesDown` that case `VirtualOutput` builds from the prototype `pd`
for the mask `l` and the key `key` when the constants are well formed: the placed modifiers,
the key, and one cell of the untouched prototype if Shift-L is set. -/
def downPhase (pd : INPUT) (M : VirtualModifiers) (l key : Nat) : List INPUT :=
  (placedModifiers M l).map (fun vk => setVk vk pd) ++ [setVk (key % 2 ^ 16) pd]
    ++ (if flagSet l M.VIRTUAL_MODIFIER_LSHIFT then [pd] else [])

/-- The content of `keystrokesUp` that case `VirtualOutput` builds from the prototype `pu`,
under the same conditions: `downPhase` mirrored. -/
def upPhase (pu : INPUT) (M : VirtualModifiers) (l key : Nat) : List INPUT :=
  (if flagSet l M.VIRTUAL_MODIFIER_LSHIFT then [pu] else []) ++ [setVk (key % 2 ^ 16) pu]
    ++ (placedModifiers M l).reverse.map (fun vk => setVk vk pu)

/-- The device name `KBD-1` as wide characters. -/
def KBD1 : List Nat := [0x4B, 0x42, 0x44, 0x2D, 0x31]

/-- The high surrogate of `v`: `0xD800 + ((v - 0x10000) >> 10)`. -/
def highSurrogate (v : Nat) : Nat := 0xD800 + ((v - 0x10000) >>> 10)

/-- The low surrogate of `v`: `0xDC00 + ((v - 0x10000) & 0x3FF)`. -/
def lowSurrogate (v : Nat) : Nat := 0xDC00 + ((v - 0x10000) &&& 0x3FF)

/-- The Unicode key-down event for the code unit `u`, held in the 16 bits of `wScan`. -/
def unicodeDown (u : Nat) : INPUT :=
  ⟨INPUT_KEYBOARD, ⟨0, u % 2 ^ 16, KEYEVENTF_UNICODE, 0, 0⟩⟩

/-- The Unicode key-up event for the code unit `u`, held in the 16 bits of `wScan`. -/
def unicodeUp (u : Nat) : INPUT :=
  ⟨INPUT_KEYBOARD, ⟨0, u % 2 ^ 16, KEYEVENTF_UNICODE ||| KEYEVENTF_KEYUP, 0, 0⟩⟩

/-- The block of events of one character `c` of a string: a down and an up when `c` is one
code unit, else the two downs and then the two ups of its surrogate pair. -/
def charBlock (c : Nat) : List INPUT :=
  if c ≤ 0xFFFF then [unicodeDown c, unicodeUp c]
  else [unicodeDown (highSurrogate c), unicodeDown (lowSurrogate c),
        unicodeUp (highSurrogate c), unicodeUp (lowSurrogate c)]

/-- The number of code points of a sequence that are greater than `0xFFFF`. -/
def surrogateCount (codepoints : List Nat) : Nat :=
  codepoints.countP (fun c => decide (0xFFFF < c))

/-- The virtual-key down event for the key code `k`, held in the 16 bits of `wVk`. -/
def virtualDown (k : Nat) : INPUT :=
  ⟨INPUT_KEYBOARD, ⟨k % 2 ^ 16, 0, KEYEVENTF_EXTENDEDKEY, 0, 0⟩⟩

/-- The virtual-key up event for the key code `k`, held in the 16 bits of `wVk`. -/
def virtualUp (k : Nat) : INPUT :=
  ⟨INPUT_KEYBOARD, ⟨k % 2 ^ 16, 0, KEYEVENTF_EXTENDEDKEY ||| KEYEVENTF_KEYUP, 0, 0⟩⟩

/-- The event of one macro entry `e`: the key code is its low byte, and it is a key-up when
bit 31 of `e` is set, a key-down otherwise. -/
def macroEvent (e : Nat) : INPUT :=
  if e.testBit 31 then virtualUp (e &&& 0xFF) else virtualDown (e &&& 0xFF)

/-- The documented meaning of `decision` in a `DecisionRecord`: when it is `FALSE` there is
no mapped action, when it is `TRUE` there is one. -/
def DecisionRecord.Consistent (r : DecisionRecord) : Prop :=
  (r.decision = false → r.mappedAction = none) ∧ (r.decision = true → r.mappedAction ≠ none)

/-- One of the eight blocks of case `VirtualOutput` as far as indices go: when `cond` holds,
the block uses the index `currentIndex` on `keystrokesDown` and the index
`modifierCount - currentIndex`, computed in `int`, on `keystrokesUp`, then increments the
`USHORT` `currentIndex`. The state is `currentIndex` and the index pairs used so far. -/
def indexStep (modifierCount : Nat) (cond : Bool) (t : Nat × List (Nat × Int)) :
    Nat × List (Nat × Int) :=
  if cond then ((t.1 + 1) % 2 ^ 16, t.2 ++ [(t.1, (modifierCount : Int) - (t.1 : Int))])
  else t

/-- The index pairs (on `keystrokesDown`, on `keystrokesUp`) that case `VirtualOutput` uses
for the mask `l`, in program order: those of the blocks whose test holds, then those of the
two final stores of the target key. -/
def virtualIndices (M : VirtualModifiers) (l : Nat) : List (Nat × Int) :=
  let modifierCount := countModifiers l
  let t : Nat × List (Nat × Int) := (0, [])
  let t := indexStep modifierCount (l &&& M.VIRTUAL_MODIFIER_LCTRL == M.VIRTUAL_MODIFIER_LCTRL) t
  let t := indexStep modifierCount (l &&& M.VIRTUAL_MODIFIER_RCTRL == M.VIRTUAL_MODIFIER_RCTRL) t
  let t := indexStep modifierCount (l &&& M.VIRTUAL_MODIFIER_LALT == M.VIRTUAL_MODIFIER_LALT) t
  let t := indexStep modifierCount (l &&& M.VIRTUAL_MODIFIER_RALT == M.VIRTUAL_MODIFIER_RALT) t
  let t := indexStep modifierCount (l &&& M.VIRTUAL_MODIFIER_LWIN == M.VIRTUAL_MODIFIER_LWIN) t
  let t := indexStep modifierCount (l &&& M.VIRTUAL_MODIFIER_RWIN == M.VIRTUAL_MODIFIER_RWIN) t
  let t := indexStep modifierCount
    (l &&& M.VIRTUAL_MODIFIER_LSHIFT == M.VIRTUAL_MODIFIER_RSHIFT) t
  let t := indexStep modifierCount
    (l &&& M.VIRTUAL_MODIFIER_RSHIFT == M.VIRTUAL_MODIFIER_RSHIFT) t
  t.2 ++ [(t.1, (modifierCount : Int) - (t.1 : Int))]

/-- Whether an event is a key-up: `KEYEVENTF_KEYUP` is set in its flags. -/
def isKeyUp (e : INPUT) : Bool := e.ki.dwFlags &&& KEYEVENTF_KEYUP != 0

/-- The key identity of an event: its key code `wVk` and its code unit `wScan`. -/
def keyIdentity (e : INPUT) : Nat × Nat := (e.ki.wVk, e.ki.wScan)

/-- The event sequence of a descriptor: `keystrokesDown` followed by `keystrokesUp`, or
`keystrokes`; a script and a no-op have no events. -/
def IKeystrokeOutput.events : IKeystrokeOutput → List INPUT
  | .UnicodeOutput _ _ keystrokesDown keystrokesUp => keystrokesDown ++ keystrokesUp
  | .VirtualKeyOutput _ keystrokesDown keystrokesUp => keystrokesDown ++ keystrokesUp
  | .MacroOutput _ keystrokes => keystrokes
  | .StringOutput _ keystrokes => keystrokes
  | .ScriptOutput _ => []
  | .NoOutput => []

/-- The number of key-down events of the key `id` in a sequence. -/
def downCount (id : Nat × Nat) (evs : List INPUT) : Nat :=
  evs.countP (fun e => !isKeyUp e && keyIdentity e == id)

/-- The number of key-up events of the key `id` in a sequence. -/
def upCount (id : Nat × Nat) (evs : List INPUT) : Nat :=
  evs.countP (fun e => isKeyUp e && keyIdentity e == id)

/-- A sequence is balanced when every key has as many key-down as key-up events in it. -/
def Balanced (evs : List INPUT) : Prop :=
  ∀ id : Nat × Nat, downCount id evs = upCount id evs

/-- An event carries the Unicode marker: `wVk` is 0 and `KEYEVENTF_UNICODE` is set. -/
def UnicodeMarked (e : INPUT) : Prop :=
  e.ki.wVk = 0 ∧ e.ki.dwFlags &&& KEYEVENTF_UNICODE = KEYEVENTF_UNICODE

/-- An event carries the virtual-key marker: `wScan` is 0 and `KEYEVENTF_EXTENDEDKEY` is
set. -/
def VirtualMarked (e : INPUT) : Prop :=
  e.ki.wScan = 0 ∧ e.ki.dwFlags &&& KEYEVENTF_EXTENDEDKEY = KEYEVENTF_EXTENDEDKEY

/-- In a sequence, every key-up event is the key-down event of the same key with
`KEYEVENTF_KEYUP` set and nothing else changed. -/
def UpIsDownWithKeyUp (evs : List INPUT) : Prop :=
  ∀ d ∈ evs, ∀ u ∈ evs, isKeyUp d = false → isKeyUp u = true →
    keyIdentity d = keyIdentity u → u = orFlags KEYEVENTF_KEYUP d

/-- The two kinds of store that the fill loop of case `StringOutput` makes into
`keystrokes`: the copy of a prototype into a cell, `keystrokes[j] = INPUT(...)`, and the
store of a code unit in a cell, `keystrokes[j].ki.wScan = ...`. -/
inductive StringStore where
  | prototype
  | wScan
deriving DecidableEq, Repr

/-- The fill loop of case `StringOutput` as far as indices go, `remaining` iterations from
index `i`: the stores into `keystrokes` in program order, each with its index and its kind,
and the value of the `UINT` `currentIndex` after the loop. -/
def stringStores (codepoints : List Nat) :
    Nat → Nat → Nat → Except Fault (List (Nat × StringStore) × Nat)
  | 0, _, currentIndex => pure ([], currentIndex)
  | remaining + 1, i, currentIndex => do
    let c ← readAt codepoints i
    if c ≤ 0xffff then
      let down := currentIndex
      let currentIndex := (currentIndex + 1) % 2 ^ 32
      let up := currentIndex
      let currentIndex := (currentIndex + 1) % 2 ^ 32
      let t ← stringStores codepoints remaining (i + 1) currentIndex
      pure ((down, .prototype) :: (down, .wScan) :: (up, .prototype) :: (up, .wScan) :: t.1,
        t.2)
    else
      let down := currentIndex
      let down1 := (currentIndex + 1) % 2 ^ 32
      let currentIndex := (currentIndex + 2) % 2 ^ 32
      let up := currentIndex
      let up1 := (currentIndex + 1) % 2 ^ 32
      let currentIndex := (currentIndex + 2) % 2 ^ 32
      let t ← stringStores codepoints remaining (i + 1) currentIndex
      pure ((down, .prototype) :: (down1, .prototype) :: (down, .wScan) :: (down1, .wScan)
        :: (up, .prototype) :: (up1, .prototype) :: (up, .wScan) :: (up1, .wScan) :: t.1,
        t.2)

/-- The indices of the stores of one kind among `stores`, in program order. -/
def storeIndices (kind : StringStore) (stores : List (Nat × StringStore)) : List Nat :=
  (stores.filter (fun p => p.2 = kind)).map (fun p => p.1)

/-- The UTF-16 code units that the factory computes for the code point `c`: `c` itself when
it is at most `0xFFFF`, else its high and its low surrogate. -/
def codeUnits (c : Nat) : List Nat :=
  if c ≤ 0xFFFF then [c] else [highSurrogate c, lowSurrogate c]

/-! ## Sample values -/

/-- Storage content on which the sample factory is constructed. -/
def sampleStorage : OutputFactory :=
  { UnicodePrototypeDown := ⟨7, ⟨11, 12, 13, 14, 15⟩⟩,
    UnicodePrototypeUp := ⟨7, ⟨21, 22, 23, 24, 25⟩⟩,
    VirtualKeyPrototypeDown := ⟨7, ⟨31, 32, 33, 34, 35⟩⟩,
    VirtualKeyPrototypeUp := ⟨7, ⟨41, 42, 43, 44, 45⟩⟩ }

/-- A sample assignment of the modifier constants. -/
def sampleModifiers : VirtualModifiers := ⟨0x01, 0x02, 0x04, 0x08, 0x10, 0x20, 0x40, 0x80⟩

/-- A sample content of fresh array cells. -/
def sampleMemory : Nat → INPUT := fun i => ⟨100 + i, ⟨1, 2, 3, 4, 5⟩⟩

/-! ## Theorems: Build Unicode -/

/-- Splitting a 20-bit value into its upper and lower ten bits loses nothing. -/
theorem shiftRight_and_bounds (x : Nat) (hx : x < 2 ^ 20) :
    x >>> 10 < 1024 ∧ x &&& 0x3ff < 1024 ∧ ((x >>> 10) <<< 10) + (x &&& 0x3ff) = x := by
  have h1 : x >>> 10 = x / 1024 := by simp [Nat.shiftRight_eq_div_pow]
  have h2 : x &&& 0x3ff = x % 1024 := by
    have := Nat.and_pow_two_sub_one_eq_mod x 10
    simpa using this
  have h3 : (x / 1024) <<< 10 = x / 1024 * 1024 := by simp [Nat.shiftLeft_eq]
  rw [h1, h2, h3]
  omega

/-- C1: for every value `v ≤ 0xFFFF`, `getInstance(UnicodeOutput, v, _)` returns a descriptor
with `inputCount = 1`, one event in `keystrokesDown` (a key-down) and one in `keystrokesUp`
(a key-up), both with `wScan = v`. -/
theorem C1_unicode_one_unit (raw : OutputFactory) (M : VirtualModifiers) (mem : Nat → INPUT)
    (v : Nat) (lp : ULONG_PTR) (hv : v ≤ 0xFFFF) :
    ∃ d u : INPUT,
      (OutputFactory.construct raw).getInstance M mem .UnicodeOutput v lp
        = .ok (some (.UnicodeOutput v 1 [d] [u]))
      ∧ d.ki.wScan = v ∧ u.ki.wScan = v
      ∧ d.ki.dwFlags &&& KEYEVENTF_KEYUP = 0
      ∧ u.ki.dwFlags &&& KEYEVENTF_KEYUP = KEYEVENTF_KEYUP := by
  have hmod : v % 65536 = v := Nat.mod_eq_of_lt (by omega)
  refine ⟨setScan v (OutputFactory.construct raw).UnicodePrototypeDown,
    setScan v (OutputFactory.construct raw).UnicodePrototypeUp, ?_, ?_, ?_, ?_, ?_⟩
  · simp only [OutputFactory.getInstance]
    rw [if_pos (by simpa using hv)]
    rfl
  · simp [setScan, OutputFactory.construct, hmod]
  · simp [setScan, OutputFactory.construct, orFlags, hmod]
  · simp [setScan, OutputFactory.construct, KEYEVENTF_UNICODE, KEYEVENTF_KEYUP]
    decide
  · simp [setScan, OutputFactory.construct, orFlags, KEYEVENTF_UNICODE, KEYEVENTF_KEYUP]
    decide


/-- C1 at the letter `A` (`0x41`). -/
theorem C1_witness :
    (0x41 : Nat) ≤ 0xFFFF ∧
    ∃ d u : INPUT,
      (OutputFactory.construct sampleStorage).getInstance sampleModifiers sampleMemory
          .UnicodeOutput 0x41 ⟨0, []⟩
        = .ok (some (.UnicodeOutput 0x41 1 [d] [u]))
      ∧ d.ki.wScan = 0x41 ∧ u.ki.wScan = 0x41
      ∧ d.ki.dwFlags &&& KEYEVENTF_KEYUP = 0
      ∧ u.ki.dwFlags &&& KEYEVENTF_KEYUP = KEYEVENTF_KEYUP :=
  ⟨by decide, C1_unicode_one_unit sampleStorage sampleModifiers sampleMemory 0x41 ⟨0, []⟩ (by decide)⟩

/-- C2: for every value `0x10000 ≤ v ≤ 0x10FFFF`, `getInstance(UnicodeOutput, v, _)` returns
a descriptor of exactly four events, the downs `[high, low]` and the ups `[high, low]`, where
`high = 0xD800 + ((v - 0x10000) >> 10)` lies in `0xD800..0xDBFF`,
`low = 0xDC00 + ((v - 0x10000) & 0x3FF)` lies in `0xDC00..0xDFFF`, and decoding the pair as
`0x10000 + ((high - 0xD800) << 10) + (low - 0xDC00)` gives back `v`. -/
theorem C2_unicode_surrogate_pair (raw : OutputFactory) (M : VirtualModifiers)
    (mem : Nat → INPUT) (v : Nat) (lp : ULONG_PTR) (hlo : 0x10000 ≤ v) (hhi : v ≤ 0x10FFFF) :
    let high := 0xD800 + ((v - 0x10000) >>> 10)
    let low := 0xDC00 + ((v - 0x10000) &&& 0x3FF)
    (∃ dh dl uh ul : INPUT,
      (OutputFactory.construct raw).getInstance M mem .UnicodeOutput v lp
        = .ok (some (.UnicodeOutput v 2 [dh, dl] [uh, ul]))
      ∧ dh.ki.wScan = high ∧ dl.ki.wScan = low ∧ uh.ki.wScan = high ∧ ul.ki.wScan = low
      ∧ dh.ki.dwFlags &&& KEYEVENTF_KEYUP = 0 ∧ dl.ki.dwFlags &&& KEYEVENTF_KEYUP = 0
      ∧ uh.ki.dwFlags &&& KEYEVENTF_KEYUP = KEYEVENTF_KEYUP
      ∧ ul.ki.dwFlags &&& KEYEVENTF_KEYUP = KEYEVENTF_KEYUP)
    ∧ 0xD800 ≤ high ∧ high ≤ 0xDBFF ∧ 0xDC00 ≤ low ∧ low ≤ 0xDFFF
    ∧ 0x10000 + ((high - 0xD800) <<< 10) + (low - 0xDC00) = v := by
  intro high low
  obtain ⟨h1, h2, h3⟩ := shiftRight_and_bounds (v - 0x10000) (by omega)
  have hh : (0xd800 + ((v - 0x10000) >>> 10)) % 2 ^ 16 = high :=
    Nat.mod_eq_of_lt (by omega)
  have hl : (0xdc00 + ((v - 0x10000) &&& 0x3ff)) % 2 ^ 16 = low :=
    Nat.mod_eq_of_lt (by omega)
  refine ⟨⟨setScan high (OutputFactory.construct raw).UnicodePrototypeDown,
    setScan low (OutputFactory.construct raw).UnicodePrototypeDown,
    setScan high (OutputFactory.construct raw).UnicodePrototypeUp,
    setScan low (OutputFactory.construct raw).UnicodePrototypeUp,
    ?_, ?_, ?_, ?_, ?_, ?_, ?_, ?_, ?_⟩, ?_, ?_, ?_, ?_, ?_⟩
  · simp only [OutputFactory.getInstance]
    rw [if_neg (by omega), hh, hl]
    rfl
  · show high % 2 ^ 16 = high
    exact Nat.mod_eq_of_lt (by omega)
  · show low % 2 ^ 16 = low
    exact Nat.mod_eq_of_lt (by omega)
  · show high % 2 ^ 16 = high
    exact Nat.mod_eq_of_lt (by omega)
  · show low % 2 ^ 16 = low
    exact Nat.mod_eq_of_lt (by omega)
  · simp [setScan, OutputFactory.construct, KEYEVENTF_UNICODE, KEYEVENTF_KEYUP]
    decide
  · simp [setScan, OutputFactory.construct, KEYEVENTF_UNICODE, KEYEVENTF_KEYUP]
    decide
  · simp [setScan, OutputFactory.construct, orFlags, KEYEVENTF_UNICODE, KEYEVENTF_KEYUP]
    decide
  · simp [setScan, OutputFactory.construct, orFlags, KEYEVENTF_UNICODE, KEYEVENTF_KEYUP]
    decide
  · omega
  · omega
  · omega
  · omega
  · show 0x10000 + ((0xD800 + ((v - 0x10000) >>> 10) - 0xD800) <<< 10)
      + (0xDC00 + ((v - 0x10000) &&& 0x3FF) - 0xDC00) = v
    rw [Nat.add_sub_cancel_left, Nat.add_sub_cancel_left, Nat.add_assoc, h3]
    omega


/-- C2 at the fixture value `0x1F605` of `Parser::ReadFile`: the pair is `0xD83D`, `0xDE05`. -/
theorem C2_witness :
    (0x10000 : Nat) ≤ 0x1F605 ∧ (0x1F605 : Nat) ≤ 0x10FFFF ∧
    0xD800 + ((0x1F605 - 0x10000) >>> 10) = 0xD83D ∧
    0xDC00 + ((0x1F605 - 0x10000) &&& 0x3FF) = 0xDE05 ∧
    (let high := 0xD800 + ((0x1F605 - 0x10000) >>> 10)
     let low := 0xDC00 + ((0x1F605 - 0x10000) &&& 0x3FF)
     (∃ dh dl uh ul : INPUT,
        (OutputFactory.construct sampleStorage).getInstance sampleModifiers sampleMemory
            .UnicodeOutput 0x1F605 ⟨0, []⟩
          = .ok (some (.UnicodeOutput 0x1F605 2 [dh, dl] [uh, ul]))
        ∧ dh.ki.wScan = high ∧ dl.ki.wScan = low ∧ uh.ki.wScan = high ∧ ul.ki.wScan = low
        ∧ dh.ki.dwFlags &&& KEYEVENTF_KEYUP = 0 ∧ dl.ki.dwFlags &&& KEYEVENTF_KEYUP = 0
        ∧ uh.ki.dwFlags &&& KEYEVENTF_KEYUP = KEYEVENTF_KEYUP
        ∧ ul.ki.dwFlags &&& KEYEVENTF_KEYUP = KEYEVENTF_KEYUP)
      ∧ 0xD800 ≤ high ∧ high ≤ 0xDBFF ∧ 0xDC00 ≤ low ∧ low ≤ 0xDFFF
      ∧ 0x10000 + ((high - 0xD800) <<< 10) + (low - 0xDC00) = 0x1F605) :=
  ⟨by decide, by decide, by decide, by decide,
   C2_unicode_surrogate_pair sampleStorage sampleModifiers sampleMemory 0x1F605 ⟨0, []⟩
     (by decide) (by decide)⟩

/-- C3 fails as stated: `0x110000` is above `0x10FFFF`, yet `getInstance(UnicodeOutput,
0x110000, _)` does not return `nullptr`. -/
theorem C3_unicode_out_of_range_is_built :
    ¬ ((OutputFactory.construct sampleStorage).getInstance sampleModifiers sampleMemory
          .UnicodeOutput 0x110000 ⟨0, []⟩ = .ok none
        ↔ 0x110000 > 0x10FFFF) := by
  decide

/-- C3, amended: `getInstance(UnicodeOutput, v, _)` returns `nullptr` for no value `v`, in or
out of the Unicode range; it always returns a descriptor for `v`, with one event pair when
`v ≤ 0xFFFF` and two otherwise. -/
theorem C3_unicode_never_null (raw : OutputFactory) (M : VirtualModifiers)
    (mem : Nat → INPUT) (v : Nat) (lp : ULONG_PTR) :
    (OutputFactory.construct raw).getInstance M mem .UnicodeOutput v lp ≠ .ok none
    ∧ ∃ inputCount down up,
        (OutputFactory.construct raw).getInstance M mem .UnicodeOutput v lp
          = .ok (some (.UnicodeOutput v inputCount down up))
        ∧ down.length = inputCount ∧ up.length = inputCount
        ∧ (inputCount = 1 ↔ v ≤ 0xFFFF) ∧ (inputCount = 2 ↔ 0xFFFF < v) := by
  by_cases hv : v ≤ 0xffff
  · have h : (OutputFactory.construct raw).getInstance M mem .UnicodeOutput v lp
        = .ok (some (.UnicodeOutput v 1
            [setScan v (OutputFactory.construct raw).UnicodePrototypeDown]
            [setScan v (OutputFactory.construct raw).UnicodePrototypeUp])) := by
      simp only [OutputFactory.getInstance]
      rw [if_pos hv]
      rfl
    rw [h]
    refine ⟨by simp, 1, _, _, rfl, rfl, rfl, ?_, ?_⟩
    · simpa using hv
    · constructor
      · intro h2; exact absurd h2 (by decide)
      · intro h2; omega
  · have h : (OutputFactory.construct raw).getInstance M mem .UnicodeOutput v lp
        = .ok (some (.UnicodeOutput v 2
            [setScan ((0xd800 + ((v - 0x10000) >>> 10)) % 2 ^ 16)
                (OutputFactory.construct raw).UnicodePrototypeDown,
             setScan ((0xdc00 + ((v - 0x10000) &&& 0x3ff)) % 2 ^ 16)
                (OutputFactory.construct raw).UnicodePrototypeDown]
            [setScan ((0xd800 + ((v - 0x10000) >>> 10)) % 2 ^ 16)
                (OutputFactory.construct raw).UnicodePrototypeUp,
             setScan ((0xdc00 + ((v - 0x10000) &&& 0x3ff)) % 2 ^ 16)
                (OutputFactory.construct raw).UnicodePrototypeUp])) := by
      simp only [OutputFactory.getInstance]
      rw [if_neg hv]
      rfl
    rw [h]
    refine ⟨by simp, 2, _, _, rfl, rfl, rfl, ?_, ?_⟩
    · constructor
      · intro h2; exact absurd h2 (by decide)
      · intro h2; omega
    · constructor
      · intro _; omega
      · intro _; rfl

/-! ## Theorems: Build Virtual Output -/

theorem flagSet_two_pow (l k : Nat) : flagSet l (2 ^ k) = l.testBit k := by
  unfold flagSet
  rw [Nat.and_two_pow]
  cases h : l.testBit k
  · have : (0 : Nat) ≠ 2 ^ k := (Nat.pos_pow_of_pos k (by decide)).ne
    simpa using this
  · simp

theorem countModifiers_eq (l : Nat) : countModifiers l = popCount8 l := by
  have key : ∀ i, ((l >>> i) &&& 1 ≠ 0) ↔ l.testBit i = true := by
    intro i
    simp [Nat.testBit, Nat.land_comm]
  unfold countModifiers popCount8
  simp only [List.range, List.range.loop, List.foldl, key, List.filter]
  generalize l.testBit 0 = b0
  generalize l.testBit 1 = b1
  generalize l.testBit 2 = b2
  generalize l.testBit 3 = b3
  generalize l.testBit 4 = b4
  generalize l.testBit 5 = b5
  generalize l.testBit 6 = b6
  generalize l.testBit 7 = b7
  revert b0 b1 b2 b3 b4 b5 b6 b7
  decide


theorem popCount8_eq_flags (M : VirtualModifiers) (hM : M.WellFormed) (l : Nat) :
    popCount8 l =
      (flagSet l M.VIRTUAL_MODIFIER_LCTRL).toNat + (flagSet l M.VIRTUAL_MODIFIER_RCTRL).toNat +
      (flagSet l M.VIRTUAL_MODIFIER_LALT).toNat + (flagSet l M.VIRTUAL_MODIFIER_RALT).toNat +
      (flagSet l M.VIRTUAL_MODIFIER_LWIN).toNat + (flagSet l M.VIRTUAL_MODIFIER_RWIN).toNat +
      (flagSet l M.VIRTUAL_MODIFIER_LSHIFT).toNat + (flagSet l M.VIRTUAL_MODIFIER_RSHIFT).toNat := by
  have hsum := (List.Perm.map (fun F => (flagSet l F).toNat) hM).sum_eq
  have e0 : flagSet l 1 = l.testBit 0 := flagSet_two_pow l 0
  have e1 : flagSet l 2 = l.testBit 1 := flagSet_two_pow l 1
  have e2 : flagSet l 4 = l.testBit 2 := flagSet_two_pow l 2
  have e3 : flagSet l 8 = l.testBit 3 := flagSet_two_pow l 3
  have e4 : flagSet l 16 = l.testBit 4 := flagSet_two_pow l 4
  have e5 : flagSet l 32 = l.testBit 5 := flagSet_two_pow l 5
  have e6 : flagSet l 64 = l.testBit 6 := flagSet_two_pow l 6
  have e7 : flagSet l 128 = l.testBit 7 := flagSet_two_pow l 7
  simp only [VirtualModifiers.toList, List.map, List.sum_cons, List.sum_nil,
    e0, e1, e2, e3, e4, e5, e6, e7] at hsum
  have hpop : popCount8 l =
      (l.testBit 0).toNat + ((l.testBit 1).toNat + ((l.testBit 2).toNat + ((l.testBit 3).toNat +
        ((l.testBit 4).toNat + ((l.testBit 5).toNat + ((l.testBit 6).toNat +
          ((l.testBit 7).toNat + 0))))))) := by
    unfold popCount8
    simp only [List.range, List.range.loop, List.filter]
    generalize l.testBit 0 = b0
    generalize l.testBit 1 = b1
    generalize l.testBit 2 = b2
    generalize l.testBit 3 = b3
    generalize l.testBit 4 = b4
    generalize l.testBit 5 = b5
    generalize l.testBit 6 = b6
    generalize l.testBit 7 = b7
    revert b0 b1 b2 b3 b4 b5 b6 b7
    decide
  rw [hpop, ← hsum]
  omega

theorem mem_bits_of_wellFormed (M : VirtualModifiers) (hM : M.WellFormed) (F : Nat)
    (hF : F ∈ M.toList) : ∃ k, k < 8 ∧ F = 2 ^ k := by
  have h := (List.Perm.mem_iff hM).mp hF
  simp only [List.mem_cons, List.mem_singleton, List.mem_nil_iff, or_false] at h
  rcases h with h | h | h | h | h | h | h | h
  · exact ⟨0, by decide, by simpa using h⟩
  · exact ⟨1, by decide, by simpa using h⟩
  · exact ⟨2, by decide, by simpa using h⟩
  · exact ⟨3, by decide, by simpa using h⟩
  · exact ⟨4, by decide, by simpa using h⟩
  · exact ⟨5, by decide, by simpa using h⟩
  · exact ⟨6, by decide, by simpa using h⟩
  · exact ⟨7, by decide, by simpa using h⟩

theorem lshift_ne_rshift (M : VirtualModifiers) (hM : M.WellFormed) :
    M.VIRTUAL_MODIFIER_LSHIFT ≠ M.VIRTUAL_MODIFIER_RSHIFT := by
  have hnd : M.toList.Nodup := (List.Perm.nodup_iff hM).mpr (by decide)
  simp only [VirtualModifiers.toList, List.nodup_cons, List.mem_cons, List.mem_singleton,
    not_or] at hnd
  tauto

/-- With well-formed constants the seventh test of `getInstance`,
`(_lParam & VIRTUAL_MODIFIER_LSHIFT) == VIRTUAL_MODIFIER_RSHIFT`, never holds. -/
theorem lshift_test_false (M : VirtualModifiers) (hM : M.WellFormed) (l : Nat) :
    (l &&& M.VIRTUAL_MODIFIER_LSHIFT == M.VIRTUAL_MODIFIER_RSHIFT) = false := by
  obtain ⟨a, _, ha⟩ := mem_bits_of_wellFormed M hM M.VIRTUAL_MODIFIER_LSHIFT
    (by simp [VirtualModifiers.toList])
  obtain ⟨b, _, hb⟩ := mem_bits_of_wellFormed M hM M.VIRTUAL_MODIFIER_RSHIFT
    (by simp [VirtualModifiers.toList])
  have hne := lshift_ne_rshift M hM
  have hpos : 0 < M.VIRTUAL_MODIFIER_RSHIFT := by rw [hb]; exact Nat.pos_pow_of_pos b (by decide)
  rw [beq_eq_false_iff_ne]
  intro h
  rw [ha, Nat.and_two_pow] at h
  cases ht : l.testBit a
  · rw [ht] at h; simp at h; omega
  · rw [ht] at h; simp at h; rw [← ha] at h; exact hne h


/-- The result of case `VirtualOutput` in closed form, for well-formed constants. -/
theorem virtual_shape (raw : OutputFactory) (M : VirtualModifiers) (mem : Nat → INPUT)
    (_nParam : Nat) (_lParam : ULONG_PTR) (hM : M.WellFormed) :
    (OutputFactory.construct raw).getInstance M mem .VirtualOutput _nParam _lParam
      = .ok (some (.VirtualKeyOutput (popCount8 _lParam.value + 1)
          (downPhase (OutputFactory.construct raw).VirtualKeyPrototypeDown M _lParam.value
            _nParam)
          (upPhase (OutputFactory.construct raw).VirtualKeyPrototypeUp M _lParam.value
            _nParam))) := by
  simp only [OutputFactory.getInstance]
  rw [countModifiers_eq, popCount8_eq_flags M hM, lshift_test_false M hM]
  unfold downPhase upPhase placedModifiers flagSet
  generalize (OutputFactory.construct raw).VirtualKeyPrototypeDown = pd
  generalize (OutputFactory.construct raw).VirtualKeyPrototypeUp = pu
  generalize (_lParam.value &&& M.VIRTUAL_MODIFIER_LCTRL == M.VIRTUAL_MODIFIER_LCTRL) = c0
  generalize (_lParam.value &&& M.VIRTUAL_MODIFIER_RCTRL == M.VIRTUAL_MODIFIER_RCTRL) = c1
  generalize (_lParam.value &&& M.VIRTUAL_MODIFIER_LALT == M.VIRTUAL_MODIFIER_LALT) = c2
  generalize (_lParam.value &&& M.VIRTUAL_MODIFIER_RALT == M.VIRTUAL_MODIFIER_RALT) = c3
  generalize (_lParam.value &&& M.VIRTUAL_MODIFIER_LWIN == M.VIRTUAL_MODIFIER_LWIN) = c4
  generalize (_lParam.value &&& M.VIRTUAL_MODIFIER_RWIN == M.VIRTUAL_MODIFIER_RWIN) = c5
  generalize (_lParam.value &&& M.VIRTUAL_MODIFIER_LSHIFT == M.VIRTUAL_MODIFIER_LSHIFT) = c6
  generalize (_lParam.value &&& M.VIRTUAL_MODIFIER_RSHIFT == M.VIRTUAL_MODIFIER_RSHIFT) = c7
  cases c0 <;> cases c1 <;> cases c2 <;> cases c3 <;> cases c4 <;> cases c5 <;> cases c6 <;>
    cases c7 <;> rfl

theorem placed_length (M : VirtualModifiers) (hM : M.WellFormed) (l : Nat) :
    (placedModifiers M l).length + (flagSet l M.VIRTUAL_MODIFIER_LSHIFT).toNat
      = popCount8 l := by
  rw [popCount8_eq_flags M hM]
  unfold placedModifiers
  generalize flagSet l M.VIRTUAL_MODIFIER_LCTRL = c0
  generalize flagSet l M.VIRTUAL_MODIFIER_RCTRL = c1
  generalize flagSet l M.VIRTUAL_MODIFIER_LALT = c2
  generalize flagSet l M.VIRTUAL_MODIFIER_RALT = c3
  generalize flagSet l M.VIRTUAL_MODIFIER_LWIN = c4
  generalize flagSet l M.VIRTUAL_MODIFIER_RWIN = c5
  generalize flagSet l M.VIRTUAL_MODIFIER_LSHIFT = c6
  generalize flagSet l M.VIRTUAL_MODIFIER_RSHIFT = c7
  revert c0 c1 c2 c3 c4 c5 c6 c7
  decide

theorem downPhase_length (pd : INPUT) (M : VirtualModifiers) (hM : M.WellFormed)
    (l key : Nat) : (downPhase pd M l key).length = popCount8 l + 1 := by
  have hlen := placed_length M hM l
  unfold downPhase
  cases h : flagSet l M.VIRTUAL_MODIFIER_LSHIFT <;> simp [h] at hlen ⊢ <;> omega

theorem upPhase_length (pu : INPUT) (M : VirtualModifiers) (hM : M.WellFormed)
    (l key : Nat) : (upPhase pu M l key).length = popCount8 l + 1 := by
  have hlen := placed_length M hM l
  unfold upPhase
  cases h : flagSet l M.VIRTUAL_MODIFIER_LSHIFT <;> simp [h] at hlen ⊢ <;> omega

/-- The key codes of `upPhase` are those of `downPhase` reversed, the two prototypes having
the same `wVk`. -/
theorem upPhase_reverse (raw : OutputFactory) (M : VirtualModifiers) (l key : Nat) :
    (upPhase (OutputFactory.construct raw).VirtualKeyPrototypeUp M l key).map
        (fun e => e.ki.wVk)
      = ((downPhase (OutputFactory.construct raw).VirtualKeyPrototypeDown M l key).map
          (fun e => e.ki.wVk)).reverse := by
  unfold upPhase downPhase
  cases h : flagSet l M.VIRTUAL_MODIFIER_LSHIFT <;>
    simp [h, List.map_reverse, setVk, OutputFactory.construct, orFlags, Function.comp_def]

theorem reverse_index (down up : List INPUT) (m : Nat)
    (hd : down.length = m + 1) (hu : up.length = m + 1)
    (hrev : up.map (fun e => e.ki.wVk) = (down.map (fun e => e.ki.wVk)).reverse)
    (j : Nat) (hj : j ≤ m) :
    ∃ u d, up[j]? = some u ∧ down[m - j]? = some d ∧ u.ki.wVk = d.ki.wVk := by
  have hju : j < up.length := by omega
  have hjd : m - j < down.length := by omega
  refine ⟨up[j], down[m - j], List.getElem?_eq_getElem hju, List.getElem?_eq_getElem hjd, ?_⟩
  have h1 : (up.map (fun e => e.ki.wVk))[j]? = some (up[j]).ki.wVk := by
    rw [List.getElem?_map, List.getElem?_eq_getElem hju]; rfl
  have h2 : ((down.map (fun e => e.ki.wVk)).reverse)[j]? = some (down[m - j]).ki.wVk := by
    rw [List.getElem?_reverse (by simpa using (by omega : j < down.length)), List.getElem?_map]
    have : (List.map (fun e => e.ki.wVk) down).length - 1 - j = m - j := by
      simp [hd]
    rw [this, List.getElem?_eq_getElem hjd]; rfl
  rw [hrev, h2] at h1
  exact (Option.some.inj h1).symm

/-- C5: for every target key code and every mask, with `m` the number of set bits among the
low eight bits of the mask, `getInstance(VirtualOutput, key, mask)` returns a descriptor with
`inputCount = m + 1`, `m + 1` events in `keystrokesDown`, all key-downs, and `m + 1` in
`keystrokesUp`, all key-ups: `2 (m + 1)` events in total. -/
theorem C5_virtual_event_count (raw : OutputFactory) (M : VirtualModifiers)
    (mem : Nat → INPUT) (_nParam : Nat) (_lParam : ULONG_PTR) (hM : M.WellFormed) :
    ∃ down up : List INPUT,
      (OutputFactory.construct raw).getInstance M mem .VirtualOutput _nParam _lParam
        = .ok (some (.VirtualKeyOutput (popCount8 _lParam.value + 1) down up))
      ∧ down.length = popCount8 _lParam.value + 1
      ∧ up.length = popCount8 _lParam.value + 1
      ∧ down.length + up.length = 2 * (popCount8 _lParam.value + 1)
      ∧ (∀ d ∈ down, d.ki.dwFlags &&& KEYEVENTF_KEYUP = 0)
      ∧ (∀ u ∈ up, u.ki.dwFlags &&& KEYEVENTF_KEYUP = KEYEVENTF_KEYUP) := by
  have hd := downPhase_length (OutputFactory.construct raw).VirtualKeyPrototypeDown M hM
    _lParam.value _nParam
  have hu := upPhase_length (OutputFactory.construct raw).VirtualKeyPrototypeUp M hM
    _lParam.value _nParam
  refine ⟨_, _, virtual_shape raw M mem _nParam _lParam hM, hd, hu, by omega, ?_, ?_⟩
  · intro d hd
    simp only [downPhase, List.mem_append, List.mem_map, List.mem_singleton] at hd
    rcases hd with (⟨vk, _, rfl⟩ | rfl) | hd
    · simp [setVk, OutputFactory.construct, KEYEVENTF_EXTENDEDKEY, KEYEVENTF_KEYUP]
    · simp [setVk, OutputFactory.construct, KEYEVENTF_EXTENDEDKEY, KEYEVENTF_KEYUP]
    · cases h : flagSet _lParam.value M.VIRTUAL_MODIFIER_LSHIFT
      · simp [h] at hd
      · simp [h] at hd
        subst hd
        simp [OutputFactory.construct, KEYEVENTF_EXTENDEDKEY, KEYEVENTF_KEYUP]
  · intro u hu
    simp only [upPhase, List.mem_append, List.mem_map, List.mem_singleton] at hu
    rcases hu with (hu | rfl) | ⟨vk, _, rfl⟩
    · cases h : flagSet _lParam.value M.VIRTUAL_MODIFIER_LSHIFT
      · simp [h] at hu
      · simp [h] at hu
        subst hu
        simp [OutputFactory.construct, orFlags, KEYEVENTF_EXTENDEDKEY, KEYEVENTF_KEYUP]
        decide
    · simp [setVk, OutputFactory.construct, orFlags, KEYEVENTF_EXTENDEDKEY, KEYEVENTF_KEYUP]
      decide
    · simp [setVk, OutputFactory.construct, orFlags, KEYEVENTF_EXTENDEDKEY, KEYEVENTF_KEYUP]
      decide

/-- C5 at the fixture call `getInstance(VirtualOutput, 0x020, 0)` of `Parser::ReadFile`. -/
theorem C5_witness :
    sampleModifiers.WellFormed ∧
    ∃ down up : List INPUT,
      (OutputFactory.construct sampleStorage).getInstance sampleModifiers sampleMemory
          .VirtualOutput 0x020 ⟨0, []⟩
        = .ok (some (.VirtualKeyOutput (popCount8 (ULONG_PTR.mk 0 []).value + 1) down up))
      ∧ down.length = popCount8 (ULONG_PTR.mk 0 []).value + 1
      ∧ up.length = popCount8 (ULONG_PTR.mk 0 []).value + 1
      ∧ down.length + up.length = 2 * (popCount8 (ULONG_PTR.mk 0 []).value + 1)
      ∧ (∀ d ∈ down, d.ki.dwFlags &&& KEYEVENTF_KEYUP = 0)
      ∧ (∀ u ∈ up, u.ki.dwFlags &&& KEYEVENTF_KEYUP = KEYEVENTF_KEYUP) :=
  ⟨by decide,
   C5_virtual_event_count sampleStorage sampleModifiers sampleMemory 0x020 ⟨0, []⟩ (by decide)⟩

/-- C6: for every target key code and every mask, the constants being distinct single bits
of the low byte, the key codes of `keystrokesUp[0..m]` are those of `keystrokesDown[0..m]`
in reverse order: `keystrokesUp[j].wVk = keystrokesDown[m - j].wVk` for every `j` in
`0..m`. -/
theorem C6_virtual_up_reverses_down (raw : OutputFactory) (M : VirtualModifiers)
    (mem : Nat → INPUT) (_nParam : Nat) (_lParam : ULONG_PTR) (hM : M.WellFormed) :
    ∃ down up : List INPUT,
      (OutputFactory.construct raw).getInstance M mem .VirtualOutput _nParam _lParam
        = .ok (some (.VirtualKeyOutput (popCount8 _lParam.value + 1) down up))
      ∧ up.map (fun e => e.ki.wVk) = (down.map (fun e => e.ki.wVk)).reverse
      ∧ ∀ j, j ≤ popCount8 _lParam.value →
          ∃ u d, up[j]? = some u ∧ down[popCount8 _lParam.value - j]? = some d
            ∧ u.ki.wVk = d.ki.wVk := by
  have hd := downPhase_length (OutputFactory.construct raw).VirtualKeyPrototypeDown M hM
    _lParam.value _nParam
  have hu := upPhase_length (OutputFactory.construct raw).VirtualKeyPrototypeUp M hM
    _lParam.value _nParam
  have hrev := upPhase_reverse raw M _lParam.value _nParam
  exact ⟨_, _, virtual_shape raw M mem _nParam _lParam hM, hrev,
    fun j hj => reverse_index _ _ _ hd hu hrev j hj⟩

/-- C6 at the key `A` with the mask of Ctrl-L and Alt-R. -/
theorem C6_witness :
    sampleModifiers.WellFormed ∧
    ∃ down up : List INPUT,
      (OutputFactory.construct sampleStorage).getInstance sampleModifiers sampleMemory
          .VirtualOutput 0x41 ⟨0x09, []⟩
        = .ok (some (.VirtualKeyOutput (popCount8 (ULONG_PTR.mk 0x09 []).value + 1) down up))
      ∧ up.map (fun e => e.ki.wVk) = (down.map (fun e => e.ki.wVk)).reverse
      ∧ ∀ j, j ≤ popCount8 (ULONG_PTR.mk 0x09 []).value →
          ∃ u d, up[j]? = some u ∧ down[popCount8 (ULONG_PTR.mk 0x09 []).value - j]? = some d
            ∧ u.ki.wVk = d.ki.wVk :=
  ⟨by decide,
   C6_virtual_up_reverses_down sampleStorage sampleModifiers sampleMemory 0x41 ⟨0x09, []⟩
     (by decide)⟩


theorem flagSet_flag (M : VirtualModifiers) (hM : M.WellFormed) (A X : Nat)
    (hA : A ∈ M.toList) (hX : X ∈ M.toList) : flagSet A X = decide (X = A) := by
  obtain ⟨a, _, rfl⟩ := mem_bits_of_wellFormed M hM A hA
  obtain ⟨x, _, rfl⟩ := mem_bits_of_wellFormed M hM X hX
  rw [flagSet_two_pow, Nat.testBit_two_pow]
  have : (2 ^ x = 2 ^ a) ↔ a = x := by
    constructor
    · intro h; exact (Nat.pow_right_injective (le_refl 2) h).symm
    · intro h; rw [h]
  simp [this]

theorem flagSet_or_flag (M : VirtualModifiers) (hM : M.WellFormed) (A B X : Nat)
    (hA : A ∈ M.toList) (hB : B ∈ M.toList) (hX : X ∈ M.toList) :
    flagSet (A ||| B) X = (decide (X = A) || decide (X = B)) := by
  rw [← flagSet_flag M hM A X hA hX, ← flagSet_flag M hM B X hB hX]
  obtain ⟨x, _, rfl⟩ := mem_bits_of_wellFormed M hM X hX
  rw [flagSet_two_pow, flagSet_two_pow, flagSet_two_pow, Nat.testBit_or]

/-- Well-formed constants are pairwise distinct. -/
theorem wellFormed_distinct (M : VirtualModifiers) (hM : M.WellFormed) :
    (¬M.VIRTUAL_MODIFIER_LCTRL = M.VIRTUAL_MODIFIER_RCTRL ∧
      ¬M.VIRTUAL_MODIFIER_LCTRL = M.VIRTUAL_MODIFIER_LALT ∧
      ¬M.VIRTUAL_MODIFIER_LCTRL = M.VIRTUAL_MODIFIER_RALT ∧
      ¬M.VIRTUAL_MODIFIER_LCTRL = M.VIRTUAL_MODIFIER_LWIN ∧
      ¬M.VIRTUAL_MODIFIER_LCTRL = M.VIRTUAL_MODIFIER_RWIN ∧
      ¬M.VIRTUAL_MODIFIER_LCTRL = M.VIRTUAL_MODIFIER_LSHIFT ∧
      ¬M.VIRTUAL_MODIFIER_LCTRL = M.VIRTUAL_MODIFIER_RSHIFT) ∧
    (¬M.VIRTUAL_MODIFIER_RCTRL = M.VIRTUAL_MODIFIER_LALT ∧
      ¬M.VIRTUAL_MODIFIER_RCTRL = M.VIRTUAL_MODIFIER_RALT ∧
      ¬M.VIRTUAL_MODIFIER_RCTRL = M.VIRTUAL_MODIFIER_LWIN ∧
      ¬M.VIRTUAL_MODIFIER_RCTRL = M.VIRTUAL_MODIFIER_RWIN ∧
      ¬M.VIRTUAL_MODIFIER_RCTRL = M.VIRTUAL_MODIFIER_LSHIFT ∧
      ¬M.VIRTUAL_MODIFIER_RCTRL = M.VIRTUAL_MODIFIER_RSHIFT) ∧
    (¬M.VIRTUAL_MODIFIER_LALT = M.VIRTUAL_MODIFIER_RALT ∧
      ¬M.VIRTUAL_MODIFIER_LALT = M.VIRTUAL_MODIFIER_LWIN ∧
      ¬M.VIRTUAL_MODIFIER_LALT = M.VIRTUAL_MODIFIER_RWIN ∧
      ¬M.VIRTUAL_MODIFIER_LALT = M.VIRTUAL_MODIFIER_LSHIFT ∧
      ¬M.VIRTUAL_MODIFIER_LALT = M.VIRTUAL_MODIFIER_RSHIFT) ∧
    (¬M.VIRTUAL_MODIFIER_RALT = M.VIRTUAL_MODIFIER_LWIN ∧
      ¬M.VIRTUAL_MODIFIER_RALT = M.VIRTUAL_MODIFIER_RWIN ∧
      ¬M.VIRTUAL_MODIFIER_RALT = M.VIRTUAL_MODIFIER_LSHIFT ∧
      ¬M.VIRTUAL_MODIFIER_RALT = M.VIRTUAL_MODIFIER_RSHIFT) ∧
    (¬M.VIRTUAL_MODIFIER_LWIN = M.VIRTUAL_MODIFIER_RWIN ∧
      ¬M.VIRTUAL_MODIFIER_LWIN = M.VIRTUAL_MODIFIER_LSHIFT ∧
      ¬M.VIRTUAL_MODIFIER_LWIN = M.VIRTUAL_MODIFIER_RSHIFT) ∧
    (¬M.VIRTUAL_MODIFIER_RWIN = M.VIRTUAL_MODIFIER_LSHIFT ∧
      ¬M.VIRTUAL_MODIFIER_RWIN = M.VIRTUAL_MODIFIER_RSHIFT) ∧
    ¬M.VIRTUAL_MODIFIER_LSHIFT = M.VIRTUAL_MODIFIER_RSHIFT := by
  have hnd : M.toList.Nodup := (List.Perm.nodup_iff hM).mpr (by decide)
  simpa only [VirtualModifiers.toList, List.nodup_cons, List.mem_cons, List.mem_singleton,
    not_or, List.not_mem_nil, not_false_eq_true, List.nodup_nil, and_true] using hnd

/-- The mask of Shift-L alone: nothing is placed, one bit is counted. -/
theorem lshift_mask (M : VirtualModifiers) (hM : M.WellFormed) :
    placedModifiers M M.VIRTUAL_MODIFIER_LSHIFT = []
    ∧ flagSet M.VIRTUAL_MODIFIER_LSHIFT M.VIRTUAL_MODIFIER_LSHIFT = true
    ∧ canonicalModifiers M M.VIRTUAL_MODIFIER_LSHIFT = [VK_LSHIFT]
    ∧ popCount8 M.VIRTUAL_MODIFIER_LSHIFT = 1 := by
  obtain ⟨⟨-, -, -, -, -, h06, -⟩, ⟨-, -, -, -, h16, -⟩, ⟨-, -, -, h26, -⟩, ⟨-, -, h36, -⟩,
    ⟨-, h46, -⟩, ⟨h56, -⟩, h67⟩ := wellFormed_distinct M hM
  have h76 : ¬M.VIRTUAL_MODIFIER_RSHIFT = M.VIRTUAL_MODIFIER_LSHIFT := fun h => h67 h.symm
  have f := fun X hX => flagSet_flag M hM M.VIRTUAL_MODIFIER_LSHIFT X
    (by simp [VirtualModifiers.toList]) hX
  have f0 := f M.VIRTUAL_MODIFIER_LCTRL (by simp [VirtualModifiers.toList])
  have f1 := f M.VIRTUAL_MODIFIER_RCTRL (by simp [VirtualModifiers.toList])
  have f2 := f M.VIRTUAL_MODIFIER_LALT (by simp [VirtualModifiers.toList])
  have f3 := f M.VIRTUAL_MODIFIER_RALT (by simp [VirtualModifiers.toList])
  have f4 := f M.VIRTUAL_MODIFIER_LWIN (by simp [VirtualModifiers.toList])
  have f5 := f M.VIRTUAL_MODIFIER_RWIN (by simp [VirtualModifiers.toList])
  have f6 := f M.VIRTUAL_MODIFIER_LSHIFT (by simp [VirtualModifiers.toList])
  have f7 := f M.VIRTUAL_MODIFIER_RSHIFT (by simp [VirtualModifiers.toList])
  simp only [h06, h16, h26, h36, h46, h56, h76, decide_False, decide_True] at f0 f1 f2 f3 f4 f5 f6 f7
  refine ⟨?_, f6, ?_, ?_⟩
  · simp [placedModifiers, f0, f1, f2, f3, f4, f5, f7]
  · simp [canonicalModifiers, f0, f1, f2, f3, f4, f5, f6, f7]
  · rw [popCount8_eq_flags M hM, f0, f1, f2, f3, f4, f5, f6, f7]; rfl

/-- The mask of Ctrl-L and Shift-L: Ctrl-L alone is placed, two bits are counted. -/
theorem lctrl_lshift_mask (M : VirtualModifiers) (hM : M.WellFormed) :
    placedModifiers M (M.VIRTUAL_MODIFIER_LCTRL ||| M.VIRTUAL_MODIFIER_LSHIFT) = [VK_LCONTROL]
    ∧ flagSet (M.VIRTUAL_MODIFIER_LCTRL ||| M.VIRTUAL_MODIFIER_LSHIFT)
        M.VIRTUAL_MODIFIER_LSHIFT = true
    ∧ popCount8 (M.VIRTUAL_MODIFIER_LCTRL ||| M.VIRTUAL_MODIFIER_LSHIFT) = 2 := by
  obtain ⟨⟨h01, h02, h03, h04, h05, h06, h07⟩, ⟨-, -, -, -, h16, -⟩, ⟨-, -, -, h26, -⟩,
    ⟨-, -, h36, -⟩, ⟨-, h46, -⟩, ⟨h56, -⟩, h67⟩ := wellFormed_distinct M hM
  have h76 : ¬M.VIRTUAL_MODIFIER_RSHIFT = M.VIRTUAL_MODIFIER_LSHIFT := fun h => h67 h.symm
  have h10 : ¬M.VIRTUAL_MODIFIER_RCTRL = M.VIRTUAL_MODIFIER_LCTRL := fun h => h01 h.symm
  have h20 : ¬M.VIRTUAL_MODIFIER_LALT = M.VIRTUAL_MODIFIER_LCTRL := fun h => h02 h.symm
  have h30 : ¬M.VIRTUAL_MODIFIER_RALT = M.VIRTUAL_MODIFIER_LCTRL := fun h => h03 h.symm
  have h40 : ¬M.VIRTUAL_MODIFIER_LWIN = M.VIRTUAL_MODIFIER_LCTRL := fun h => h04 h.symm
  have h50 : ¬M.VIRTUAL_MODIFIER_RWIN = M.VIRTUAL_MODIFIER_LCTRL := fun h => h05 h.symm
  have h60 : ¬M.VIRTUAL_MODIFIER_LSHIFT = M.VIRTUAL_MODIFIER_LCTRL := fun h => h06 h.symm
  have h70 : ¬M.VIRTUAL_MODIFIER_RSHIFT = M.VIRTUAL_MODIFIER_LCTRL := fun h => h07 h.symm
  have f := fun X hX => flagSet_or_flag M hM M.VIRTUAL_MODIFIER_LCTRL
    M.VIRTUAL_MODIFIER_LSHIFT X (by simp [VirtualModifiers.toList])
    (by simp [VirtualModifiers.toList]) hX
  have f0 := f M.VIRTUAL_MODIFIER_LCTRL (by simp [VirtualModifiers.toList])
  have f1 := f M.VIRTUAL_MODIFIER_RCTRL (by simp [VirtualModifiers.toList])
  have f2 := f M.VIRTUAL_MODIFIER_LALT (by simp [VirtualModifiers.toList])
  have f3 := f M.VIRTUAL_MODIFIER_RALT (by simp [VirtualModifiers.toList])
  have f4 := f M.VIRTUAL_MODIFIER_LWIN (by simp [VirtualModifiers.toList])
  have f5 := f M.VIRTUAL_MODIFIER_RWIN (by simp [VirtualModifiers.toList])
  have f6 := f M.VIRTUAL_MODIFIER_LSHIFT (by simp [VirtualModifiers.toList])
  have f7 := f M.VIRTUAL_MODIFIER_RSHIFT (by simp [VirtualModifiers.toList])
  simp only [h06, h16, h26, h36, h46, h56, h76, h10, h20, h30, h40, h50, h60, h70,
    decide_False, decide_True, Bool.or_false, Bool.or_true, Bool.false_or, Bool.true_or]
    at f0 f1 f2 f3 f4 f5 f6 f7
  refine ⟨?_, f6, ?_⟩
  · simp [placedModifiers, f0, f1, f2, f3, f4, f5, f7]
  · rw [popCount8_eq_flags M hM, f0, f1, f2, f3, f4, f5, f6, f7]; rfl

/-- C4, the code at the scenario: with the mask of Ctrl-L and Shift-L and the key `A`,
`getInstance` returns a descriptor of six events that `EvaluateKey` hands back with `TRUE`,
but Shift-L is never placed: the downs are Ctrl-L, `A` and a cell
that still holds the prototype's key code, the ups mirror them, and the key codes differ
from down(Ctrl-L), down(Shift-L), down(A), up(A), up(Shift-L), up(Ctrl-L). -/
theorem C4_scenario_misses_shift (raw : OutputFactory) (M : VirtualModifiers)
    (mem : Nat → INPUT) (target : List Nat) (hM : M.WellFormed) :
    let pd := (OutputFactory.construct raw).VirtualKeyPrototypeDown
    let pu := (OutputFactory.construct raw).VirtualKeyPrototypeUp
    let out := IKeystrokeOutput.VirtualKeyOutput 3
      [setVk VK_LCONTROL pd, setVk 0x41 pd, pd] [pu, setVk 0x41 pu, setVk VK_LCONTROL pu]
    let table : Remapper := ⟨[⟨KBD1, [(⟨0, 0x1F, 0⟩, some out)]⟩]⟩
    (OutputFactory.construct raw).getInstance M mem .VirtualOutput 0x41
        ⟨M.VIRTUAL_MODIFIER_LCTRL ||| M.VIRTUAL_MODIFIER_LSHIFT, target⟩ = .ok (some out)
    ∧ table.EvaluateKey ⟨0x1F, 0, 0, 0, 0, 0⟩ KBD1 none = ⟨true, some out, table.keyboards⟩
    ∧ ([setVk VK_LCONTROL pd, setVk 0x41 pd, pd]
          ++ [pu, setVk 0x41 pu, setVk VK_LCONTROL pu]).map (fun e => e.ki.wVk)
        = [VK_LCONTROL, 0x41, raw.VirtualKeyPrototypeDown.ki.wVk,
           raw.VirtualKeyPrototypeDown.ki.wVk, 0x41, VK_LCONTROL]
    ∧ ([setVk VK_LCONTROL pd, setVk 0x41 pd, pd]
          ++ [pu, setVk 0x41 pu, setVk VK_LCONTROL pu]).map (fun e => e.ki.wVk)
        ≠ [VK_LCONTROL, VK_LSHIFT, 0x41, 0x41, VK_LSHIFT, VK_LCONTROL] := by
  intro pd pu out table
  obtain ⟨hplaced, hset, hcount⟩ := lctrl_lshift_mask M hM
  have hcodes : ([setVk VK_LCONTROL pd, setVk 0x41 pd, pd]
          ++ [pu, setVk 0x41 pu, setVk VK_LCONTROL pu]).map (fun e => e.ki.wVk)
        = [VK_LCONTROL, 0x41, raw.VirtualKeyPrototypeDown.ki.wVk,
           raw.VirtualKeyPrototypeDown.ki.wVk, 0x41, VK_LCONTROL] := rfl
  refine ⟨?_, ?_, hcodes, ?_⟩
  · rw [virtual_shape raw M mem 0x41 _ hM]
    simp only [downPhase, upPhase, hplaced, hset, hcount]
    rfl
  · simp [Remapper.EvaluateKey, evaluateLoop, wcscmp, mapFind, table]
  · rw [hcodes]
    intro h
    have h2 := (List.cons.inj (List.cons.inj h).2).1
    exact absurd h2 (by decide)

/-- C4's code at the sample constants and storage, where the untouched cell holds `31`. -/
theorem C4_witness :
    sampleModifiers.WellFormed ∧
    (let pd := (OutputFactory.construct sampleStorage).VirtualKeyPrototypeDown
     let pu := (OutputFactory.construct sampleStorage).VirtualKeyPrototypeUp
     let out := IKeystrokeOutput.VirtualKeyOutput 3
       [setVk VK_LCONTROL pd, setVk 0x41 pd, pd] [pu, setVk 0x41 pu, setVk VK_LCONTROL pu]
     let table : Remapper := ⟨[⟨KBD1, [(⟨0, 0x1F, 0⟩, some out)]⟩]⟩
     (OutputFactory.construct sampleStorage).getInstance sampleModifiers sampleMemory
         .VirtualOutput 0x41
         ⟨sampleModifiers.VIRTUAL_MODIFIER_LCTRL ||| sampleModifiers.VIRTUAL_MODIFIER_LSHIFT,
           []⟩ = .ok (some out)
     ∧ table.EvaluateKey ⟨0x1F, 0, 0, 0, 0, 0⟩ KBD1 none = ⟨true, some out, table.keyboards⟩
     ∧ ([setVk VK_LCONTROL pd, setVk 0x41 pd, pd]
           ++ [pu, setVk 0x41 pu, setVk VK_LCONTROL pu]).map (fun e => e.ki.wVk)
         = [VK_LCONTROL, 0x41, sampleStorage.VirtualKeyPrototypeDown.ki.wVk,
            sampleStorage.VirtualKeyPrototypeDown.ki.wVk, 0x41, VK_LCONTROL]
     ∧ ([setVk VK_LCONTROL pd, setVk 0x41 pd, pd]
           ++ [pu, setVk 0x41 pu, setVk VK_LCONTROL pu]).map (fun e => e.ki.wVk)
         ≠ [VK_LCONTROL, VK_LSHIFT, 0x41, 0x41, VK_LSHIFT, VK_LCONTROL]) :=
  ⟨by decide, C4_scenario_misses_shift sampleStorage sampleModifiers sampleMemory []
    (by decide)⟩

/-- C7, the code at the key `A` with the mask of Shift-L alone: the canonical down-phase is
`VK_LSHIFT` then `A`, but `getInstance` builds the downs `A` and a cell that still holds
the prototype's key code, and the ups mirror them, so `A` is neither the last down event
nor, at index 0, the first up event. -/
theorem C7_shift_left_not_placed (raw : OutputFactory) (M : VirtualModifiers)
    (mem : Nat → INPUT) (target : List Nat) (hM : M.WellFormed) :
    let pd := (OutputFactory.construct raw).VirtualKeyPrototypeDown
    let pu := (OutputFactory.construct raw).VirtualKeyPrototypeUp
    (OutputFactory.construct raw).getInstance M mem .VirtualOutput 0x41
        ⟨M.VIRTUAL_MODIFIER_LSHIFT, target⟩
      = .ok (some (.VirtualKeyOutput 2 [setVk 0x41 pd, pd] [pu, setVk 0x41 pu]))
    ∧ canonicalModifiers M M.VIRTUAL_MODIFIER_LSHIFT ++ [0x41] = [VK_LSHIFT, 0x41]
    ∧ [setVk 0x41 pd, pd].map (fun e => e.ki.wVk)
        = [0x41, raw.VirtualKeyPrototypeDown.ki.wVk]
    ∧ [pu, setVk 0x41 pu].map (fun e => e.ki.wVk)
        = [raw.VirtualKeyPrototypeDown.ki.wVk, 0x41]
    ∧ [setVk 0x41 pd, pd].map (fun e => e.ki.wVk)
        ≠ canonicalModifiers M M.VIRTUAL_MODIFIER_LSHIFT ++ [0x41] := by
  intro pd pu
  obtain ⟨hplaced, hset, hcanon, hcount⟩ := lshift_mask M hM
  have hcodes : [setVk 0x41 pd, pd].map (fun e => e.ki.wVk)
        = [0x41, raw.VirtualKeyPrototypeDown.ki.wVk] := rfl
  refine ⟨?_, ?_, hcodes, rfl, ?_⟩
  · rw [virtual_shape raw M mem 0x41 _ hM]
    simp only [downPhase, upPhase, hplaced, hset, hcount]
    rfl
  · rw [hcanon]; rfl
  · rw [hcodes, hcanon]
    intro h
    have h2 := (List.cons.inj h).1
    exact absurd h2 (by decide)

/-- C7's code at the sample constants and storage. -/
theorem C7_witness :
    sampleModifiers.WellFormed ∧
    (let pd := (OutputFactory.construct sampleStorage).VirtualKeyPrototypeDown
     let pu := (OutputFactory.construct sampleStorage).VirtualKeyPrototypeUp
     (OutputFactory.construct sampleStorage).getInstance sampleModifiers sampleMemory
         .VirtualOutput 0x41 ⟨sampleModifiers.VIRTUAL_MODIFIER_LSHIFT, []⟩
       = .ok (some (.VirtualKeyOutput 2 [setVk 0x41 pd, pd] [pu, setVk 0x41 pu]))
     ∧ canonicalModifiers sampleModifiers sampleModifiers.VIRTUAL_MODIFIER_LSHIFT ++ [0x41]
         = [VK_LSHIFT, 0x41]
     ∧ [setVk 0x41 pd, pd].map (fun e => e.ki.wVk)
         = [0x41, sampleStorage.VirtualKeyPrototypeDown.ki.wVk]
     ∧ [pu, setVk 0x41 pu].map (fun e => e.ki.wVk)
         = [sampleStorage.VirtualKeyPrototypeDown.ki.wVk, 0x41]
     ∧ [setVk 0x41 pd, pd].map (fun e => e.ki.wVk)
         ≠ canonicalModifiers sampleModifiers sampleModifiers.VIRTUAL_MODIFIER_LSHIFT
             ++ [0x41]) :=
  ⟨by decide, C7_shift_left_not_placed sampleStorage sampleModifiers sampleMemory []
    (by decide)⟩

/-- C8 fails as stated: `0x10041` is above `0xFF`, yet `getInstance(VirtualOutput, 0x10041,
0)` does not return `nullptr`; it returns a descriptor whose events carry the truncated key
code `0x41`. So does the key code `0`. -/
theorem C8_invalid_key_is_built :
    (0xFF : Nat) < 0x10041
    ∧ (OutputFactory.construct sampleStorage).getInstance sampleModifiers sampleMemory
          .VirtualOutput 0x10041 ⟨0, []⟩ ≠ .ok none
    ∧ (OutputFactory.construct sampleStorage).getInstance sampleModifiers sampleMemory
          .VirtualOutput 0x10041 ⟨0, []⟩
        = .ok (some (.VirtualKeyOutput 1
            [⟨INPUT_KEYBOARD, ⟨0x41, 0, KEYEVENTF_EXTENDEDKEY, 0, 0⟩⟩]
            [⟨INPUT_KEYBOARD, ⟨0x41, 0, KEYEVENTF_EXTENDEDKEY ||| KEYEVENTF_KEYUP, 0, 0⟩⟩]))
    ∧ (OutputFactory.construct sampleStorage).getInstance sampleModifiers sampleMemory
          .VirtualOutput 0 ⟨0, []⟩ ≠ .ok none := by
  decide

/-- C8, amended: `getInstance(VirtualOutput, _nParam, mask)` returns `nullptr` for no key
code, valid or not; it always returns a descriptor, and that descriptor has an event with
the key code `(WORD)_nParam`, that is `_nParam` reduced to 16 bits, both in `keystrokesDown`
and in `keystrokesUp`. -/
theorem C8_virtual_never_null (raw : OutputFactory) (M : VirtualModifiers)
    (mem : Nat → INPUT) (_nParam : Nat) (_lParam : ULONG_PTR) (hM : M.WellFormed) :
    (OutputFactory.construct raw).getInstance M mem .VirtualOutput _nParam _lParam ≠ .ok none
    ∧ ∃ inputCount down up,
        (OutputFactory.construct raw).getInstance M mem .VirtualOutput _nParam _lParam
          = .ok (some (.VirtualKeyOutput inputCount down up))
        ∧ _nParam % 2 ^ 16 ∈ down.map (fun e => e.ki.wVk)
        ∧ _nParam % 2 ^ 16 ∈ up.map (fun e => e.ki.wVk) := by
  have hshape := virtual_shape raw M mem _nParam _lParam hM
  refine ⟨by rw [hshape]; simp, _, _, _, hshape, ?_, ?_⟩
  · simp only [downPhase, List.map_append, List.mem_append, List.map_cons, List.map_nil,
      List.mem_singleton]
    left; right
    simp [setVk]
  · simp only [upPhase, List.map_append, List.mem_append, List.map_cons, List.map_nil,
      List.mem_singleton]
    left; right
    simp [setVk]

/-- C8, amended, at the key code `0x10041`, which is stored as `0x41`. -/
theorem C8_witness :
    sampleModifiers.WellFormed ∧
    (OutputFactory.construct sampleStorage).getInstance sampleModifiers sampleMemory
        .VirtualOutput 0x10041 ⟨0, []⟩ ≠ .ok none
    ∧ ∃ inputCount down up,
        (OutputFactory.construct sampleStorage).getInstance sampleModifiers sampleMemory
            .VirtualOutput 0x10041 ⟨0, []⟩
          = .ok (some (.VirtualKeyOutput inputCount down up))
        ∧ 0x10041 % 2 ^ 16 ∈ down.map (fun e => e.ki.wVk)
        ∧ 0x10041 % 2 ^ 16 ∈ up.map (fun e => e.ki.wVk) :=
  ⟨by decide,
   C8_virtual_never_null sampleStorage sampleModifiers sampleMemory 0x10041 ⟨0, []⟩
     (by decide)⟩

/-! ## Theorems: Build String -/

theorem readAt_append (pre : List Nat) (c : Nat) (rest : List Nat) :
    readAt (pre ++ c :: rest) pre.length = .ok c := by
  induction pre with
  | nil => rfl
  | cons p pre ih => simpa [readAt] using ih

theorem modifyAt_append (done : List INPUT) (rest : List INPUT) (j : Nat)
    (f : INPUT → INPUT) :
    modifyAt (done ++ rest) (done.length + j) f =
      match modifyAt rest j f with
      | .ok r => .ok (done ++ r)
      | .error e => .error e := by
  induction done with
  | nil => simp; cases modifyAt rest j f <;> rfl
  | cons d done ih =>
    have : (d :: done).length + j = (done.length + j) + 1 := by simp; omega
    rw [this, List.cons_append, modifyAt, ih]
    cases modifyAt rest j f <;> rfl

theorem surrogateCount_cons (c : Nat) (t : List Nat) :
    surrogateCount (c :: t) = surrogateCount t + (if 0xFFFF < c then 1 else 0) := by
  unfold surrogateCount
  rw [List.countP_cons]
  simp

/-- The counting loop run over the whole of `l` adds two for each code point above
`0xFFFF`, in 32-bit arithmetic. -/
theorem stringCount_spec : ∀ (l pre : List Nat) (acc : Nat), acc < 2 ^ 32 →
    stringCount (pre ++ l) l.length pre.length acc
      = .ok ((acc + 2 * surrogateCount l) % 2 ^ 32)
  | [], pre, acc, hacc => by
    simp [stringCount, surrogateCount, pure, Except.pure]
    omega
  | c :: t, pre, acc, hacc => by
    have ih := stringCount_spec t (pre ++ [c])
      (if c > 0xffff then (acc + 2) % 2 ^ 32 else acc)
      (by split <;> omega)
    simp only [List.append_assoc, List.singleton_append, List.length_append,
      List.length_singleton] at ih
    simp only [List.length_cons, stringCount, readAt_append, bind, Except.bind]
    rw [ih, surrogateCount_cons]
    congr 1
    by_cases hc : 0xffff < c
    · have hc2 : c > 0xffff := hc
      simp only [hc, hc2, if_true]
      omega
    · have hc2 : ¬ c > 0xffff := hc
      simp only [hc, hc2, if_false]
      omega

theorem list_two (l : List INPUT) (h : 2 ≤ l.length) : ∃ a b t, l = a :: b :: t := by
  match l, h with
  | a :: b :: t, _ => exact ⟨a, b, t, rfl⟩

theorem list_four (l : List INPUT) (h : 4 ≤ l.length) :
    ∃ a b c d t, l = a :: b :: c :: d :: t := by
  match l, h with
  | a :: b :: c :: d :: t, _ => exact ⟨a, b, c, d, t, rfl⟩

theorem modifyAt_at0 (done : List INPUT) (x : INPUT) (rest : List INPUT) (f : INPUT → INPUT) :
    modifyAt (done ++ x :: rest) done.length f = .ok (done ++ f x :: rest) := by
  have h := modifyAt_append done (x :: rest) 0 f
  simpa [modifyAt] using h

theorem modifyAt_at1 (done : List INPUT) (x y : INPUT) (rest : List INPUT)
    (f : INPUT → INPUT) :
    modifyAt (done ++ x :: y :: rest) (done.length + 1) f = .ok (done ++ x :: f y :: rest) := by
  have h := modifyAt_append done (x :: y :: rest) 1 f
  simpa [modifyAt] using h

theorem modifyAt_at2 (done : List INPUT) (x y z : INPUT) (rest : List INPUT)
    (f : INPUT → INPUT) :
    modifyAt (done ++ x :: y :: z :: rest) (done.length + 2) f
      = .ok (done ++ x :: y :: f z :: rest) := by
  have h := modifyAt_append done (x :: y :: z :: rest) 2 f
  simpa [modifyAt] using h

theorem modifyAt_at3 (done : List INPUT) (x y z w : INPUT) (rest : List INPUT)
    (f : INPUT → INPUT) :
    modifyAt (done ++ x :: y :: z :: w :: rest) (done.length + 3) f
      = .ok (done ++ x :: y :: z :: f w :: rest) := by
  have h := modifyAt_append done (x :: y :: z :: w :: rest) 3 f
  simpa [modifyAt] using h

theorem setScan_down (raw : OutputFactory) (u : Nat) :
    setScan u (OutputFactory.construct raw).UnicodePrototypeDown = unicodeDown u := rfl

theorem setScan_up (raw : OutputFactory) (u : Nat) :
    setScan u (OutputFactory.construct raw).UnicodePrototypeUp = unicodeUp u := rfl

theorem unicodeDown_mod (u : Nat) : unicodeDown (u % 2 ^ 16) = unicodeDown u := by
  simp [unicodeDown]

theorem unicodeUp_mod (u : Nat) : unicodeUp (u % 2 ^ 16) = unicodeUp u := by
  simp [unicodeUp]

theorem low_unit (c : Nat) (hc : ¬ c ≤ 0xffff) :
    0xdc00 + (c &&& 0x3ff) = lowSurrogate c := by
  have h1 := Nat.and_pow_two_sub_one_eq_mod c 10
  have h2 := Nat.and_pow_two_sub_one_eq_mod (c - 0x10000) 10
  simp only [Nat.reducePow, Nat.reduceSub] at h1 h2
  unfold lowSurrogate
  rw [h1, h2]
  omega

/-- The fill loop run over the whole of `l`, from an array whose first `done.length` cells
are filled and whose remaining cells are as many as the events of `l`, fills them with the
blocks of `l` in order. -/
theorem stringFill_spec (raw : OutputFactory) : ∀ (l pre : List Nat) (done rest : List INPUT),
    rest.length = 2 * l.length + 2 * surrogateCount l →
    done.length + rest.length < 2 ^ 32 →
    stringFill (OutputFactory.construct raw) (pre ++ l) l.length pre.length done.length
        (done ++ rest)
      = .ok (done ++ (l.map charBlock).flatten)
  | [], pre, done, rest, hlen, _ => by
    have hrest : rest = [] := List.length_eq_zero.mp (by simpa [surrogateCount] using hlen)
    subst hrest
    simp [stringFill, pure, Except.pure]
  | c :: t, pre, done, rest, hlen, hfit => by
    rw [surrogateCount_cons] at hlen
    simp only [List.length_cons] at hlen
    by_cases hc : c ≤ 0xffff
    · have hc2 : ¬ (0xFFFF < c) := by omega
      rw [if_neg hc2] at hlen
      obtain ⟨r0, r1, rest', rfl⟩ := list_two rest (by omega)
      simp only [List.length_cons] at hlen hfit
      have ih := stringFill_spec raw t (pre ++ [c]) (done ++ charBlock c) rest'
        (by omega) (by simp [charBlock, hc]; omega)
      have e1 : (done.length + 1) % 2 ^ 32 = done.length + 1 := by omega
      have e2 : (done.length + 1 + 1) % 2 ^ 32 = done.length + 2 := by omega
      simp only [charBlock, if_pos hc, List.append_assoc, List.singleton_append,
        List.length_append, List.length_singleton, List.length_cons, List.length_nil,
        List.cons_append, List.nil_append] at ih
      simp only [List.length_cons, stringFill, readAt_append, bind, Except.bind, hc, if_true,
        modifyAt_at0, e1, modifyAt_at1, e2, setScan_down, setScan_up, List.map_cons,
        List.flatten_cons, charBlock, List.cons_append, List.nil_append]
      exact ih
    · have hc2 : 0xFFFF < c := by omega
      rw [if_pos hc2] at hlen
      obtain ⟨r0, r1, r2, r3, rest', rfl⟩ := list_four rest (by omega)
      simp only [List.length_cons] at hlen hfit
      have ih := stringFill_spec raw t (pre ++ [c]) (done ++ charBlock c) rest'
        (by omega) (by simp [charBlock, hc]; omega)
      have e1 : (done.length + 1) % 2 ^ 32 = done.length + 1 := by omega
      have e2 : (done.length + 2) % 2 ^ 32 = done.length + 2 := by omega
      have e3 : (done.length + 2 + 1) % 2 ^ 32 = done.length + 3 := by omega
      have e4 : (done.length + 2 + 2) % 2 ^ 32 = done.length + 4 := by omega
      simp only [charBlock, if_neg hc, List.append_assoc, List.singleton_append,
        List.length_append, List.length_singleton, List.length_cons, List.length_nil,
        List.cons_append, List.nil_append] at ih
      simp only [List.length_cons, stringFill, readAt_append, bind, Except.bind, hc, if_false,
        modifyAt_at0, e1, modifyAt_at1, e2, modifyAt_at2, e3, modifyAt_at3, e4,
        setScan_down, setScan_up, unicodeDown_mod, unicodeUp_mod, low_unit c hc,
        List.map_cons, List.flatten_cons, charBlock, List.cons_append, List.nil_append]
      exact ih


theorem newArray_length (mem : Nat → INPUT) (n : Nat) : (newArray mem n).length = n := by
  simp [newArray]

/-- The result of case `StringOutput` in closed form, for a sequence whose events fit the
32-bit count. -/
theorem string_shape (raw : OutputFactory) (M : VirtualModifiers) (mem : Nat → INPUT)
    (value : Nat) (sequence : List Nat) (hnull : value ≠ 0)
    (hfit : 2 * sequence.length + 2 * surrogateCount sequence < 2 ^ 32) :
    (OutputFactory.construct raw).getInstance M mem .StringOutput sequence.length
        ⟨value, sequence⟩
      = .ok (some (.StringOutput (2 * sequence.length + 2 * surrogateCount sequence)
          (sequence.map charBlock).flatten)) := by
  have hcount := stringCount_spec sequence [] ((sequence.length * 2) % 2 ^ 32) (by omega)
  have hval : ((sequence.length * 2) % 2 ^ 32 + 2 * surrogateCount sequence) % 2 ^ 32
      = 2 * sequence.length + 2 * surrogateCount sequence := by omega
  rw [hval] at hcount
  have hfill := stringFill_spec raw sequence [] []
    (newArray mem (2 * sequence.length + 2 * surrogateCount sequence))
    (by rw [newArray_length]) (by rw [newArray_length]; simpa using hfit)
  simp only [List.nil_append, List.length_nil] at hcount hfill
  simp only [OutputFactory.getInstance, hnull, if_false, bind, Except.bind, hcount, hfill]
  rfl

/-- C9, amended: for every non-null sequence of `n` code points of which `k` are greater
than `0xFFFF`, with `2n + 2k < 2 ^ 32`, `getInstance(StringOutput, n, sequence)` returns a
descriptor with `inputCount = 2n + 2k`, which is also the number of its events. -/
theorem C9_string_input_count (raw : OutputFactory) (M : VirtualModifiers)
    (mem : Nat → INPUT) (value : Nat) (sequence : List Nat) (hnull : value ≠ 0)
    (hfit : 2 * sequence.length + 2 * surrogateCount sequence < 2 ^ 32) :
    ∃ keystrokes : List INPUT,
      (OutputFactory.construct raw).getInstance M mem .StringOutput sequence.length
          ⟨value, sequence⟩
        = .ok (some (.StringOutput (2 * sequence.length + 2 * surrogateCount sequence)
            keystrokes))
      ∧ keystrokes.length = 2 * sequence.length + 2 * surrogateCount sequence := by
  refine ⟨_, string_shape raw M mem value sequence hnull hfit, ?_⟩
  clear hfit
  induction sequence with
  | nil => rfl
  | cons c t ih =>
    rw [List.map_cons, List.flatten_cons, List.length_append, ih, surrogateCount_cons,
      List.length_cons]
    by_cases hc : c ≤ 0xFFFF
    · have hc2 : ¬ (0xFFFF < c) := by omega
      simp [charBlock, hc, hc2]; omega
    · have hc2 : 0xFFFF < c := by omega
      simp [charBlock, hc, hc2]; omega

/-- C9, amended, at the fixture string of `Parser::ReadFile`, `Hi.` and U+1F642: `n = 4`, `k = 1`,
count 10. -/
theorem C9_witness :
    (1000 : Nat) ≠ 0
    ∧ [0x48, 0x69, 0x2E, 0x1F642].length = 4
    ∧ surrogateCount [0x48, 0x69, 0x2E, 0x1F642] = 1
    ∧ 2 * [0x48, 0x69, 0x2E, 0x1F642].length + 2 * surrogateCount [0x48, 0x69, 0x2E, 0x1F642]
        = 10
    ∧ ∃ keystrokes : List INPUT,
      (OutputFactory.construct sampleStorage).getInstance sampleModifiers sampleMemory
          .StringOutput [0x48, 0x69, 0x2E, 0x1F642].length ⟨1000, [0x48, 0x69, 0x2E, 0x1F642]⟩
        = .ok (some (.StringOutput
            (2 * [0x48, 0x69, 0x2E, 0x1F642].length
              + 2 * surrogateCount [0x48, 0x69, 0x2E, 0x1F642]) keystrokes))
      ∧ keystrokes.length
          = 2 * [0x48, 0x69, 0x2E, 0x1F642].length
              + 2 * surrogateCount [0x48, 0x69, 0x2E, 0x1F642] :=
  ⟨by decide, by decide, by decide, by decide,
   C9_string_input_count sampleStorage sampleModifiers sampleMemory 1000
     [0x48, 0x69, 0x2E, 0x1F642] (by decide) (by decide)⟩

/-- C10, amended: for every non-null sequence of code points `c_0 .. c_{n-1}` with
`2n + 2k < 2 ^ 32`, `k` of them being greater than `0xFFFF`, the event array that
`getInstance(StringOutput, n, sequence)` builds is the concatenation, in input order, of
one block per character: `[down(c), up(c)]` when `c ≤ 0xFFFF`, and
`[down(high), down(low), up(high), up(low)]` otherwise. Hence the events of every character
stand after those of all characters before it and before those of all characters after it,
each block being balanced on its own. -/
theorem C10_string_blocks_in_order (raw : OutputFactory) (M : VirtualModifiers)
    (mem : Nat → INPUT) (value : Nat) (sequence : List Nat) (hnull : value ≠ 0)
    (hfit : 2 * sequence.length + 2 * surrogateCount sequence < 2 ^ 32) :
    ∃ keystrokes : List INPUT,
      (OutputFactory.construct raw).getInstance M mem .StringOutput sequence.length
          ⟨value, sequence⟩
        = .ok (some (.StringOutput (2 * sequence.length + 2 * surrogateCount sequence)
            keystrokes))
      ∧ keystrokes = (sequence.map charBlock).flatten
      ∧ ∀ (before : List Nat) (c : Nat) (after : List Nat), sequence = before ++ c :: after →
          keystrokes = (before.map charBlock).flatten ++ charBlock c
            ++ (after.map charBlock).flatten := by
  refine ⟨_, string_shape raw M mem value sequence hnull hfit, rfl, ?_⟩
  intro before c after hseq
  rw [hseq]
  simp

/-- C10, amended, at the fixture string of `Parser::ReadFile`, `Hi.` and U+1F642. -/
theorem C10_witness :
    (1000 : Nat) ≠ 0
    ∧ ∃ keystrokes : List INPUT,
      (OutputFactory.construct sampleStorage).getInstance sampleModifiers sampleMemory
          .StringOutput [0x48, 0x69, 0x2E, 0x1F642].length ⟨1000, [0x48, 0x69, 0x2E, 0x1F642]⟩
        = .ok (some (.StringOutput
            (2 * [0x48, 0x69, 0x2E, 0x1F642].length
              + 2 * surrogateCount [0x48, 0x69, 0x2E, 0x1F642]) keystrokes))
      ∧ keystrokes = ([0x48, 0x69, 0x2E, 0x1F642].map charBlock).flatten
      ∧ ∀ (before : List Nat) (c : Nat) (after : List Nat),
          [0x48, 0x69, 0x2E, 0x1F642] = before ++ c :: after →
          keystrokes = (before.map charBlock).flatten ++ charBlock c
            ++ (after.map charBlock).flatten :=
  ⟨by decide,
   C10_string_blocks_in_order sampleStorage sampleModifiers sampleMemory 1000
     [0x48, 0x69, 0x2E, 0x1F642] (by decide) (by decide)⟩

/-- When the 32-bit count of a sequence that starts with a one-unit character comes out as
zero, the array has no cell and the first store of the fill loop is outside it. -/
theorem string_count_zero_faults (raw : OutputFactory) (M : VirtualModifiers)
    (mem : Nat → INPUT) (value c : Nat) (t : List Nat) (hnull : value ≠ 0)
    (hc : c ≤ 0xffff)
    (hzero : (((c :: t).length * 2) % 2 ^ 32 + 2 * surrogateCount (c :: t)) % 2 ^ 32 = 0) :
    (OutputFactory.construct raw).getInstance M mem .StringOutput (c :: t).length
        ⟨value, c :: t⟩ = .error Fault.outOfBounds := by
  have hcount := stringCount_spec (c :: t) [] (((c :: t).length * 2) % 2 ^ 32) (by omega)
  rw [hzero] at hcount
  simp only [List.nil_append, List.length_nil] at hcount
  simp only [OutputFactory.getInstance, hnull, if_false, bind, Except.bind, hcount]
  simp [List.length_cons, stringFill, readAt, newArray, modifyAt, hc, bind, Except.bind]

/-- A sequence of `2 ^ 31` one-unit characters: the count `2 * 2 ^ 31` wraps to zero in 32
bits, and the fill loop then stores outside the empty array. -/
theorem string_wraps (raw : OutputFactory) (M : VirtualModifiers) (mem : Nat → INPUT)
    (value : Nat) (seq : List Nat) (c : Nat) (t : List Nat) (hseq : seq = c :: t)
    (hnull : value ≠ 0) (hc : c ≤ 0xffff) (hlen : seq.length = 2 ^ 31)
    (hk : surrogateCount seq = 0) :
    stringCount seq (2 ^ 31) 0 ((2 ^ 31 * 2) % 2 ^ 32) = .ok 0
    ∧ (OutputFactory.construct raw).getInstance M mem .StringOutput (2 ^ 31) ⟨value, seq⟩
        = .error Fault.outOfBounds := by
  subst hseq
  constructor
  · have h := stringCount_spec (c :: t) [] ((2 ^ 31 * 2) % 2 ^ 32) (by omega)
    rw [hk, hlen] at h
    simpa using h
  · have h := string_count_zero_faults raw M mem value c t hnull hc
      (by rw [hk, hlen]; norm_num)
    rw [hlen] at h
    exact h

theorem replicate_big :
    List.replicate (2 ^ 31) 0x41 = 0x41 :: List.replicate (2 ^ 31 - 1) 0x41 := by
  have h : (2 : Nat) ^ 31 = (2 ^ 31 - 1) + 1 := by norm_num
  conv_lhs => rw [h]
  exact List.replicate_succ _ _

theorem surrogateCount_replicate (n : Nat) : surrogateCount (List.replicate n 0x41) = 0 := by
  unfold surrogateCount
  rw [List.countP_eq_zero]
  intro a ha
  rw [List.eq_of_mem_replicate ha]
  decide

/-- C9 fails as stated: for the non-null sequence of `n = 2 ^ 31` letters `A` (`k = 0`) the
counting loop yields `0`, the value of `2n + 2k = 2 ^ 32` in 32 bits, and `getInstance` does
not return a descriptor with `inputCount = 2n + 2k`. -/
theorem C9_count_wraps :
    (1000 : Nat) ≠ 0
    ∧ (List.replicate (2 ^ 31) 0x41).length = 2 ^ 31
    ∧ surrogateCount (List.replicate (2 ^ 31) 0x41) = 0
    ∧ stringCount (List.replicate (2 ^ 31) 0x41) (2 ^ 31) 0 ((2 ^ 31 * 2) % 2 ^ 32) = .ok 0
    ∧ ∀ keystrokes : List INPUT,
        (OutputFactory.construct sampleStorage).getInstance sampleModifiers sampleMemory
            .StringOutput (2 ^ 31) ⟨1000, List.replicate (2 ^ 31) 0x41⟩
          ≠ .ok (some (.StringOutput (2 * 2 ^ 31 + 2 * 0) keystrokes)) :=
  have h := string_wraps sampleStorage sampleModifiers sampleMemory 1000
    (List.replicate (2 ^ 31) 0x41) 0x41 (List.replicate (2 ^ 31 - 1) 0x41) replicate_big
    (by decide) (by decide) (List.length_replicate _ _) (surrogateCount_replicate _)
  ⟨by decide, List.length_replicate _ _, surrogateCount_replicate _, h.1,
    fun _ h2 => Except.noConfusion (h.2.symm.trans h2)⟩

/-- C10 fails as stated: for the non-null sequence of `2 ^ 31` letters `A` the array is
allocated with no cell and the fill loop stores outside it; no array of blocks is built. -/
theorem C10_fill_overruns_array :
    (1000 : Nat) ≠ 0
    ∧ (List.replicate (2 ^ 31) 0x41).length = 2 ^ 31
    ∧ (OutputFactory.construct sampleStorage).getInstance sampleModifiers sampleMemory
          .StringOutput (2 ^ 31) ⟨1000, List.replicate (2 ^ 31) 0x41⟩
        = .error Fault.outOfBounds
    ∧ ∀ inputCount : Nat,
        (OutputFactory.construct sampleStorage).getInstance sampleModifiers sampleMemory
            .StringOutput (2 ^ 31) ⟨1000, List.replicate (2 ^ 31) 0x41⟩
          ≠ .ok (some (.StringOutput inputCount
              ((List.replicate (2 ^ 31) 0x41).map charBlock).flatten)) :=
  have h := string_wraps sampleStorage sampleModifiers sampleMemory 1000
    (List.replicate (2 ^ 31) 0x41) 0x41 (List.replicate (2 ^ 31 - 1) 0x41) replicate_big
    (by decide) (by decide) (List.length_replicate _ _) (surrogateCount_replicate _)
  ⟨by decide, List.length_replicate _ _, h.2,
    fun _ h2 => Except.noConfusion (h.2.symm.trans h2)⟩

/-! ## Theorems: Build Macro -/

theorem setVk_down (raw : OutputFactory) (k : Nat) :
    setVk k (OutputFactory.construct raw).VirtualKeyPrototypeDown = virtualDown k := rfl

theorem setVk_up (raw : OutputFactory) (k : Nat) :
    setVk k (OutputFactory.construct raw).VirtualKeyPrototypeUp = virtualUp k := rfl

theorem orFlags_virtualDown (k : Nat) :
    orFlags KEYEVENTF_KEYUP (virtualDown k) = virtualUp k := rfl

theorem keyup_bit (e : Nat) : ((e >>> 31) &&& 1 ≠ 0) ↔ e.testBit 31 = true := by
  simp [Nat.testBit, Nat.land_comm]

/-- The event that one iteration of the macro loop leaves in its cell. -/
theorem macro_cell (raw : OutputFactory) (e : Nat) (x : INPUT) :
    (if (e >>> 31) &&& 1 ≠ 0 then
        orFlags KEYEVENTF_KEYUP (setVk ((e &&& 0xff) % 2 ^ 16)
          ((fun _ => (OutputFactory.construct raw).VirtualKeyPrototypeDown) x))
      else setVk ((e &&& 0xff) % 2 ^ 16)
          ((fun _ => (OutputFactory.construct raw).VirtualKeyPrototypeDown) x))
      = macroEvent e := by
  have hmod : ∀ k, virtualDown (k % 2 ^ 16) = virtualDown k := by
    intro k; simp [virtualDown]
  unfold macroEvent
  by_cases h : e.testBit 31 = true
  · rw [if_pos ((keyup_bit e).mpr h), if_pos h, setVk_down, hmod, orFlags_virtualDown]
  · rw [if_neg (fun h2 => h ((keyup_bit e).mp h2)), if_neg h, setVk_down, hmod]

/-- The macro loop run over the whole of `l`, from an array whose first cells are filled and
whose remaining cells are as many as the entries of `l`, fills them with the events of `l`
in order. -/
theorem macroFill_spec (raw : OutputFactory) : ∀ (l pre : List Nat) (done rest : List INPUT),
    done.length = pre.length → rest.length = l.length →
    macroFill (OutputFactory.construct raw) (pre ++ l) l.length pre.length (done ++ rest)
      = .ok (done ++ l.map macroEvent)
  | [], pre, done, rest, _, hlen => by
    have hrest : rest = [] := List.length_eq_zero.mp (by simpa using hlen)
    subst hrest
    simp [macroFill, pure, Except.pure]
  | e :: t, pre, done, rest, hd, hlen => by
    match rest, hlen with
    | r0 :: rest', hlen =>
      have ih := macroFill_spec raw t (pre ++ [e]) (done ++ [macroEvent e]) rest'
        (by simp [hd]) (by simpa using hlen)
      simp only [List.append_assoc, List.singleton_append, List.length_append,
        List.length_singleton] at ih
      have m0 : ∀ (x : INPUT) (rest : List INPUT) (f : INPUT → INPUT),
          modifyAt (done ++ x :: rest) pre.length f = .ok (done ++ f x :: rest) := by
        intro x rest f
        rw [← hd]
        exact modifyAt_at0 done x rest f
      have hcell := macro_cell raw e r0
      simp only [List.length_cons, macroFill, readAt_append, bind, Except.bind, m0]
      by_cases h : (e >>> 31) &&& 1 ≠ 0
      · rw [if_pos h] at hcell
        simp only [if_pos h, m0, hcell, List.map_cons]
        exact ih
      · rw [if_neg h] at hcell
        simp only [if_neg h, pure, Except.pure, hcell, List.map_cons]
        exact ih

/-- The result of case `MacroOutput` in closed form, for a non-null sequence and its
length. -/
theorem macro_shape (raw : OutputFactory) (M : VirtualModifiers) (mem : Nat → INPUT)
    (value : Nat) (sequence : List Nat) (hnull : value ≠ 0) :
    (OutputFactory.construct raw).getInstance M mem .MacroOutput sequence.length
        ⟨value, sequence⟩
      = .ok (some (.MacroOutput sequence.length (sequence.map macroEvent))) := by
  have hfill := macroFill_spec raw sequence [] [] (newArray mem sequence.length) rfl
    (newArray_length _ _)
  simp only [List.nil_append, List.length_nil] at hfill
  simp only [OutputFactory.getInstance, hnull, if_false, bind, Except.bind, hfill]
  rfl

theorem macroEvent_fields (e : Nat) :
    (macroEvent e).ki.wVk = e &&& 0xFF
    ∧ ((macroEvent e).ki.dwFlags &&& KEYEVENTF_KEYUP = KEYEVENTF_KEYUP ↔ e.testBit 31 = true)
    ∧ ((macroEvent e).ki.dwFlags &&& KEYEVENTF_KEYUP = 0 ↔ e.testBit 31 = false) := by
  have hle : e &&& 0xFF ≤ 0xFF := Nat.and_le_right
  have hmod : (e &&& 0xFF) % 2 ^ 16 = e &&& 0xFF := Nat.mod_eq_of_lt (by omega)
  unfold macroEvent
  cases h : e.testBit 31
  · refine ⟨?_, ?_, ?_⟩
    · simpa [virtualDown] using hmod
    · simp [virtualDown, KEYEVENTF_EXTENDEDKEY, KEYEVENTF_KEYUP]
    · simp [virtualDown, KEYEVENTF_EXTENDEDKEY, KEYEVENTF_KEYUP]
  · refine ⟨?_, ?_, ?_⟩
    · simpa [virtualUp] using hmod
    · simp [virtualUp, KEYEVENTF_EXTENDEDKEY, KEYEVENTF_KEYUP]
      decide
    · simp [virtualUp, KEYEVENTF_EXTENDEDKEY, KEYEVENTF_KEYUP]

/-- C11: for every non-null sequence of `n` macro entries, `getInstance(MacroOutput, n,
sequence)` returns a descriptor of exactly `n` events in the order of the entries: event `i`
has `wVk = entry_i & 0xFF` and is a key-up event if and only if bit 31 of `entry_i` is set,
a key-down event otherwise. -/
theorem C11_macro_events_verbatim (raw : OutputFactory) (M : VirtualModifiers)
    (mem : Nat → INPUT) (value : Nat) (sequence : List Nat) (hnull : value ≠ 0) :
    ∃ keystrokes : List INPUT,
      (OutputFactory.construct raw).getInstance M mem .MacroOutput sequence.length
          ⟨value, sequence⟩
        = .ok (some (.MacroOutput sequence.length keystrokes))
      ∧ keystrokes.length = sequence.length
      ∧ ∀ (i e : Nat), sequence[i]? = some e →
          ∃ ev : INPUT, keystrokes[i]? = some ev
            ∧ ev.ki.wVk = e &&& 0xFF
            ∧ (ev.ki.dwFlags &&& KEYEVENTF_KEYUP = KEYEVENTF_KEYUP ↔ e.testBit 31 = true)
            ∧ (ev.ki.dwFlags &&& KEYEVENTF_KEYUP = 0 ↔ e.testBit 31 = false) := by
  refine ⟨_, macro_shape raw M mem value sequence hnull, by simp, ?_⟩
  intro i e hi
  refine ⟨macroEvent e, ?_, macroEvent_fields e⟩
  rw [List.getElem?_map, hi]
  rfl

/-- C11 at the fixture macro of `Parser::ReadFile`: Ctrl-L down, `F` down, `F` up, Ctrl-L
up. -/
theorem C11_witness :
    (1000 : Nat) ≠ 0
    ∧ [VK_LCONTROL, 0x46, 0x46 ||| 0x80000000, VK_LCONTROL ||| 0x80000000].map macroEvent
        = [virtualDown VK_LCONTROL, virtualDown 0x46, virtualUp 0x46, virtualUp VK_LCONTROL]
    ∧ ∃ keystrokes : List INPUT,
      (OutputFactory.construct sampleStorage).getInstance sampleModifiers sampleMemory
          .MacroOutput [VK_LCONTROL, 0x46, 0x46 ||| 0x80000000, VK_LCONTROL ||| 0x80000000].length
          ⟨1000, [VK_LCONTROL, 0x46, 0x46 ||| 0x80000000, VK_LCONTROL ||| 0x80000000]⟩
        = .ok (some (.MacroOutput
            [VK_LCONTROL, 0x46, 0x46 ||| 0x80000000, VK_LCONTROL ||| 0x80000000].length
            keystrokes))
      ∧ keystrokes.length
          = [VK_LCONTROL, 0x46, 0x46 ||| 0x80000000, VK_LCONTROL ||| 0x80000000].length
      ∧ ∀ (i e : Nat),
          [VK_LCONTROL, 0x46, 0x46 ||| 0x80000000, VK_LCONTROL ||| 0x80000000][i]? = some e →
          ∃ ev : INPUT, keystrokes[i]? = some ev
            ∧ ev.ki.wVk = e &&& 0xFF
            ∧ (ev.ki.dwFlags &&& KEYEVENTF_KEYUP = KEYEVENTF_KEYUP ↔ e.testBit 31 = true)
            ∧ (ev.ki.dwFlags &&& KEYEVENTF_KEYUP = 0 ↔ e.testBit 31 = false) :=
  ⟨by decide, by decide,
   C11_macro_events_verbatim sampleStorage sampleModifiers sampleMemory 1000
     [VK_LCONTROL, 0x46, 0x46 ||| 0x80000000, VK_LCONTROL ||| 0x80000000] (by decide)⟩

/-- C12: with a null sequence pointer, `getInstance(MacroOutput, n, 0)` and
`getInstance(StringOutput, n, 0)` return `nullptr` and build no events, for every declared
length `n`, in particular for every `n > 0`, and whatever lies at the address. -/
theorem C12_null_sequence_rejected (raw : OutputFactory) (M : VirtualModifiers)
    (mem : Nat → INPUT) (n : Nat) (target : List Nat) :
    (OutputFactory.construct raw).getInstance M mem .MacroOutput n ⟨0, target⟩ = .ok none
    ∧ (OutputFactory.construct raw).getInstance M mem .StringOutput n ⟨0, target⟩
        = .ok none := by
  constructor <;> simp [OutputFactory.getInstance, pure, Except.pure]

/-! ## Theorems: `EvaluateKey` and `DecisionRecord` -/

theorem wcscmp_eq_zero : ∀ (a b : List Nat), wcscmp a b = 0 ↔ a = b
  | [], [] => by simp [wcscmp]
  | [], _ :: _ => by simp [wcscmp]
  | _ :: _, [] => by simp [wcscmp]
  | x :: xs, y :: ys => by
    have ih := wcscmp_eq_zero xs ys
    unfold wcscmp
    by_cases h1 : x < y
    · simp [h1]; omega
    · by_cases h2 : y < x
      · simp [h1, h2]; omega
      · have hxy : x = y := by omega
        simp [h1, h2, ih, hxy]

/-- Keyboards with another name are passed over by the device loop. -/
theorem evaluateLoop_skip (input : KEYSTROKE_INPUT) (deviceName : List Nat)
    (out_action : Option IKeystrokeOutput) (before rest : List KEYBOARD)
    (h : ∀ kb ∈ before, kb.device_name ≠ deviceName) :
    evaluateLoop input deviceName out_action (before ++ rest)
      = evaluateLoop input deviceName out_action rest := by
  induction before with
  | nil => rfl
  | cons kb before ih =>
    have hkb : ¬ wcscmp kb.device_name deviceName = 0 := by
      rw [wcscmp_eq_zero]; exact h kb (by simp)
    rw [List.cons_append, evaluateLoop, if_neg hkb]
    exact ih (fun k hk => h k (by simp [hk]))

/-- C14: for every key event and every device name that equals the `device_name` of no
keyboard of the table, `EvaluateKey` returns `FALSE`; so it does for the empty table, for a
name that is a proper prefix of a stored name and for a name that extends a stored name. -/
theorem C14_unknown_device_passes (self : Remapper) (keypressed : RAWKEYBOARD)
    (deviceName : List Nat) (out_action : Option IKeystrokeOutput)
    (h : ∀ kb ∈ self.keyboards, kb.device_name ≠ deviceName) :
    (self.EvaluateKey keypressed deviceName out_action).result = false
    ∧ ((Remapper.mk []).EvaluateKey keypressed deviceName out_action).result = false
    ∧ (∀ (c : Nat) (more : List Nat) (remaps : List (KEYSTROKE_INPUT × Option IKeystrokeOutput)),
        ((Remapper.mk [⟨deviceName ++ c :: more, remaps⟩]).EvaluateKey keypressed deviceName
            out_action).result = false
        ∧ ((Remapper.mk [⟨deviceName, remaps⟩]).EvaluateKey keypressed
            (deviceName ++ c :: more) out_action).result = false) := by
  have hskip := evaluateLoop_skip ⟨0, keypressed.MakeCode, keypressed.Flags⟩ deviceName
    out_action self.keyboards [] h
  rw [List.append_nil] at hskip
  refine ⟨?_, rfl, ?_⟩
  · simp only [Remapper.EvaluateKey, hskip]
    rfl
  · intro c more remaps
    have hne : deviceName ++ c :: more ≠ deviceName := by
      intro h2
      have := congrArg List.length h2
      simp at this
    constructor
    · have h1 : ¬ wcscmp (deviceName ++ c :: more) deviceName = 0 := by
        rw [wcscmp_eq_zero]; exact hne
      simp [Remapper.EvaluateKey, evaluateLoop, h1]
    · have h1 : ¬ wcscmp deviceName (deviceName ++ c :: more) = 0 := by
        rw [wcscmp_eq_zero]; exact fun h2 => hne h2.symm
      simp [Remapper.EvaluateKey, evaluateLoop, h1]

/-- C14 at the table with the one device `KBD-1`, asked about the device `KBD`. -/
theorem C14_witness :
    (∀ kb ∈ (Remapper.mk [⟨KBD1, [(⟨0, 0x1F, 0⟩, some .NoOutput)]⟩]).keyboards,
        kb.device_name ≠ [0x4B, 0x42, 0x44])
    ∧ ((Remapper.mk [⟨KBD1, [(⟨0, 0x1F, 0⟩, some .NoOutput)]⟩]).EvaluateKey
          ⟨0x1F, 0, 0, 0, 0, 0⟩ [0x4B, 0x42, 0x44] none).result = false :=
  ⟨by decide,
   (C14_unknown_device_passes (Remapper.mk [⟨KBD1, [(⟨0, 0x1F, 0⟩, some .NoOutput)]⟩])
      ⟨0x1F, 0, 0, 0, 0, 0⟩ [0x4B, 0x42, 0x44] none (by decide)).1⟩

/-- C15: for a device whose table has exactly one entry, keyed scan code `0x04`, modifiers 0,
flags 0, and which is the first keyboard of that name, `EvaluateKey` on that device returns
`TRUE` and sets `*out_action` to the entry's descriptor for an event with `MakeCode = 0x04`
and `Flags = 0`, and returns `FALSE` for every event whose `MakeCode` is not `0x04`. -/
theorem C15_single_entry_lookup (before after : List KEYBOARD) (name : List Nat)
    (descriptor out_action : Option IKeystrokeOutput) (keypressed : RAWKEYBOARD)
    (hfirst : ∀ kb ∈ before, kb.device_name ≠ name) :
    (keypressed.MakeCode = 0x04 → keypressed.Flags = 0 →
      ((Remapper.mk (before ++ ⟨name, [(⟨0, 0x04, 0⟩, descriptor)]⟩ :: after)).EvaluateKey
          keypressed name out_action).result = true
      ∧ ((Remapper.mk (before ++ ⟨name, [(⟨0, 0x04, 0⟩, descriptor)]⟩ :: after)).EvaluateKey
          keypressed name out_action).out_action = descriptor)
    ∧ (keypressed.MakeCode ≠ 0x04 →
      ((Remapper.mk (before ++ ⟨name, [(⟨0, 0x04, 0⟩, descriptor)]⟩ :: after)).EvaluateKey
          keypressed name out_action).result = false) := by
  have hskip := evaluateLoop_skip ⟨0, keypressed.MakeCode, keypressed.Flags⟩ name out_action
    before (⟨name, [(⟨0, 0x04, 0⟩, descriptor)]⟩ :: after) hfirst
  have hname : wcscmp name name = 0 := (wcscmp_eq_zero name name).mpr rfl
  constructor
  · intro hcode hflags
    rw [hcode, hflags] at hskip
    simp only [Remapper.EvaluateKey, hcode, hflags, hskip, evaluateLoop, hname, if_true]
    simp [mapFind]
  · intro hcode
    have hkey : ((⟨0, 0x04, 0⟩ : KEYSTROKE_INPUT)
        == ⟨0, keypressed.MakeCode, keypressed.Flags⟩) = false := by
      rw [beq_eq_false_iff_ne]
      intro h
      injection h with _ h2 _
      exact hcode h2.symm
    simp only [Remapper.EvaluateKey, hskip, evaluateLoop, hname, if_true, mapFind,
      List.find?, hkey]

/-- C15 at the fixture device with the one entry of scan code `0x04`, the macro Ctrl+F. -/
theorem C15_witness :
    (∀ kb ∈ ([] : List KEYBOARD), kb.device_name ≠ KBD1)
    ∧ ((Remapper.mk ([] ++ ⟨KBD1, [(⟨0, 0x04, 0⟩, some (.MacroOutput 4
            [virtualDown VK_LCONTROL, virtualDown 0x46, virtualUp 0x46,
             virtualUp VK_LCONTROL]))]⟩ :: [])).EvaluateKey
          ⟨0x04, 0, 0, 0, 0, 0⟩ KBD1 none).out_action
        = some (.MacroOutput 4
            [virtualDown VK_LCONTROL, virtualDown 0x46, virtualUp 0x46, virtualUp VK_LCONTROL])
    ∧ ((Remapper.mk ([] ++ ⟨KBD1, [(⟨0, 0x04, 0⟩, some (.MacroOutput 4
            [virtualDown VK_LCONTROL, virtualDown 0x46, virtualUp 0x46,
             virtualUp VK_LCONTROL]))]⟩ :: [])).EvaluateKey
          ⟨0x05, 0, 0, 0, 0, 0⟩ KBD1 none).result = false :=
  ⟨by simp,
   ((C15_single_entry_lookup [] [] KBD1 _ none ⟨0x04, 0, 0, 0, 0, 0⟩ (by simp)).1 rfl rfl).2,
   (C15_single_entry_lookup [] [] KBD1 _ none ⟨0x05, 0, 0, 0, 0, 0⟩ (by simp)).2 (by decide)⟩

/-- C16: `EvaluateKey` is a pure read of the table: for every table, key event, device name
and previous content of `*out_action`, the keyboards and their remaps after the call are
those before it, whether it returns `TRUE` or `FALSE`; so a second call on the table left
behind gives the same answer as the first. -/
theorem C16_evaluate_is_pure_read (self : Remapper) (keypressed : RAWKEYBOARD)
    (deviceName : List Nat) (out_action : Option IKeystrokeOutput) :
    (self.EvaluateKey keypressed deviceName out_action).keyboards = self.keyboards
    ∧ ((self.EvaluateKey keypressed deviceName out_action).keyboards.map
          (fun kb => kb.remaps)) = self.keyboards.map (fun kb => kb.remaps)
    ∧ (Remapper.mk (self.EvaluateKey keypressed deviceName out_action).keyboards).EvaluateKey
          keypressed deviceName out_action
        = self.EvaluateKey keypressed deviceName out_action :=
  ⟨rfl, rfl, rfl⟩

/-- C17 fails as stated: the two-argument constructor given `TRUE` builds a record whose
decision is `TRUE` and whose mapped action is null, and the three-argument constructor given
an action and `FALSE` builds a record whose decision is `FALSE` with an action. -/
theorem C17_constructors_do_not_enforce :
    (DecisionRecord.ofDecision ⟨0x1F, 0, 0, 0, 0, 0⟩ true).decision = true
    ∧ (DecisionRecord.ofDecision ⟨0x1F, 0, 0, 0, 0, 0⟩ true).mappedAction = none
    ∧ ¬ (DecisionRecord.ofDecision ⟨0x1F, 0, 0, 0, 0, 0⟩ true).Consistent
    ∧ (DecisionRecord.ofAction ⟨0x1F, 0, 0, 0, 0, 0⟩ (some .NoOutput) false).decision = false
    ∧ (DecisionRecord.ofAction ⟨0x1F, 0, 0, 0, 0, 0⟩ (some .NoOutput) false).mappedAction
        = some .NoOutput
    ∧ ¬ (DecisionRecord.ofAction ⟨0x1F, 0, 0, 0, 0, 0⟩ (some .NoOutput) false).Consistent := by
  refine ⟨rfl, rfl, ?_, rfl, rfl, ?_⟩
  · intro h
    exact h.2 rfl rfl
  · intro h
    exact absurd (h.1 rfl) (by simp [DecisionRecord.ofAction])

/-- C17, amended: a `DecisionRecord` holds exactly the decision and the action its
constructor is given, the two-argument constructor always leaving the action null; so the
documented meaning of `decision` holds for the two-argument constructor exactly when the
decision is `FALSE`, and for the three-argument constructor exactly when the decision is
`TRUE` with a non-null action or `FALSE` with a null one. -/
theorem C17_constructors_store_arguments (keyboardInput : RAWKEYBOARD)
    (mappedInput : Option IKeystrokeOutput) (decision : Bool) :
    (DecisionRecord.ofDecision keyboardInput decision).keyboardInput = keyboardInput
    ∧ (DecisionRecord.ofDecision keyboardInput decision).mappedAction = none
    ∧ (DecisionRecord.ofDecision keyboardInput decision).decision = decision
    ∧ (DecisionRecord.ofAction keyboardInput mappedInput decision).keyboardInput
        = keyboardInput
    ∧ (DecisionRecord.ofAction keyboardInput mappedInput decision).mappedAction = mappedInput
    ∧ (DecisionRecord.ofAction keyboardInput mappedInput decision).decision = decision
    ∧ ((DecisionRecord.ofDecision keyboardInput decision).Consistent ↔ decision = false)
    ∧ ((DecisionRecord.ofAction keyboardInput mappedInput decision).Consistent
        ↔ (decision = true ↔ mappedInput ≠ none)) := by
  refine ⟨rfl, rfl, rfl, rfl, rfl, rfl, ?_, ?_⟩
  · cases decision <;> simp [DecisionRecord.Consistent, DecisionRecord.ofDecision]
  · cases decision <;> cases mappedInput <;>
      simp [DecisionRecord.Consistent, DecisionRecord.ofAction]

/-! ## Theorems: the two encodings, and the indices of Build Virtual Output -/

/-- The result of case `UnicodeOutput` in closed form. -/
theorem unicode_shape (raw : OutputFactory) (M : VirtualModifiers) (mem : Nat → INPUT)
    (v : Nat) (lp : ULONG_PTR) :
    (OutputFactory.construct raw).getInstance M mem .UnicodeOutput v lp
      = .ok (some (if v ≤ 0xFFFF then .UnicodeOutput v 1 [unicodeDown v] [unicodeUp v]
          else .UnicodeOutput v 2 [unicodeDown (highSurrogate v), unicodeDown (lowSurrogate v)]
            [unicodeUp (highSurrogate v), unicodeUp (lowSurrogate v)])) := by
  by_cases hv : v ≤ 0xFFFF
  · have hv2 : v ≤ 0xffff := hv
    simp only [OutputFactory.getInstance, if_pos hv, if_pos hv2, setScan_down, setScan_up]
    rfl
  · have hv2 : ¬ v ≤ 0xffff := hv
    simp only [OutputFactory.getInstance, if_neg hv, if_neg hv2, setScan_down, setScan_up,
      unicodeDown_mod, unicodeUp_mod]
    rfl

/-- C18: Build String applies the encoding of Build Unicode: for every value `v`, the events
of `getInstance(StringOutput, 1, [v])` are `keystrokesDown` followed by `keystrokesUp` of
`getInstance(UnicodeOutput, v, _)`, code units included; in particular, for `v > 0xFFFF`, the
low unit `0xDC00 + (v & 0x3FF)` of the string path equals the low unit
`0xDC00 + ((v - 0x10000) & 0x3FF)` of the Unicode path. -/
theorem C18_string_encodes_as_unicode (raw : OutputFactory) (M : VirtualModifiers)
    (mem : Nat → INPUT) (v value : Nat) (lp : ULONG_PTR) (hnull : value ≠ 0) :
    (∃ (inputCount : Nat) (down up : List INPUT),
      (OutputFactory.construct raw).getInstance M mem .UnicodeOutput v lp
        = .ok (some (.UnicodeOutput v inputCount down up))
      ∧ (OutputFactory.construct raw).getInstance M mem .StringOutput 1 ⟨value, [v]⟩
        = .ok (some (.StringOutput (2 * inputCount) (down ++ up))))
    ∧ (0xFFFF < v → 0xDC00 + (v &&& 0x3FF) = 0xDC00 + ((v - 0x10000) &&& 0x3FF)) := by
  have hk : surrogateCount [v] = if 0xFFFF < v then 1 else 0 := by
    rw [surrogateCount_cons]; simp [surrogateCount]
  have hs := string_shape raw M mem value [v] hnull (by rw [hk]; split <;> simp)
  have hu := unicode_shape raw M mem v lp
  constructor
  · by_cases hv : v ≤ 0xFFFF
    · have hv2 : ¬ 0xFFFF < v := by omega
      rw [if_pos hv] at hu
      rw [hk, if_neg hv2] at hs
      refine ⟨1, _, _, hu, ?_⟩
      rw [show (1 : Nat) = [v].length from rfl, hs]
      simp [charBlock, hv]
    · have hv2 : 0xFFFF < v := by omega
      rw [if_neg hv] at hu
      rw [hk, if_pos hv2] at hs
      refine ⟨2, _, _, hu, ?_⟩
      rw [show (1 : Nat) = [v].length from rfl, hs]
      simp [charBlock, hv]
  · intro hv
    exact low_unit v (by omega)

/-- C18 at the fixture value `0x1F605`. -/
theorem C18_witness :
    (1000 : Nat) ≠ 0
    ∧ (∃ (inputCount : Nat) (down up : List INPUT),
      (OutputFactory.construct sampleStorage).getInstance sampleModifiers sampleMemory
          .UnicodeOutput 0x1F605 ⟨0, []⟩
        = .ok (some (.UnicodeOutput 0x1F605 inputCount down up))
      ∧ (OutputFactory.construct sampleStorage).getInstance sampleModifiers sampleMemory
          .StringOutput 1 ⟨1000, [0x1F605]⟩
        = .ok (some (.StringOutput (2 * inputCount) (down ++ up))))
    ∧ (0xFFFF < 0x1F605 →
        0xDC00 + (0x1F605 &&& 0x3FF) = 0xDC00 + ((0x1F605 - 0x10000) &&& 0x3FF)) :=
  ⟨by decide,
   C18_string_encodes_as_unicode sampleStorage sampleModifiers sampleMemory 0x1F605 1000
     ⟨0, []⟩ (by decide)⟩

/-- A store into an array succeeds exactly when its index is inside the array. -/
theorem modifyAt_ok_iff (f : INPUT → INPUT) : ∀ (a : List INPUT) (i : Nat),
    (∃ b, modifyAt a i f = .ok b) ↔ i < a.length
  | [], i => by simp [modifyAt]
  | x :: xs, 0 => by simp [modifyAt]
  | x :: xs, i + 1 => by
    have ih := modifyAt_ok_iff f xs i
    simp only [modifyAt, List.length_cons, Nat.add_lt_add_iff_right]
    rw [← ih]
    cases modifyAt xs i f <;> simp

/-- The two stores of a key succeed exactly when `currentIndex` is inside `keystrokesDown`,
the difference `modifierCount - currentIndex` is not negative, and it is inside
`keystrokesUp`. -/
theorem storeKey_ok_iff (modifierCount vk : Nat) (s : VirtualFill) :
    (∃ s1, storeKey modifierCount vk s = .ok s1) ↔
      s.currentIndex < s.keystrokesDown.length ∧ s.currentIndex ≤ modifierCount
        ∧ modifierCount - s.currentIndex < s.keystrokesUp.length := by
  have hd := modifyAt_ok_iff (setVk vk) s.keystrokesDown s.currentIndex
  have hu := modifyAt_ok_iff (setVk vk) s.keystrokesUp (modifierCount - s.currentIndex)
  unfold storeKey
  cases h1 : modifyAt s.keystrokesDown s.currentIndex (setVk vk) with
  | error e =>
    rw [h1] at hd
    have : ¬ s.currentIndex < s.keystrokesDown.length := fun h => by simpa using hd.mpr h
    simp [bind, Except.bind, this]
  | ok down =>
    rw [h1] at hd
    have hlt : s.currentIndex < s.keystrokesDown.length := hd.mp ⟨down, rfl⟩
    by_cases hm : modifierCount < s.currentIndex
    · have : ¬ s.currentIndex ≤ modifierCount := by omega
      simp [bind, Except.bind, hm, this, throw, throwThe, MonadExceptOf.throw]
    · have hle : s.currentIndex ≤ modifierCount := by omega
      cases h2 : modifyAt s.keystrokesUp (modifierCount - s.currentIndex) (setVk vk) with
      | error e =>
        rw [h2] at hu
        have : ¬ modifierCount - s.currentIndex < s.keystrokesUp.length :=
          fun h => by simpa using hu.mpr h
        simp [bind, Except.bind, hm, this, pure, Except.pure]
      | ok up =>
        rw [h2] at hu
        have : modifierCount - s.currentIndex < s.keystrokesUp.length := hu.mp ⟨up, rfl⟩
        simp [bind, Except.bind, hm, hlt, hle, this, pure, Except.pure]

/-- The index pairs of case `VirtualOutput` all lie inside arrays of `modifierCount + 1`
cells, for well-formed constants. -/
theorem virtualIndices_bounds (M : VirtualModifiers) (hM : M.WellFormed) (l : Nat) :
    ∀ p ∈ virtualIndices M l,
      p.1 ≤ countModifiers l ∧ 0 ≤ p.2 ∧ p.2 ≤ (countModifiers l : Int)
        ∧ p.2 = (countModifiers l : Int) - (p.1 : Int) := by
  unfold virtualIndices
  rw [countModifiers_eq, popCount8_eq_flags M hM, lshift_test_false M hM]
  unfold flagSet
  generalize (l &&& M.VIRTUAL_MODIFIER_LCTRL == M.VIRTUAL_MODIFIER_LCTRL) = c0
  generalize (l &&& M.VIRTUAL_MODIFIER_RCTRL == M.VIRTUAL_MODIFIER_RCTRL) = c1
  generalize (l &&& M.VIRTUAL_MODIFIER_LALT == M.VIRTUAL_MODIFIER_LALT) = c2
  generalize (l &&& M.VIRTUAL_MODIFIER_RALT == M.VIRTUAL_MODIFIER_RALT) = c3
  generalize (l &&& M.VIRTUAL_MODIFIER_LWIN == M.VIRTUAL_MODIFIER_LWIN) = c4
  generalize (l &&& M.VIRTUAL_MODIFIER_RWIN == M.VIRTUAL_MODIFIER_RWIN) = c5
  generalize (l &&& M.VIRTUAL_MODIFIER_LSHIFT == M.VIRTUAL_MODIFIER_LSHIFT) = c6
  generalize (l &&& M.VIRTUAL_MODIFIER_RSHIFT == M.VIRTUAL_MODIFIER_RSHIFT) = c7
  revert c0 c1 c2 c3 c4 c5 c6 c7
  decide

/-- C20: Build Virtual Output never writes outside its two arrays: for every key code and
every mask, the constants being distinct single bits of the low byte, the call runs without
a store outside `keystrokesDown` or `keystrokesUp`, both of `modifierCount + 1` cells, and
every index `currentIndex` used on `keystrokesDown` and every index
`modifierCount - currentIndex` used on `keystrokesUp`, the final stores of the target key
included, lies in `0..modifierCount`; the subtraction is never negative. -/
theorem C20_virtual_indices_in_bounds (raw : OutputFactory) (M : VirtualModifiers)
    (mem : Nat → INPUT) (_nParam : Nat) (_lParam : ULONG_PTR) (hM : M.WellFormed) :
    (∃ down up : List INPUT,
      (OutputFactory.construct raw).getInstance M mem .VirtualOutput _nParam _lParam
        = .ok (some (.VirtualKeyOutput (countModifiers _lParam.value + 1) down up))
      ∧ down.length = countModifiers _lParam.value + 1
      ∧ up.length = countModifiers _lParam.value + 1)
    ∧ ∀ p ∈ virtualIndices M _lParam.value,
        p.1 ≤ countModifiers _lParam.value ∧ 0 ≤ p.2
          ∧ p.2 ≤ (countModifiers _lParam.value : Int)
          ∧ p.2 = (countModifiers _lParam.value : Int) - (p.1 : Int) := by
  have hshape := virtual_shape raw M mem _nParam _lParam hM
  have hd := downPhase_length (OutputFactory.construct raw).VirtualKeyPrototypeDown M hM
    _lParam.value _nParam
  have hu := upPhase_length (OutputFactory.construct raw).VirtualKeyPrototypeUp M hM
    _lParam.value _nParam
  rw [← countModifiers_eq] at hshape hd hu
  exact ⟨⟨_, _, hshape, hd, hu⟩, virtualIndices_bounds M hM _lParam.value⟩

/-- C20 at the key `A` with all eight modifier bits set. -/
theorem C20_witness :
    sampleModifiers.WellFormed
    ∧ virtualIndices sampleModifiers 0xFF
        = [(0, 8), (1, 7), (2, 6), (3, 5), (4, 4), (5, 3), (6, 2), (7, 1)]
    ∧ (∃ down up : List INPUT,
      (OutputFactory.construct sampleStorage).getInstance sampleModifiers sampleMemory
          .VirtualOutput 0x41 ⟨0xFF, []⟩
        = .ok (some (.VirtualKeyOutput (countModifiers (ULONG_PTR.mk 0xFF []).value + 1)
            down up))
      ∧ down.length = countModifiers (ULONG_PTR.mk 0xFF []).value + 1
      ∧ up.length = countModifiers (ULONG_PTR.mk 0xFF []).value + 1)
    ∧ ∀ p ∈ virtualIndices sampleModifiers (ULONG_PTR.mk 0xFF []).value,
        p.1 ≤ countModifiers (ULONG_PTR.mk 0xFF []).value ∧ 0 ≤ p.2
          ∧ p.2 ≤ (countModifiers (ULONG_PTR.mk 0xFF []).value : Int)
          ∧ p.2 = (countModifiers (ULONG_PTR.mk 0xFF []).value : Int) - (p.1 : Int) :=
  ⟨by decide, by decide,
   C20_virtual_indices_in_bounds sampleStorage sampleModifiers sampleMemory 0x41 ⟨0xFF, []⟩
     (by decide)⟩

/-! ## Theorems: what `getInstance` accepts -/

theorem readAt_left (post : List Nat) : ∀ (a : List Nat) (i : Nat), i < a.length →
    readAt (a ++ post) i = readAt a i
  | [], i, h => by simp at h
  | x :: xs, 0, _ => rfl
  | x :: xs, i + 1, h => by
    simp only [List.cons_append, readAt]
    exact readAt_left post xs i (by simpa using h)

theorem readAt_out : ∀ (a : List Nat) (i : Nat), a.length ≤ i →
    readAt a i = .error Fault.outOfBounds
  | [], _, _ => rfl
  | x :: xs, 0, h => by simp at h
  | x :: xs, i + 1, h => by
    simp only [readAt]
    exact readAt_out xs i (by simpa using h)

theorem readAt_in : ∀ (a : List Nat) (i : Nat), i < a.length → ∃ c, readAt a i = .ok c
  | [], i, h => by simp at h
  | x :: xs, 0, _ => ⟨x, rfl⟩
  | x :: xs, i + 1, h => by
    simp only [readAt]
    exact readAt_in xs i (by simpa using h)

theorem modifyAt_in (f : INPUT → INPUT) : ∀ (a : List INPUT) (i : Nat), i < a.length →
    ∃ b, modifyAt a i f = .ok b ∧ b.length = a.length
  | [], i, h => by simp at h
  | x :: xs, 0, _ => ⟨f x :: xs, rfl, rfl⟩
  | x :: xs, i + 1, h => by
    obtain ⟨b, hb, hlen⟩ := modifyAt_in f xs i (by simpa using h)
    exact ⟨x :: b, by simp [modifyAt, hb], by simp [hlen]⟩

theorem modifyAt_out (f : INPUT → INPUT) : ∀ (a : List INPUT) (i : Nat), a.length ≤ i →
    modifyAt a i f = .error Fault.outOfBounds
  | [], _, _ => rfl
  | x :: xs, 0, h => by simp at h
  | x :: xs, i + 1, h => by
    simp [modifyAt, modifyAt_out f xs i (by simpa using h)]

/-- The counting loop reads only the cells it is asked to visit. -/
theorem stringCount_tail (a post : List Nat) : ∀ (r i acc : Nat), i + r ≤ a.length →
    stringCount (a ++ post) r i acc = stringCount a r i acc
  | 0, _, _, _ => rfl
  | r + 1, i, acc, h => by
    simp only [stringCount, readAt_left post a i (by omega)]
    cases readAt a i with
    | error e => rfl
    | ok c =>
      simp only [bind, Except.bind]
      exact stringCount_tail a post r (i + 1) _ (by omega)

/-- The counting loop asked to visit more cells than the sequence has reads outside it. -/
theorem stringCount_short (a : List Nat) : ∀ (r i acc : Nat), i ≤ a.length →
    a.length < i + r → stringCount a r i acc = .error Fault.outOfBounds
  | 0, i, _, h1, h2 => by omega
  | r + 1, i, acc, h1, h2 => by
    by_cases hi : i < a.length
    · obtain ⟨c, hc⟩ := readAt_in a i hi
      simp only [stringCount, hc, bind, Except.bind]
      exact stringCount_short a r (i + 1) _ (by omega) (by omega)
    · simp [stringCount, readAt_out a i (by omega), bind, Except.bind]

/-- The fill loop reads only the cells it is asked to visit. -/
theorem stringFill_tail (self : OutputFactory) (a post : List Nat) :
    ∀ (r i currentIndex : Nat) (keystrokes : List INPUT), i + r ≤ a.length →
    stringFill self (a ++ post) r i currentIndex keystrokes
      = stringFill self a r i currentIndex keystrokes
  | 0, _, _, _, _ => rfl
  | r + 1, i, ci, ks, h => by
    have ih := fun ci ks => stringFill_tail self a post r (i + 1) ci ks (by omega)
    simp only [stringFill, readAt_left post a i (by omega), ih]

/-- The macro loop reads only the cells it is asked to visit. -/
theorem macroFill_tail (self : OutputFactory) (a post : List Nat) :
    ∀ (r i : Nat) (keystrokes : List INPUT), i + r ≤ a.length →
    macroFill self (a ++ post) r i keystrokes = macroFill self a r i keystrokes
  | 0, _, _, _ => rfl
  | r + 1, i, ks, h => by
    have ih := fun ks => macroFill_tail self a post r (i + 1) ks (by omega)
    simp only [macroFill, readAt_left post a i (by omega), ih]

/-- The macro loop asked to visit more cells than the sequence has reads outside it. -/
theorem macroFill_short (self : OutputFactory) (a : List Nat) :
    ∀ (r i : Nat) (keystrokes : List INPUT), i ≤ a.length → a.length < i + r →
    i + r ≤ keystrokes.length →
    macroFill self a r i keystrokes = .error Fault.outOfBounds
  | 0, i, _, h1, h2, _ => by omega
  | r + 1, i, ks, h1, h2, h3 => by
    by_cases hi : i < a.length
    · obtain ⟨c, hc⟩ := readAt_in a i hi
      obtain ⟨k1, hk1, hl1⟩ := modifyAt_in (fun _ => self.VirtualKeyPrototypeDown) ks i
        (by omega)
      obtain ⟨k2, hk2, hl2⟩ := modifyAt_in (setVk ((c &&& 0xff) % 2 ^ 16)) k1 i (by omega)
      obtain ⟨k3, hk3, hl3⟩ := modifyAt_in (orFlags KEYEVENTF_KEYUP) k2 i (by omega)
      simp only [macroFill, hc, bind, Except.bind, hk1, hk2]
      by_cases hup : (c >>> 31) &&& 1 ≠ 0
      · simp only [if_pos hup, hk3]
        exact macroFill_short self a r (i + 1) k3 (by omega) (by omega) (by omega)
      · simp only [if_neg hup, pure, Except.pure]
        exact macroFill_short self a r (i + 1) k2 (by omega) (by omega) (by omega)
    · simp [macroFill, readAt_out a i (by omega), bind, Except.bind]

theorem modifyAt_fail0 (done : List INPUT) (f : INPUT → INPUT) :
    modifyAt done done.length f = .error Fault.outOfBounds :=
  modifyAt_out f done done.length (le_refl _)

theorem modifyAt_fail1 (done : List INPUT) (x : INPUT) (f : INPUT → INPUT) :
    modifyAt (done ++ [x]) (done.length + 1) f = .error Fault.outOfBounds :=
  modifyAt_out f _ _ (by simp)

theorem modifyAt_fail2 (done : List INPUT) (x y : INPUT) (f : INPUT → INPUT) :
    modifyAt (done ++ [x, y]) (done.length + 2) f = .error Fault.outOfBounds :=
  modifyAt_out f _ _ (by simp)

theorem modifyAt_fail3 (done : List INPUT) (x y z : INPUT) (f : INPUT → INPUT) :
    modifyAt (done ++ [x, y, z]) (done.length + 3) f = .error Fault.outOfBounds :=
  modifyAt_out f _ _ (by simp)

/-- The fill loop given fewer free cells than the events of `l` stores outside the array. -/
theorem stringFill_short (self : OutputFactory) :
    ∀ (l pre : List Nat) (done rest : List INPUT),
    rest.length < 2 * l.length + 2 * surrogateCount l →
    done.length + rest.length < 2 ^ 32 →
    stringFill self (pre ++ l) l.length pre.length done.length (done ++ rest)
      = .error Fault.outOfBounds
  | [], pre, done, rest, hlen, _ => by simp [surrogateCount] at hlen
  | c :: t, pre, done, rest, hlen, hfit => by
    rw [surrogateCount_cons] at hlen
    simp only [List.length_cons] at hlen
    by_cases hc : c ≤ 0xffff
    · have hc2 : ¬ (0xFFFF < c) := by omega
      rw [if_neg hc2] at hlen
      rcases rest with _ | ⟨r0, _ | ⟨r1, rest'⟩⟩
      · simp [stringFill, readAt_append, bind, Except.bind, hc, modifyAt_fail0]
      · simp only [List.length_cons, List.length_nil] at hfit
        have e1 : (done.length + 1) % 2 ^ 32 = done.length + 1 := by omega
        simp only [List.length_cons, stringFill, readAt_append, bind, Except.bind, hc,
          if_true, modifyAt_at0, e1, modifyAt_fail1]
      · simp only [List.length_cons] at hlen hfit
        have ih := stringFill_short self t (pre ++ [c])
          (done ++ [setScan c self.UnicodePrototypeDown, setScan c self.UnicodePrototypeUp])
          rest' (by omega) (by simp; omega)
        have e1 : (done.length + 1) % 2 ^ 32 = done.length + 1 := by omega
        have e2 : (done.length + 1 + 1) % 2 ^ 32 = done.length + 2 := by omega
        simp only [List.append_assoc, List.singleton_append, List.length_append,
          List.length_singleton, List.length_cons, List.length_nil,
          List.cons_append, List.nil_append] at ih
        simp only [List.length_cons, stringFill, readAt_append, bind, Except.bind, hc, if_true,
          modifyAt_at0, e1, modifyAt_at1, e2]
        exact ih
    · have hc2 : 0xFFFF < c := by omega
      rw [if_pos hc2] at hlen
      rcases rest with _ | ⟨r0, _ | ⟨r1, _ | ⟨r2, _ | ⟨r3, rest'⟩⟩⟩⟩
      · simp [stringFill, readAt_append, bind, Except.bind, hc, modifyAt_fail0]
      · simp only [List.length_cons, List.length_nil] at hfit
        have e1 : (done.length + 1) % 2 ^ 32 = done.length + 1 := by omega
        simp only [List.length_cons, stringFill, readAt_append, bind, Except.bind, hc,
          if_false, modifyAt_at0, e1, modifyAt_fail1]
      · simp only [List.length_cons, List.length_nil] at hfit
        have e1 : (done.length + 1) % 2 ^ 32 = done.length + 1 := by omega
        have e2 : (done.length + 2) % 2 ^ 32 = done.length + 2 := by omega
        simp only [List.length_cons, stringFill, readAt_append, bind, Except.bind, hc,
          if_false, modifyAt_at0, e1, modifyAt_at1, e2, modifyAt_fail2]
      · simp only [List.length_cons, List.length_nil] at hfit
        have e1 : (done.length + 1) % 2 ^ 32 = done.length + 1 := by omega
        have e2 : (done.length + 2) % 2 ^ 32 = done.length + 2 := by omega
        have e3 : (done.length + 2 + 1) % 2 ^ 32 = done.length + 3 := by omega
        simp only [List.length_cons, stringFill, readAt_append, bind, Except.bind, hc,
          if_false, modifyAt_at0, e1, modifyAt_at1, e2, modifyAt_at2, e3, modifyAt_fail3]
      · simp only [List.length_cons] at hlen hfit
        have ih := stringFill_short self t (pre ++ [c])
          (done ++ [setScan ((0xd800 + ((c - 0x10000) >>> 10)) % 2 ^ 16)
                      self.UnicodePrototypeDown,
                    setScan ((0xdc00 + (c &&& 0x3ff)) % 2 ^ 16) self.UnicodePrototypeDown,
                    setScan ((0xd800 + ((c - 0x10000) >>> 10)) % 2 ^ 16)
                      self.UnicodePrototypeUp,
                    setScan ((0xdc00 + (c &&& 0x3ff)) % 2 ^ 16) self.UnicodePrototypeUp])
          rest' (by omega) (by simp; omega)
        have e1 : (done.length + 1) % 2 ^ 32 = done.length + 1 := by omega
        have e2 : (done.length + 2) % 2 ^ 32 = done.length + 2 := by omega
        have e3 : (done.length + 2 + 1) % 2 ^ 32 = done.length + 3 := by omega
        have e4 : (done.length + 2 + 2) % 2 ^ 32 = done.length + 4 := by omega
        simp only [List.append_assoc, List.singleton_append, List.length_append,
          List.length_singleton, List.length_cons, List.length_nil,
          List.cons_append, List.nil_append] at ih
        simp only [List.length_cons, stringFill, readAt_append, bind, Except.bind, hc,
          if_false, modifyAt_at0, e1, modifyAt_at1, e2, modifyAt_at2, e3, modifyAt_at3, e4]
        exact ih

/-- What case `StringOutput` accepts: when it returns a descriptor, the pointer is not null,
the declared length `_nParam` is within the sequence, the events of its first `_nParam` code
points fit the 32-bit count, and the descriptor holds exactly their blocks. -/
theorem string_ok_shape (raw : OutputFactory) (M : VirtualModifiers) (mem : Nat → INPUT)
    (_nParam : Nat) (_lParam : ULONG_PTR) (out : IKeystrokeOutput)
    (h : (OutputFactory.construct raw).getInstance M mem .StringOutput _nParam _lParam
      = .ok (some out)) :
    _lParam.value ≠ 0 ∧ ∃ l post : List Nat, _lParam.target = l ++ post ∧ l.length = _nParam
      ∧ 2 * l.length + 2 * surrogateCount l < 2 ^ 32
      ∧ out = .StringOutput (2 * l.length + 2 * surrogateCount l)
          (l.map charBlock).flatten := by
  obtain ⟨value, target⟩ := _lParam
  by_cases hv : value = 0
  · simp [OutputFactory.getInstance, hv, pure, Except.pure] at h
  refine ⟨hv, ?_⟩
  by_cases hn : _nParam ≤ target.length
  · obtain ⟨l, post, htar, hl⟩ : ∃ l post : List Nat, target = l ++ post ∧ l.length = _nParam :=
      ⟨target.take _nParam, target.drop _nParam, (List.take_append_drop _ _).symm,
        List.length_take_of_le hn⟩
    subst htar
    subst hl
    refine ⟨l, post, rfl, rfl, ?_⟩
    have hcnt : stringCount (l ++ post) l.length 0 ((l.length * 2) % 2 ^ 32)
        = .ok (((l.length * 2) % 2 ^ 32 + 2 * surrogateCount l) % 2 ^ 32) := by
      rw [stringCount_tail l post l.length 0 _ (by omega)]
      exact stringCount_spec l [] _ (by omega)
    simp only [OutputFactory.getInstance, hv, if_false, bind, Except.bind, hcnt] at h
    rw [stringFill_tail _ l post l.length 0 0 _ (by omega)] at h
    by_cases hfit : 2 * l.length + 2 * surrogateCount l < 2 ^ 32
    · have hval : ((l.length * 2) % 2 ^ 32 + 2 * surrogateCount l) % 2 ^ 32
          = 2 * l.length + 2 * surrogateCount l := by omega
      rw [hval] at h
      have hfill := stringFill_spec raw l [] []
        (newArray mem (2 * l.length + 2 * surrogateCount l))
        (by rw [newArray_length]) (by rw [newArray_length]; simpa using hfit)
      simp only [List.nil_append, List.length_nil] at hfill
      rw [hfill] at h
      simp only [pure, Except.pure, Except.ok.injEq, Option.some.injEq] at h
      exact ⟨hfit, h.symm⟩
    · have hshort := stringFill_short (OutputFactory.construct raw) l [] []
        (newArray mem (((l.length * 2) % 2 ^ 32 + 2 * surrogateCount l) % 2 ^ 32))
        (by rw [newArray_length]; omega) (by rw [newArray_length]; simp; omega)
      simp only [List.nil_append, List.length_nil] at hshort
      rw [hshort] at h
      cases h
  · have hshort := stringCount_short target _nParam 0 ((_nParam * 2) % 2 ^ 32) (by omega)
      (by omega)
    simp only [OutputFactory.getInstance, hv, if_false, bind, Except.bind, hshort] at h
    cases h

/-- What case `MacroOutput` accepts: when it returns a descriptor, the pointer is not null,
the declared length `_nParam` is within the sequence, and the descriptor holds exactly the
events of its first `_nParam` entries. -/
theorem macro_ok_shape (raw : OutputFactory) (M : VirtualModifiers) (mem : Nat → INPUT)
    (_nParam : Nat) (_lParam : ULONG_PTR) (out : IKeystrokeOutput)
    (h : (OutputFactory.construct raw).getInstance M mem .MacroOutput _nParam _lParam
      = .ok (some out)) :
    _lParam.value ≠ 0 ∧ ∃ l post : List Nat, _lParam.target = l ++ post ∧ l.length = _nParam
      ∧ out = .MacroOutput l.length (l.map macroEvent) := by
  obtain ⟨value, target⟩ := _lParam
  by_cases hv : value = 0
  · simp [OutputFactory.getInstance, hv, pure, Except.pure] at h
  refine ⟨hv, ?_⟩
  by_cases hn : _nParam ≤ target.length
  · obtain ⟨l, post, htar, hl⟩ : ∃ l post : List Nat, target = l ++ post ∧ l.length = _nParam :=
      ⟨target.take _nParam, target.drop _nParam, (List.take_append_drop _ _).symm,
        List.length_take_of_le hn⟩
    subst htar
    subst hl
    refine ⟨l, post, rfl, rfl, ?_⟩
    have hfill := macroFill_spec raw l [] [] (newArray mem l.length) rfl (newArray_length _ _)
    simp only [List.nil_append, List.length_nil] at hfill
    simp only [OutputFactory.getInstance, hv, if_false, bind, Except.bind] at h
    rw [macroFill_tail _ l post l.length 0 _ (by omega), hfill] at h
    simp only [pure, Except.pure, Except.ok.injEq, Option.some.injEq] at h
    exact h.symm
  · have hshort := macroFill_short (OutputFactory.construct raw) target _nParam 0
      (newArray mem _nParam) (by omega) (by omega) (by rw [newArray_length]; omega)
    simp only [OutputFactory.getInstance, hv, if_false, bind, Except.bind, hshort] at h
    cases h

/-! ## Theorems: balance -/

theorem balanced_nil : Balanced [] := fun _ => rfl

theorem balanced_append (a b : List INPUT) (ha : Balanced a) (hb : Balanced b) :
    Balanced (a ++ b) := by
  intro id
  have h1 := ha id
  have h2 := hb id
  unfold downCount upCount at *
  rw [List.countP_append, List.countP_append, h1, h2]

/-- Key-downs followed by key-ups of the same keys, in any order, are balanced. -/
theorem balanced_phases (down up : List INPUT) (hd : ∀ e ∈ down, isKeyUp e = false)
    (hu : ∀ e ∈ up, isKeyUp e = true)
    (hperm : (down.map keyIdentity).Perm (up.map keyIdentity)) : Balanced (down ++ up) := by
  intro id
  unfold downCount upCount
  rw [List.countP_append, List.countP_append]
  have h1 : List.countP (fun e => !isKeyUp e && keyIdentity e == id) up = 0 := by
    rw [List.countP_eq_zero]
    intro e he
    simp [hu e he]
  have h2 : List.countP (fun e => isKeyUp e && keyIdentity e == id) down = 0 := by
    rw [List.countP_eq_zero]
    intro e he
    simp [hd e he]
  have h3 : List.countP (fun e => !isKeyUp e && keyIdentity e == id) down
      = (down.map keyIdentity).countP (fun k => k == id) := by
    rw [List.countP_map]
    apply List.countP_congr
    intro e he
    simp [hd e he]
  have h4 : List.countP (fun e => isKeyUp e && keyIdentity e == id) up
      = (up.map keyIdentity).countP (fun k => k == id) := by
    rw [List.countP_map]
    apply List.countP_congr
    intro e he
    simp [hu e he]
  rw [h1, h2, h3, h4, hperm.countP_eq]
  omega

theorem isKeyUp_unicodeDown (u : Nat) : isKeyUp (unicodeDown u) = false := by
  show ((KEYEVENTF_UNICODE &&& KEYEVENTF_KEYUP) != 0) = false
  decide

theorem isKeyUp_unicodeUp (u : Nat) : isKeyUp (unicodeUp u) = true := by
  show (((KEYEVENTF_UNICODE ||| KEYEVENTF_KEYUP) &&& KEYEVENTF_KEYUP) != 0) = true
  decide

theorem isKeyUp_setVk (k : Nat) (e : INPUT) : isKeyUp (setVk k e) = isKeyUp e := rfl

theorem isKeyUp_virtualPrototypeDown (raw : OutputFactory) :
    isKeyUp (OutputFactory.construct raw).VirtualKeyPrototypeDown = false := by
  show ((KEYEVENTF_EXTENDEDKEY &&& KEYEVENTF_KEYUP) != 0) = false
  decide

theorem isKeyUp_virtualPrototypeUp (raw : OutputFactory) :
    isKeyUp (OutputFactory.construct raw).VirtualKeyPrototypeUp = true := by
  show (((KEYEVENTF_EXTENDEDKEY ||| KEYEVENTF_KEYUP) &&& KEYEVENTF_KEYUP) != 0) = true
  decide

theorem balanced_charBlock (c : Nat) : Balanced (charBlock c) := by
  unfold charBlock
  split
  · exact balanced_phases [unicodeDown c] [unicodeUp c]
      (by intro e he; simp at he; subst he; exact isKeyUp_unicodeDown _)
      (by intro e he; simp at he; subst he; exact isKeyUp_unicodeUp _) (List.Perm.refl _)
  · exact balanced_phases [unicodeDown (highSurrogate c), unicodeDown (lowSurrogate c)]
      [unicodeUp (highSurrogate c), unicodeUp (lowSurrogate c)]
      (by intro e he; simp at he; rcases he with rfl | rfl <;> exact isKeyUp_unicodeDown _)
      (by intro e he; simp at he; rcases he with rfl | rfl <;> exact isKeyUp_unicodeUp _)
      (List.Perm.refl _)

theorem balanced_blocks (l : List Nat) : Balanced (l.map charBlock).flatten := by
  induction l with
  | nil => exact balanced_nil
  | cons c t ih =>
    rw [List.map_cons, List.flatten_cons]
    exact balanced_append _ _ (balanced_charBlock c) ih

theorem downPhase_isDown (raw : OutputFactory) (M : VirtualModifiers) (l key : Nat) :
    ∀ e ∈ downPhase (OutputFactory.construct raw).VirtualKeyPrototypeDown M l key,
      isKeyUp e = false := by
  intro e he
  simp only [downPhase, List.mem_append, List.mem_map, List.mem_singleton] at he
  rcases he with (⟨vk, _, rfl⟩ | rfl) | he
  · rw [isKeyUp_setVk]; exact isKeyUp_virtualPrototypeDown raw
  · rw [isKeyUp_setVk]; exact isKeyUp_virtualPrototypeDown raw
  · cases h : flagSet l M.VIRTUAL_MODIFIER_LSHIFT
    · simp [h] at he
    · simp [h] at he
      subst he
      exact isKeyUp_virtualPrototypeDown raw

theorem upPhase_isUp (raw : OutputFactory) (M : VirtualModifiers) (l key : Nat) :
    ∀ e ∈ upPhase (OutputFactory.construct raw).VirtualKeyPrototypeUp M l key,
      isKeyUp e = true := by
  intro e he
  simp only [upPhase, List.mem_append, List.mem_map, List.mem_singleton] at he
  rcases he with (he | rfl) | ⟨vk, _, rfl⟩
  · cases h : flagSet l M.VIRTUAL_MODIFIER_LSHIFT
    · simp [h] at he
    · simp [h] at he
      subst he
      exact isKeyUp_virtualPrototypeUp raw
  · rw [isKeyUp_setVk]; exact isKeyUp_virtualPrototypeUp raw
  · rw [isKeyUp_setVk]; exact isKeyUp_virtualPrototypeUp raw

theorem phases_identity (raw : OutputFactory) (M : VirtualModifiers) (l key : Nat) :
    (upPhase (OutputFactory.construct raw).VirtualKeyPrototypeUp M l key).map keyIdentity
      = ((downPhase (OutputFactory.construct raw).VirtualKeyPrototypeDown M l key).map
          keyIdentity).reverse := by
  unfold upPhase downPhase
  cases h : flagSet l M.VIRTUAL_MODIFIER_LSHIFT <;>
    simp [h, List.map_reverse, setVk, OutputFactory.construct, orFlags, Function.comp_def,
      keyIdentity]

/-- C13 fails as stated: `getInstance` accepts the macro of the single entry `VK_LCONTROL`,
a key-down, and the descriptor it builds has one key-down and no key-up of that key. -/
theorem C13_macro_not_balanced :
    (OutputFactory.construct sampleStorage).getInstance sampleModifiers sampleMemory
        .MacroOutput 1 ⟨1000, [VK_LCONTROL]⟩
      = .ok (some (.MacroOutput 1 [virtualDown VK_LCONTROL]))
    ∧ downCount (VK_LCONTROL, 0) (IKeystrokeOutput.MacroOutput 1
        [virtualDown VK_LCONTROL]).events = 1
    ∧ upCount (VK_LCONTROL, 0) (IKeystrokeOutput.MacroOutput 1
        [virtualDown VK_LCONTROL]).events = 0
    ∧ ¬ Balanced (IKeystrokeOutput.MacroOutput 1 [virtualDown VK_LCONTROL]).events := by
  refine ⟨by decide, by decide, by decide, ?_⟩
  intro h
  exact absurd (h (VK_LCONTROL, 0)) (by decide)

/-- C13, amended: every descriptor the factory builds of kind Unicode, Virtual Output or
String is balanced: for every input that `getInstance` accepts, each key identity occurs in
as many key-down as key-up events of the descriptor. -/
theorem C13_factory_balances_all_but_macro (raw : OutputFactory) (M : VirtualModifiers)
    (mem : Nat → INPUT) (_type : KeystrokeOutputType) (_nParam : Nat) (_lParam : ULONG_PTR)
    (out : IKeystrokeOutput) (hM : M.WellFormed)
    (hkind : _type = .UnicodeOutput ∨ _type = .VirtualOutput ∨ _type = .StringOutput)
    (h : (OutputFactory.construct raw).getInstance M mem _type _nParam _lParam
      = .ok (some out)) :
    Balanced out.events := by
  rcases hkind with rfl | rfl | rfl
  · rw [unicode_shape] at h
    simp only [Except.ok.injEq, Option.some.injEq] at h
    subst h
    split
    · exact balanced_phases [unicodeDown _nParam] [unicodeUp _nParam]
        (by intro e he; simp at he; subst he; exact isKeyUp_unicodeDown _)
        (by intro e he; simp at he; subst he; exact isKeyUp_unicodeUp _) (List.Perm.refl _)
    · exact balanced_phases
        [unicodeDown (highSurrogate _nParam), unicodeDown (lowSurrogate _nParam)]
        [unicodeUp (highSurrogate _nParam), unicodeUp (lowSurrogate _nParam)]
        (by intro e he; simp at he; rcases he with rfl | rfl <;> exact isKeyUp_unicodeDown _)
        (by intro e he; simp at he; rcases he with rfl | rfl <;> exact isKeyUp_unicodeUp _)
        (List.Perm.refl _)
  · rw [virtual_shape raw M mem _nParam _lParam hM] at h
    simp only [Except.ok.injEq, Option.some.injEq] at h
    subst h
    refine balanced_phases _ _ (downPhase_isDown raw M _ _) (upPhase_isUp raw M _ _) ?_
    rw [phases_identity]
    exact (List.reverse_perm _).symm
  · obtain ⟨_, l, post, _, _, _, hout⟩ := string_ok_shape raw M mem _nParam _lParam out h
    subst hout
    exact balanced_blocks l

/-- C13, amended, at the key `A` with the mask of Ctrl-L and Shift-L. -/
theorem C13_witness :
    sampleModifiers.WellFormed
    ∧ (OutputFactory.construct sampleStorage).getInstance sampleModifiers sampleMemory
          .VirtualOutput 0x41 ⟨0x41, []⟩
        = .ok (some (.VirtualKeyOutput 3
            [virtualDown VK_LCONTROL, virtualDown 0x41, virtualDown 31]
            [virtualUp 31, virtualUp 0x41, virtualUp VK_LCONTROL]))
    ∧ Balanced (IKeystrokeOutput.VirtualKeyOutput 3
        [virtualDown VK_LCONTROL, virtualDown 0x41, virtualDown 31]
        [virtualUp 31, virtualUp 0x41, virtualUp VK_LCONTROL]).events :=
  ⟨by decide, by decide,
   C13_factory_balances_all_but_macro sampleStorage sampleModifiers sampleMemory
     .VirtualOutput 0x41 ⟨0x41, []⟩ _ (by decide) (Or.inr (Or.inl rfl)) (by decide)⟩

/-! ## Theorems: the shape of the events -/

/-- A sequence of Unicode events of the prototypes' shape carries the Unicode marker
throughout, and its key-ups are its key-downs with `KEYEVENTF_KEYUP` set. -/
theorem unicode_events (evs : List INPUT)
    (h : ∀ e ∈ evs, ∃ u, e = unicodeDown u ∨ e = unicodeUp u) :
    (∀ e ∈ evs, UnicodeMarked e) ∧ UpIsDownWithKeyUp evs := by
  constructor
  · intro e he
    obtain ⟨u, rfl | rfl⟩ := h e he
    · refine ⟨rfl, ?_⟩
      show KEYEVENTF_UNICODE &&& KEYEVENTF_UNICODE = KEYEVENTF_UNICODE
      decide
    · refine ⟨rfl, ?_⟩
      show (KEYEVENTF_UNICODE ||| KEYEVENTF_KEYUP) &&& KEYEVENTF_UNICODE = KEYEVENTF_UNICODE
      decide
  · intro d hd u hu hdown hup hid
    obtain ⟨a, rfl | rfl⟩ := h d hd
    · obtain ⟨b, rfl | rfl⟩ := h u hu
      · rw [isKeyUp_unicodeDown] at hup; cases hup
      · have hab : b % 2 ^ 16 = a % 2 ^ 16 := by
          have := congrArg Prod.snd hid
          simpa [keyIdentity, unicodeDown, unicodeUp] using this.symm
        show unicodeUp b = orFlags KEYEVENTF_KEYUP (unicodeDown a)
        unfold unicodeUp unicodeDown orFlags
        rw [hab]
    · rw [isKeyUp_unicodeUp] at hdown; cases hdown

theorem isKeyUp_down_shape (k : Nat) :
    isKeyUp ⟨INPUT_KEYBOARD, ⟨k, 0, KEYEVENTF_EXTENDEDKEY, 0, 0⟩⟩ = false := by
  show ((KEYEVENTF_EXTENDEDKEY &&& KEYEVENTF_KEYUP) != 0) = false
  decide

theorem isKeyUp_up_shape (k : Nat) :
    isKeyUp ⟨INPUT_KEYBOARD, ⟨k, 0, KEYEVENTF_EXTENDEDKEY ||| KEYEVENTF_KEYUP, 0, 0⟩⟩
      = true := by
  show (((KEYEVENTF_EXTENDEDKEY ||| KEYEVENTF_KEYUP) &&& KEYEVENTF_KEYUP) != 0) = true
  decide

/-- A sequence of virtual-key events of the prototypes' shape carries the virtual-key marker
throughout, and its key-ups are its key-downs with `KEYEVENTF_KEYUP` set. -/
theorem virtual_events (evs : List INPUT)
    (h : ∀ e ∈ evs, ∃ k,
      e = ⟨INPUT_KEYBOARD, ⟨k, 0, KEYEVENTF_EXTENDEDKEY, 0, 0⟩⟩
      ∨ e = ⟨INPUT_KEYBOARD, ⟨k, 0, KEYEVENTF_EXTENDEDKEY ||| KEYEVENTF_KEYUP, 0, 0⟩⟩) :
    (∀ e ∈ evs, VirtualMarked e) ∧ UpIsDownWithKeyUp evs := by
  constructor
  · intro e he
    obtain ⟨k, rfl | rfl⟩ := h e he
    · refine ⟨rfl, ?_⟩
      show KEYEVENTF_EXTENDEDKEY &&& KEYEVENTF_EXTENDEDKEY = KEYEVENTF_EXTENDEDKEY
      decide
    · refine ⟨rfl, ?_⟩
      show (KEYEVENTF_EXTENDEDKEY ||| KEYEVENTF_KEYUP) &&& KEYEVENTF_EXTENDEDKEY
        = KEYEVENTF_EXTENDEDKEY
      decide
  · intro d hd u hu hdown hup hid
    obtain ⟨a, rfl | rfl⟩ := h d hd
    · obtain ⟨b, rfl | rfl⟩ := h u hu
      · rw [isKeyUp_down_shape] at hup; cases hup
      · have hab : b = a := by
          have := congrArg Prod.fst hid
          simpa [keyIdentity] using this.symm
        rw [hab]
        rfl
    · rw [isKeyUp_up_shape] at hdown; cases hdown

theorem charBlock_events (l : List Nat) :
    ∀ e ∈ (l.map charBlock).flatten, ∃ u, e = unicodeDown u ∨ e = unicodeUp u := by
  intro e he
  simp only [List.mem_flatten, List.mem_map] at he
  obtain ⟨blk, ⟨c, _, rfl⟩, hmem⟩ := he
  unfold charBlock at hmem
  split at hmem
  · simp only [List.mem_cons, List.mem_singleton, List.not_mem_nil, or_false] at hmem
    rcases hmem with rfl | rfl
    · exact ⟨_, Or.inl rfl⟩
    · exact ⟨_, Or.inr rfl⟩
  · simp only [List.mem_cons, List.mem_singleton, List.not_mem_nil, or_false] at hmem
    rcases hmem with rfl | rfl | rfl | rfl
    · exact ⟨_, Or.inl rfl⟩
    · exact ⟨_, Or.inl rfl⟩
    · exact ⟨_, Or.inr rfl⟩
    · exact ⟨_, Or.inr rfl⟩

theorem macro_events (l : List Nat) :
    ∀ e ∈ l.map macroEvent, ∃ k,
      e = ⟨INPUT_KEYBOARD, ⟨k, 0, KEYEVENTF_EXTENDEDKEY, 0, 0⟩⟩
      ∨ e = ⟨INPUT_KEYBOARD, ⟨k, 0, KEYEVENTF_EXTENDEDKEY ||| KEYEVENTF_KEYUP, 0, 0⟩⟩ := by
  intro e he
  simp only [List.mem_map] at he
  obtain ⟨c, _, rfl⟩ := he
  unfold macroEvent
  split
  · exact ⟨_, Or.inr rfl⟩
  · exact ⟨_, Or.inl rfl⟩

theorem phase_events (raw : OutputFactory) (M : VirtualModifiers) (l key : Nat) :
    ∀ e ∈ downPhase (OutputFactory.construct raw).VirtualKeyPrototypeDown M l key
        ++ upPhase (OutputFactory.construct raw).VirtualKeyPrototypeUp M l key, ∃ k,
      e = ⟨INPUT_KEYBOARD, ⟨k, 0, KEYEVENTF_EXTENDEDKEY, 0, 0⟩⟩
      ∨ e = ⟨INPUT_KEYBOARD, ⟨k, 0, KEYEVENTF_EXTENDEDKEY ||| KEYEVENTF_KEYUP, 0, 0⟩⟩ := by
  intro e he
  simp only [downPhase, upPhase, List.mem_append, List.mem_map, List.mem_singleton] at he
  rcases he with ((⟨vk, _, rfl⟩ | rfl) | he) | ((he | rfl) | ⟨vk, _, rfl⟩)
  · exact ⟨_, Or.inl rfl⟩
  · exact ⟨_, Or.inl rfl⟩
  · cases h : flagSet l M.VIRTUAL_MODIFIER_LSHIFT
    · simp [h] at he
    · simp [h] at he
      subst he
      exact ⟨_, Or.inl rfl⟩
  · cases h : flagSet l M.VIRTUAL_MODIFIER_LSHIFT
    · simp [h] at he
    · simp [h] at he
      subst he
      exact ⟨_, Or.inr rfl⟩
  · exact ⟨_, Or.inr rfl⟩
  · exact ⟨_, Or.inr rfl⟩

/-- The markers of the events, whatever key code or code unit they carry: every event of a
descriptor that Build Unicode or Build String returns has `wVk = 0` and `KEYEVENTF_UNICODE`
set; every event of a descriptor that Build Virtual Output or Build Macro returns has
`wScan = 0` and `KEYEVENTF_EXTENDEDKEY` set, the cells that a Shift-L mask leaves untouched
included; and in all four kinds a key-up event is the key-down event of the same key with
`KEYEVENTF_KEYUP` set and nothing else changed. -/
theorem events_carry_markers (raw : OutputFactory) (M : VirtualModifiers)
    (mem : Nat → INPUT) (_type : KeystrokeOutputType) (_nParam : Nat) (_lParam : ULONG_PTR)
    (out : IKeystrokeOutput) (hM : M.WellFormed)
    (h : (OutputFactory.construct raw).getInstance M mem _type _nParam _lParam
      = .ok (some out)) :
    ((_type = .UnicodeOutput ∨ _type = .StringOutput) → ∀ e ∈ out.events, UnicodeMarked e)
    ∧ ((_type = .VirtualOutput ∨ _type = .MacroOutput) → ∀ e ∈ out.events, VirtualMarked e)
    ∧ ((_type = .UnicodeOutput ∨ _type = .StringOutput ∨ _type = .VirtualOutput
          ∨ _type = .MacroOutput) → UpIsDownWithKeyUp out.events) := by
  cases _type with
  | UnicodeOutput =>
    rw [unicode_shape] at h
    simp only [Except.ok.injEq, Option.some.injEq] at h
    subst h
    have hev : ∀ e ∈ (if _nParam ≤ 0xFFFF then
          IKeystrokeOutput.UnicodeOutput _nParam 1 [unicodeDown _nParam] [unicodeUp _nParam]
        else IKeystrokeOutput.UnicodeOutput _nParam 2
          [unicodeDown (highSurrogate _nParam), unicodeDown (lowSurrogate _nParam)]
          [unicodeUp (highSurrogate _nParam), unicodeUp (lowSurrogate _nParam)]).events,
        ∃ u, e = unicodeDown u ∨ e = unicodeUp u := by
      intro e he
      split at he
      · simp only [IKeystrokeOutput.events, List.mem_append, List.mem_singleton] at he
        rcases he with rfl | rfl
        · exact ⟨_, Or.inl rfl⟩
        · exact ⟨_, Or.inr rfl⟩
      · simp only [IKeystrokeOutput.events, List.mem_append, List.mem_cons,
          List.mem_singleton, List.not_mem_nil, or_false] at he
        rcases he with (rfl | rfl) | (rfl | rfl)
        · exact ⟨_, Or.inl rfl⟩
        · exact ⟨_, Or.inl rfl⟩
        · exact ⟨_, Or.inr rfl⟩
        · exact ⟨_, Or.inr rfl⟩
    obtain ⟨h1, h2⟩ := unicode_events _ hev
    exact ⟨fun _ => h1, (fun hk => by rcases hk with hk | hk <;> cases hk), fun _ => h2⟩
  | StringOutput =>
    obtain ⟨_, l, post, _, _, _, hout⟩ := string_ok_shape raw M mem _nParam _lParam out h
    subst hout
    obtain ⟨h1, h2⟩ := unicode_events _ (charBlock_events l)
    exact ⟨fun _ => h1, (fun hk => by rcases hk with hk | hk <;> cases hk), fun _ => h2⟩
  | VirtualOutput =>
    rw [virtual_shape raw M mem _nParam _lParam hM] at h
    simp only [Except.ok.injEq, Option.some.injEq] at h
    subst h
    obtain ⟨h1, h2⟩ := virtual_events _ (phase_events raw M _lParam.value _nParam)
    exact ⟨(fun hk => by rcases hk with hk | hk <;> cases hk), fun _ => h1, fun _ => h2⟩
  | MacroOutput =>
    obtain ⟨_, l, post, _, _, hout⟩ := macro_ok_shape raw M mem _nParam _lParam out h
    subst hout
    obtain ⟨h1, h2⟩ := virtual_events _ (macro_events l)
    exact ⟨(fun hk => by rcases hk with hk | hk <;> cases hk), fun _ => h1, fun _ => h2⟩
  | ScriptOutput =>
    exact ⟨(fun hk => by rcases hk with hk | hk <;> cases hk),
      (fun hk => by rcases hk with hk | hk <;> cases hk),
      (fun hk => by rcases hk with hk | hk | hk | hk <;> cases hk)⟩
  | NoOutput =>
    exact ⟨(fun hk => by rcases hk with hk | hk <;> cases hk),
      (fun hk => by rcases hk with hk | hk <;> cases hk),
      (fun hk => by rcases hk with hk | hk | hk | hk <;> cases hk)⟩
  | Invalid =>
    exact ⟨(fun hk => by rcases hk with hk | hk <;> cases hk),
      (fun hk => by rcases hk with hk | hk <;> cases hk),
      (fun hk => by rcases hk with hk | hk | hk | hk <;> cases hk)⟩

/-! ## Theorems: the device loop of `EvaluateKey` -/

/-- The entry that `remaps.find` returns is an entry of the map and has the lookup key. -/
theorem mapFind_some (remaps : List (KEYSTROKE_INPUT × Option IKeystrokeOutput))
    (input : KEYSTROKE_INPUT) (pair : KEYSTROKE_INPUT × Option IKeystrokeOutput)
    (h : mapFind remaps input = some pair) : pair ∈ remaps ∧ pair.1 = input := by
  unfold mapFind at h
  exact ⟨List.mem_of_find?_eq_some h, by simpa using List.find?_some h⟩

/-- The device loop at the first keyboard of the asked name: its map alone gives the
answer. -/
theorem evaluateLoop_first (input : KEYSTROKE_INPUT) (out_action : Option IKeystrokeOutput)
    (before after : List KEYBOARD) (first : KEYBOARD)
    (h : ∀ kb ∈ before, kb.device_name ≠ first.device_name) :
    evaluateLoop input first.device_name out_action (before ++ first :: after)
      = match mapFind first.remaps input with
        | some pair => (true, pair.2)
        | none => (false, out_action) := by
  have hname : wcscmp first.device_name first.device_name = 0 :=
    (wcscmp_eq_zero _ _).mpr rfl
  rw [evaluateLoop_skip input first.device_name out_action before (first :: after) h,
    evaluateLoop, if_pos hname]

/-- The two ways the device loop ends: `FALSE` with `*out_action` as it was, or `TRUE` with
`*out_action` the descriptor of the entry found in the map of a keyboard of the asked
name. -/
theorem evaluateLoop_ends (input : KEYSTROKE_INPUT) (deviceName : List Nat)
    (out_action : Option IKeystrokeOutput) : ∀ (keyboards : List KEYBOARD),
    ((evaluateLoop input deviceName out_action keyboards).1 = false
        ∧ (evaluateLoop input deviceName out_action keyboards).2 = out_action)
    ∨ ((evaluateLoop input deviceName out_action keyboards).1 = true
        ∧ ∃ kb ∈ keyboards, kb.device_name = deviceName
            ∧ ∃ pair ∈ kb.remaps, pair.1 = input
                ∧ (evaluateLoop input deviceName out_action keyboards).2 = pair.2)
  | [] => Or.inl ⟨rfl, rfl⟩
  | kb :: rest => by
    by_cases hname : wcscmp kb.device_name deviceName = 0
    · cases hfind : mapFind kb.remaps input with
      | none =>
        left
        rw [evaluateLoop, if_pos hname, hfind]
        exact ⟨rfl, rfl⟩
      | some pair =>
        right
        have hp := mapFind_some kb.remaps input pair hfind
        rw [evaluateLoop, if_pos hname, hfind]
        exact ⟨rfl, kb, by simp, (wcscmp_eq_zero _ _).mp hname, pair, hp.1, hp.2, rfl⟩
    · rcases evaluateLoop_ends input deviceName out_action rest with h | h
      · left
        rw [evaluateLoop, if_neg hname]
        exact h
      · right
        obtain ⟨h1, k, hk, hn, pair, hp, hkey, hout⟩ := h
        rw [evaluateLoop, if_neg hname]
        exact ⟨h1, k, by simp [hk], hn, pair, hp, hkey, hout⟩

/-- C22: when several keyboards of the table have the same device name, `EvaluateKey` is
decided by the first of them alone. With `first` the first keyboard of its name, followed by
any keyboards `after`, of the same name or not: if the remaps of `first` contain the lookup
key, the call returns `TRUE` with the descriptor of that entry; if they do not, it returns
`FALSE` and leaves `*out_action` as it was, whatever the keyboards after it contain; and
the answer is the same for every choice of the keyboards after it. -/
theorem C22_first_keyboard_decides (before after : List KEYBOARD) (first : KEYBOARD)
    (keypressed : RAWKEYBOARD) (out_action : Option IKeystrokeOutput)
    (hfirst : ∀ kb ∈ before, kb.device_name ≠ first.device_name) :
    (∀ pair, mapFind first.remaps ⟨0, keypressed.MakeCode, keypressed.Flags⟩ = some pair →
      ((Remapper.mk (before ++ first :: after)).EvaluateKey keypressed first.device_name
          out_action).result = true
      ∧ ((Remapper.mk (before ++ first :: after)).EvaluateKey keypressed first.device_name
          out_action).out_action = pair.2)
    ∧ (mapFind first.remaps ⟨0, keypressed.MakeCode, keypressed.Flags⟩ = none →
      ((Remapper.mk (before ++ first :: after)).EvaluateKey keypressed first.device_name
          out_action).result = false
      ∧ ((Remapper.mk (before ++ first :: after)).EvaluateKey keypressed first.device_name
          out_action).out_action = out_action)
    ∧ (∀ others : List KEYBOARD,
      ((Remapper.mk (before ++ first :: others)).EvaluateKey keypressed first.device_name
          out_action).result
        = ((Remapper.mk (before ++ first :: after)).EvaluateKey keypressed first.device_name
          out_action).result
      ∧ ((Remapper.mk (before ++ first :: others)).EvaluateKey keypressed first.device_name
          out_action).out_action
        = ((Remapper.mk (before ++ first :: after)).EvaluateKey keypressed first.device_name
          out_action).out_action) := by
  have hloop := fun rest => evaluateLoop_first ⟨0, keypressed.MakeCode, keypressed.Flags⟩
    out_action before rest first hfirst
  refine ⟨?_, ?_, ?_⟩
  · intro pair hpair
    simp [Remapper.EvaluateKey, hloop, hpair]
  · intro hnone
    simp [Remapper.EvaluateKey, hloop, hnone]
  · intro others
    simp [Remapper.EvaluateKey, hloop]

/-- C22 at a table with two keyboards named `KBD-1`: the first has no entry for scan code
`0x1F`, the second has one; the call returns `FALSE` and leaves `*out_action` as it was. -/
theorem C22_witness :
    (∀ kb ∈ ([] : List KEYBOARD), kb.device_name ≠ (KEYBOARD.mk KBD1 []).device_name)
    ∧ mapFind (KEYBOARD.mk KBD1 [(⟨0, 0x1F, 0⟩, some .NoOutput)]).remaps ⟨0, 0x1F, 0⟩
        = some (⟨0, 0x1F, 0⟩, some .NoOutput)
    ∧ mapFind (KEYBOARD.mk KBD1 []).remaps
          ⟨0, (RAWKEYBOARD.mk 0x1F 0 0 0 0 0).MakeCode, (RAWKEYBOARD.mk 0x1F 0 0 0 0 0).Flags⟩
        = none
    ∧ ((Remapper.mk ([] ++ KEYBOARD.mk KBD1 []
            :: [KEYBOARD.mk KBD1 [(⟨0, 0x1F, 0⟩, some .NoOutput)]])).EvaluateKey
          ⟨0x1F, 0, 0, 0, 0, 0⟩ (KEYBOARD.mk KBD1 []).device_name none).result = false
    ∧ ((Remapper.mk ([] ++ KEYBOARD.mk KBD1 []
            :: [KEYBOARD.mk KBD1 [(⟨0, 0x1F, 0⟩, some .NoOutput)]])).EvaluateKey
          ⟨0x1F, 0, 0, 0, 0, 0⟩ (KEYBOARD.mk KBD1 []).device_name none).out_action = none :=
  ⟨by simp, by decide, by decide,
   (C22_first_keyboard_decides [] [KEYBOARD.mk KBD1 [(⟨0, 0x1F, 0⟩, some .NoOutput)]]
      (KEYBOARD.mk KBD1 []) ⟨0x1F, 0, 0, 0, 0, 0⟩ none (by simp)).2.1 (by decide)⟩

/-- C23: whenever `EvaluateKey` returns `FALSE`, `*out_action` holds after the call what it
held before it; and whenever it returns `TRUE`, `*out_action` holds the descriptor of an
entry with the lookup key in the remaps of a keyboard of the asked device name. This is so
for every table, key event, device name and previous content of `*out_action`. -/
theorem C23_out_action_written_only_on_true (self : Remapper) (keypressed : RAWKEYBOARD)
    (deviceName : List Nat) (out_action : Option IKeystrokeOutput) :
    ((self.EvaluateKey keypressed deviceName out_action).result = false →
      (self.EvaluateKey keypressed deviceName out_action).out_action = out_action)
    ∧ ((self.EvaluateKey keypressed deviceName out_action).result = true →
      ∃ kb ∈ self.keyboards, kb.device_name = deviceName
        ∧ ∃ pair ∈ kb.remaps, pair.1 = ⟨0, keypressed.MakeCode, keypressed.Flags⟩
          ∧ (self.EvaluateKey keypressed deviceName out_action).out_action = pair.2) := by
  have h := evaluateLoop_ends ⟨0, keypressed.MakeCode, keypressed.Flags⟩ deviceName
    out_action self.keyboards
  simp only [Remapper.EvaluateKey]
  rcases h with ⟨h1, h2⟩ | ⟨h1, h2⟩
  · exact ⟨fun _ => h2, fun ht => absurd (h1.symm.trans ht) (by decide)⟩
  · exact ⟨fun hf => absurd (h1.symm.trans hf) (by decide), fun _ => h2⟩

/-- C23 at the table with the one device `KBD-1` and one entry, `*out_action` holding a
script descriptor before the call: an unknown device and a key without entry both return
`FALSE` and leave the script descriptor in place; the key with the entry returns `TRUE` and
`*out_action` then holds the descriptor of that entry. -/
theorem C23_witness :
    ((Remapper.mk [⟨KBD1, [(⟨0, 0x1F, 0⟩, some .NoOutput)]⟩]).EvaluateKey
          ⟨0x1F, 0, 0, 0, 0, 0⟩ [0x4B, 0x42, 0x44] (some (.ScriptOutput ⟨7, []⟩))).result = false
    ∧ ((Remapper.mk [⟨KBD1, [(⟨0, 0x1F, 0⟩, some .NoOutput)]⟩]).EvaluateKey
          ⟨0x1F, 0, 0, 0, 0, 0⟩ [0x4B, 0x42, 0x44] (some (.ScriptOutput ⟨7, []⟩))).out_action
        = some (.ScriptOutput ⟨7, []⟩)
    ∧ ((Remapper.mk [⟨KBD1, [(⟨0, 0x1F, 0⟩, some .NoOutput)]⟩]).EvaluateKey
          ⟨0x20, 0, 0, 0, 0, 0⟩ KBD1 (some (.ScriptOutput ⟨7, []⟩))).result = false
    ∧ ((Remapper.mk [⟨KBD1, [(⟨0, 0x1F, 0⟩, some .NoOutput)]⟩]).EvaluateKey
          ⟨0x20, 0, 0, 0, 0, 0⟩ KBD1 (some (.ScriptOutput ⟨7, []⟩))).out_action
        = some (.ScriptOutput ⟨7, []⟩)
    ∧ ((Remapper.mk [⟨KBD1, [(⟨0, 0x1F, 0⟩, some .NoOutput)]⟩]).EvaluateKey
          ⟨0x1F, 0, 0, 0, 0, 0⟩ KBD1 (some (.ScriptOutput ⟨7, []⟩))).result = true
    ∧ ((Remapper.mk [⟨KBD1, [(⟨0, 0x1F, 0⟩, some .NoOutput)]⟩]).EvaluateKey
          ⟨0x1F, 0, 0, 0, 0, 0⟩ KBD1 (some (.ScriptOutput ⟨7, []⟩))).out_action
        = some .NoOutput :=
  ⟨by decide,
   (C23_out_action_written_only_on_true (Remapper.mk [⟨KBD1, [(⟨0, 0x1F, 0⟩, some .NoOutput)]⟩])
      ⟨0x1F, 0, 0, 0, 0, 0⟩ [0x4B, 0x42, 0x44] (some (.ScriptOutput ⟨7, []⟩))).1 (by decide),
   by decide,
   (C23_out_action_written_only_on_true (Remapper.mk [⟨KBD1, [(⟨0, 0x1F, 0⟩, some .NoOutput)]⟩])
      ⟨0x20, 0, 0, 0, 0, 0⟩ KBD1 (some (.ScriptOutput ⟨7, []⟩))).1 (by decide),
   by decide, by decide⟩

/-! ## Theorems: the stores of the fill loop of Build String -/

theorem ok_exists_iff {α : Type} (x : α) (P : α → Prop) :
    (∃ t, (Except.ok x : Except Fault α) = .ok t ∧ P t) ↔ P x := by
  constructor
  · rintro ⟨t, h, hp⟩
    cases h
    exact hp
  · exact fun h => ⟨x, rfl, h⟩

theorem error_exists_iff {α : Type} (e : Fault) (P : α → Prop) :
    (∃ t, (Except.error e : Except Fault α) = .ok t ∧ P t) ↔ False := by
  constructor
  · rintro ⟨t, h, _⟩
    cases h
  · exact False.elim

theorem error_ne_ok {α : Type} (e : Fault) :
    (∃ t : α, (Except.error e : Except Fault α) = .ok t) ↔ False := by
  constructor
  · rintro ⟨t, h⟩
    cases h
  · exact False.elim

/-- The stores of an iteration followed by those of the remaining iterations are all
inside an array exactly when those of the iteration are and those of the rest are. -/
theorem stores_bind_iff (x : Except Fault (List (Nat × StringStore) × Nat))
    (first : List (Nat × StringStore)) (n : Nat) :
    (∃ t, (x >>= fun v => pure (first ++ v.1, v.2)) = .ok t ∧ ∀ p ∈ t.1, p.1 < n) ↔
      (∀ p ∈ first, p.1 < n) ∧ ∃ t, x = .ok t ∧ ∀ p ∈ t.1, p.1 < n := by
  cases x with
  | error e =>
    simp only [bind, Except.bind, error_exists_iff, and_false]
  | ok v =>
    simp only [bind, Except.bind, pure, Except.pure, ok_exists_iff, List.forall_mem_append]

/-- The fill loop runs without a fault exactly when its reads of the sequence succeed and
every index it stores at is inside the array. -/
theorem stringFill_ok_iff (self : OutputFactory) (codepoints : List Nat) :
    ∀ (remaining i currentIndex : Nat) (keystrokes : List INPUT),
    (∃ filled, stringFill self codepoints remaining i currentIndex keystrokes = .ok filled) ↔
      ∃ t, stringStores codepoints remaining i currentIndex = .ok t
        ∧ ∀ p ∈ t.1, p.1 < keystrokes.length
  | 0, i, cur, k => by simp [stringFill, stringStores, pure, Except.pure]
  | r + 1, i, cur, k => by
    cases hc : readAt codepoints i with
    | error e => simp [stringFill, stringStores, hc, bind, Except.bind]
    | ok c =>
      by_cases hle : c ≤ 0xffff
      · have hS : stringStores codepoints (r + 1) i cur
            = (stringStores codepoints r (i + 1) (((cur + 1) % 2 ^ 32 + 1) % 2 ^ 32)
                >>= fun v => pure ([(cur, .prototype), (cur, .wScan),
                  ((cur + 1) % 2 ^ 32, .prototype), ((cur + 1) % 2 ^ 32, .wScan)] ++ v.1,
                  v.2)) := by
          rw [stringStores, hc]
          simp only [bind, Except.bind, hle, if_true]
          rfl
        rw [hS, stores_bind_iff]
        simp only [stringFill, hc, bind, Except.bind, hle, if_true, List.forall_mem_cons]
        by_cases h0 : cur < k.length
        · obtain ⟨k1, e1, l1⟩ := modifyAt_in (fun _ => self.UnicodePrototypeDown) k cur h0
          obtain ⟨k2, e2, l2⟩ := modifyAt_in (setScan c) k1 cur (by omega)
          by_cases h1 : (cur + 1) % 2 ^ 32 < k.length
          · obtain ⟨k3, e3, l3⟩ := modifyAt_in (fun _ => self.UnicodePrototypeUp) k2
              ((cur + 1) % 2 ^ 32) (by omega)
            obtain ⟨k4, e4, l4⟩ := modifyAt_in (setScan c) k3 ((cur + 1) % 2 ^ 32)
              (by omega)
            have ih := stringFill_ok_iff self codepoints r (i + 1)
              (((cur + 1) % 2 ^ 32 + 1) % 2 ^ 32) k4
            have hk : k4.length = k.length := by omega
            rw [hk] at ih
            simp only [e1, e2, e3, e4]
            rw [ih]
            exact ⟨fun h => ⟨⟨h0, h0, h1, h1, by simp⟩, h⟩, fun h => h.2⟩
          · have e3 := modifyAt_out (fun _ => self.UnicodePrototypeUp) k2
              ((cur + 1) % 2 ^ 32) (by omega)
            simp only [e1, e2, e3, error_ne_ok, false_iff]
            exact fun h => h1 h.1.2.2.1
        · have e1 := modifyAt_out (fun _ => self.UnicodePrototypeDown) k cur (by omega)
          simp only [e1, error_ne_ok, false_iff]
          exact fun h => h0 h.1.1
      · have hS : stringStores codepoints (r + 1) i cur
            = (stringStores codepoints r (i + 1) (((cur + 2) % 2 ^ 32 + 2) % 2 ^ 32)
                >>= fun v => pure ([(cur, .prototype), ((cur + 1) % 2 ^ 32, .prototype),
                  (cur, .wScan), ((cur + 1) % 2 ^ 32, .wScan),
                  ((cur + 2) % 2 ^ 32, .prototype),
                  (((cur + 2) % 2 ^ 32 + 1) % 2 ^ 32, .prototype),
                  ((cur + 2) % 2 ^ 32, .wScan),
                  (((cur + 2) % 2 ^ 32 + 1) % 2 ^ 32, .wScan)] ++ v.1, v.2)) := by
          rw [stringStores, hc]
          simp only [bind, Except.bind, hle, if_false]
          rfl
        rw [hS, stores_bind_iff]
        simp only [stringFill, hc, bind, Except.bind, hle, if_false, List.forall_mem_cons]
        by_cases h0 : cur < k.length
        · obtain ⟨k1, e1, l1⟩ := modifyAt_in (fun _ => self.UnicodePrototypeDown) k cur h0
          by_cases h1 : (cur + 1) % 2 ^ 32 < k.length
          · obtain ⟨k2, e2, l2⟩ := modifyAt_in (fun _ => self.UnicodePrototypeDown) k1
              ((cur + 1) % 2 ^ 32) (by omega)
            obtain ⟨k3, e3, l3⟩ := modifyAt_in
              (setScan ((0xd800 + ((c - 0x10000) >>> 10)) % 2 ^ 16)) k2 cur (by omega)
            obtain ⟨k4, e4, l4⟩ := modifyAt_in
              (setScan ((0xdc00 + (c &&& 0x3ff)) % 2 ^ 16)) k3 ((cur + 1) % 2 ^ 32) (by omega)
            by_cases h2 : (cur + 2) % 2 ^ 32 < k.length
            · obtain ⟨k5, e5, l5⟩ := modifyAt_in (fun _ => self.UnicodePrototypeUp) k4
                ((cur + 2) % 2 ^ 32) (by omega)
              by_cases h3 : ((cur + 2) % 2 ^ 32 + 1) % 2 ^ 32 < k.length
              · obtain ⟨k6, e6, l6⟩ := modifyAt_in (fun _ => self.UnicodePrototypeUp) k5
                  (((cur + 2) % 2 ^ 32 + 1) % 2 ^ 32) (by omega)
                obtain ⟨k7, e7, l7⟩ := modifyAt_in
                  (setScan ((0xd800 + ((c - 0x10000) >>> 10)) % 2 ^ 16)) k6
                  ((cur + 2) % 2 ^ 32) (by omega)
                obtain ⟨k8, e8, l8⟩ := modifyAt_in
                  (setScan ((0xdc00 + (c &&& 0x3ff)) % 2 ^ 16)) k7
                  (((cur + 2) % 2 ^ 32 + 1) % 2 ^ 32) (by omega)
                have ih := stringFill_ok_iff self codepoints r (i + 1)
                  (((cur + 2) % 2 ^ 32 + 2) % 2 ^ 32) k8
                have hk : k8.length = k.length := by omega
                rw [hk] at ih
                simp only [e1, e2, e3, e4, e5, e6, e7, e8]
                rw [ih]
                exact ⟨fun h => ⟨⟨h0, h1, h0, h1, h2, h3, h2, h3, by simp⟩, h⟩, fun h => h.2⟩
              · have e6 := modifyAt_out (fun _ => self.UnicodePrototypeUp) k5
                  (((cur + 2) % 2 ^ 32 + 1) % 2 ^ 32) (by omega)
                simp only [e1, e2, e3, e4, e5, e6, error_ne_ok, false_iff]
                exact fun h => h3 h.1.2.2.2.2.2.1
            · have e5 := modifyAt_out (fun _ => self.UnicodePrototypeUp) k4
                ((cur + 2) % 2 ^ 32) (by omega)
              simp only [e1, e2, e3, e4, e5, error_ne_ok, false_iff]
              exact fun h => h2 h.1.2.2.2.2.1
          · have e2 := modifyAt_out (fun _ => self.UnicodePrototypeDown) k1
              ((cur + 1) % 2 ^ 32) (by omega)
            simp only [e1, e2, error_ne_ok, false_iff]
            exact fun h => h1 h.1.2.1
        · have e1 := modifyAt_out (fun _ => self.UnicodePrototypeDown) k cur (by omega)
          simp only [e1, error_ne_ok, false_iff]
          exact fun h => h0 h.1.1

/-- The indices of the stores of one kind, when four stores at two cells come first. -/
theorem storeIndices_two (kind : StringStore) (a b : Nat) (rest : List (Nat × StringStore)) :
    storeIndices kind ((a, .prototype) :: (a, .wScan) :: (b, .prototype) :: (b, .wScan) :: rest)
      = a :: b :: storeIndices kind rest := by
  cases kind <;> rfl

/-- The indices of the stores of one kind, when eight stores at four cells come first. -/
theorem storeIndices_four (kind : StringStore) (a b c d : Nat)
    (rest : List (Nat × StringStore)) :
    storeIndices kind ((a, .prototype) :: (b, .prototype) :: (a, .wScan) :: (b, .wScan)
        :: (c, .prototype) :: (d, .prototype) :: (c, .wScan) :: (d, .wScan) :: rest)
      = a :: b :: c :: d :: storeIndices kind rest := by
  cases kind <;> rfl

/-- The stores of the fill loop run over the whole of `l` from `currentIndex = cur`, the
events of `l` fitting the 32-bit index: the loop ends with `currentIndex` advanced by the
number of events, and the cells that receive a prototype, and those that receive a code
unit, are the cells from `cur` on, each once, in increasing order. -/
theorem stringStores_spec : ∀ (l pre : List Nat) (cur : Nat) (kind : StringStore),
    cur + (2 * l.length + 2 * surrogateCount l) < 2 ^ 32 →
    ∃ stores, stringStores (pre ++ l) l.length pre.length cur
        = .ok (stores, cur + (2 * l.length + 2 * surrogateCount l))
      ∧ storeIndices kind stores = List.range' cur (2 * l.length + 2 * surrogateCount l)
  | [], pre, cur, kind, _ => ⟨[], by simp [stringStores, surrogateCount, pure, Except.pure],
      by simp [storeIndices, surrogateCount]⟩
  | c :: t, pre, cur, kind, hfit => by
    rw [surrogateCount_cons] at hfit ⊢
    simp only [List.length_cons] at hfit ⊢
    by_cases hc : c ≤ 0xffff
    · have hc2 : ¬ (0xFFFF < c) := by omega
      rw [if_neg hc2] at hfit ⊢
      obtain ⟨stores, hs, hi⟩ := stringStores_spec t (pre ++ [c]) (cur + 2) kind (by omega)
      simp only [List.append_assoc, List.singleton_append, List.length_append,
        List.length_singleton] at hs
      have e1 : (cur + 1) % 2 ^ 32 = cur + 1 := by omega
      have e2 : (cur + 1 + 1) % 2 ^ 32 = cur + 2 := by omega
      have hN : 2 * (t.length + 1) + 2 * (surrogateCount t + 0)
          = (2 * t.length + 2 * surrogateCount t) + 1 + 1 := by omega
      refine ⟨(cur, .prototype) :: (cur, .wScan) :: (cur + 1, .prototype)
        :: (cur + 1, .wScan) :: stores, ?_, ?_⟩
      · simp only [stringStores, readAt_append, bind, Except.bind, hc, if_true, e1, e2, hs,
          pure, Except.pure]
        congr 2
        omega
      · rw [storeIndices_two, hi, hN, List.range'_succ, List.range'_succ]
    · have hc2 : 0xFFFF < c := by omega
      rw [if_pos hc2] at hfit ⊢
      obtain ⟨stores, hs, hi⟩ := stringStores_spec t (pre ++ [c]) (cur + 4) kind (by omega)
      simp only [List.append_assoc, List.singleton_append, List.length_append,
        List.length_singleton] at hs
      have e1 : (cur + 1) % 2 ^ 32 = cur + 1 := by omega
      have e2 : (cur + 2) % 2 ^ 32 = cur + 2 := by omega
      have e3 : (cur + 2 + 1) % 2 ^ 32 = cur + 3 := by omega
      have e4 : (cur + 2 + 2) % 2 ^ 32 = cur + 4 := by omega
      have hN : 2 * (t.length + 1) + 2 * (surrogateCount t + 1)
          = (2 * t.length + 2 * surrogateCount t) + 1 + 1 + 1 + 1 := by omega
      refine ⟨(cur, .prototype) :: (cur + 1, .prototype) :: (cur, .wScan)
        :: (cur + 1, .wScan) :: (cur + 2, .prototype) :: (cur + 3, .prototype)
        :: (cur + 2, .wScan) :: (cur + 3, .wScan) :: stores, ?_, ?_⟩
      · simp only [stringStores, readAt_append, bind, Except.bind, hc, if_false, e1, e2, e3,
          e4, hs, pure, Except.pure]
        congr 2
        omega
      · rw [storeIndices_four, hi, hN, List.range'_succ, List.range'_succ, List.range'_succ,
          List.range'_succ]

/-- The stores of the fill loop run over a whole sequence from an empty array index: the
loop ends with `currentIndex` the number of events, and each cell below it receives one
prototype and one code unit. -/
theorem stringStores_whole (sequence : List Nat)
    (hfit : 2 * sequence.length + 2 * surrogateCount sequence < 2 ^ 32) :
    ∃ stores, stringStores sequence sequence.length 0 0
        = .ok (stores, 2 * sequence.length + 2 * surrogateCount sequence)
      ∧ storeIndices .prototype stores
          = List.range (2 * sequence.length + 2 * surrogateCount sequence)
      ∧ storeIndices .wScan stores
          = List.range (2 * sequence.length + 2 * surrogateCount sequence) := by
  obtain ⟨s1, h1, i1⟩ := stringStores_spec sequence [] 0 .prototype (by omega)
  obtain ⟨s2, h2, i2⟩ := stringStores_spec sequence [] 0 .wScan (by omega)
  simp only [List.nil_append, List.length_nil, Nat.zero_add] at h1 h2
  have heq : s1 = s2 := by
    have := h1.symm.trans h2
    injection this with this
    injection this
  subst heq
  exact ⟨s1, h1, by rw [i1, List.range_eq_range'], by rw [i2, List.range_eq_range']⟩

/-- The number of stores of a kind at a cell is the number of times the cell stands among
the indices of the stores of that kind. -/
theorem count_store (kind : StringStore) (j : Nat) : ∀ (stores : List (Nat × StringStore)),
    stores.count (j, kind) = (storeIndices kind stores).count j
  | [] => rfl
  | (a, b) :: rest => by
    have ih := count_store kind j rest
    unfold storeIndices at ih ⊢
    by_cases hb : b = kind
    · by_cases ha : a = j
      · simp [List.count_cons, List.filter_cons, hb, ha, ih]
      · have : ¬ j = a := fun h => ha h.symm
        simp [List.count_cons, List.filter_cons, hb, ha, ih, this]
    · have : ¬ kind = b := fun h => hb h.symm
      simp [List.count_cons, List.filter_cons, hb, ih, this]

/-- Every store has one of the two kinds, so its index is among those of its kind. -/
theorem store_mem_indices (stores : List (Nat × StringStore)) (p : Nat × StringStore)
    (hp : p ∈ stores) : p.1 ∈ storeIndices p.2 stores := by
  unfold storeIndices
  exact List.mem_map.mpr ⟨p, List.mem_filter.mpr ⟨hp, by simp⟩, rfl⟩

/-- The trace is defined whenever the reads of the sequence are inside it. -/
theorem stringStores_total (codepoints : List Nat) : ∀ (remaining i currentIndex : Nat),
    i + remaining ≤ codepoints.length →
    ∃ t, stringStores codepoints remaining i currentIndex = .ok t
  | 0, _, cur, _ => ⟨([], cur), rfl⟩
  | r + 1, i, cur, h => by
    obtain ⟨c, hc⟩ := readAt_in codepoints i (by omega)
    by_cases hle : c ≤ 0xffff
    · obtain ⟨t, ht⟩ := stringStores_total codepoints r (i + 1)
        (((cur + 1) % 2 ^ 32 + 1) % 2 ^ 32) (by omega)
      exact ⟨_, by simp only [stringStores, hc, bind, Except.bind, hle, if_true, ht]; rfl⟩
    · obtain ⟨t, ht⟩ := stringStores_total codepoints r (i + 1)
        (((cur + 2) % 2 ^ 32 + 2) % 2 ^ 32) (by omega)
      exact ⟨_, by simp only [stringStores, hc, bind, Except.bind, hle, if_false, ht]; rfl⟩

/-- The first store of a fill loop that runs at least once is the copy of a prototype at
`currentIndex`. -/
theorem stringStores_first (seq : List Nat) (c : Nat) (t : List Nat) (hseq : seq = c :: t)
    (n cur : Nat) (hn : 0 < n) (hlen : n ≤ seq.length) :
    ∃ stores final, stringStores seq n 0 cur = .ok (stores, final)
      ∧ (cur, StringStore.prototype) ∈ stores := by
  subst hseq
  obtain ⟨r, rfl⟩ := Nat.exists_eq_succ_of_ne_zero (Nat.pos_iff_ne_zero.mp hn)
  by_cases hle : c ≤ 0xffff
  · obtain ⟨T, hT⟩ := stringStores_total (c :: t) r 1 (((cur + 1) % 2 ^ 32 + 1) % 2 ^ 32)
      (by omega)
    have h : stringStores (c :: t) (r + 1) 0 cur
        = .ok ((cur, .prototype) :: (cur, .wScan) :: ((cur + 1) % 2 ^ 32, .prototype)
            :: ((cur + 1) % 2 ^ 32, .wScan) :: T.1, T.2) := by
      simp only [stringStores, readAt, bind, Except.bind, hle, if_true, Nat.zero_add, hT]
      rfl
    exact ⟨_, _, h, List.mem_cons_self _ _⟩
  · obtain ⟨T, hT⟩ := stringStores_total (c :: t) r 1 (((cur + 2) % 2 ^ 32 + 2) % 2 ^ 32)
      (by omega)
    have h : stringStores (c :: t) (r + 1) 0 cur
        = .ok ((cur, .prototype) :: ((cur + 1) % 2 ^ 32, .prototype) :: (cur, .wScan)
            :: ((cur + 1) % 2 ^ 32, .wScan) :: ((cur + 2) % 2 ^ 32, .prototype)
            :: (((cur + 2) % 2 ^ 32 + 1) % 2 ^ 32, .prototype)
            :: ((cur + 2) % 2 ^ 32, .wScan)
            :: (((cur + 2) % 2 ^ 32 + 1) % 2 ^ 32, .wScan) :: T.1, T.2) := by
      simp only [stringStores, readAt, bind, Except.bind, hle, if_false, Nat.zero_add, hT]
      rfl
    exact ⟨_, _, h, List.mem_cons_self _ _⟩

/-- The blocks of a sequence hold two events for each code point and two more for each one
above `0xFFFF`. -/
theorem blocks_length : ∀ (l : List Nat),
    ((l.map charBlock).flatten).length = 2 * l.length + 2 * surrogateCount l
  | [] => rfl
  | c :: t => by
    rw [List.map_cons, List.flatten_cons, List.length_append, blocks_length t,
      surrogateCount_cons, List.length_cons]
    by_cases hc : c ≤ 0xFFFF
    · have hc2 : ¬ (0xFFFF < c) := by omega
      simp [charBlock, hc, hc2]; omega
    · have hc2 : 0xFFFF < c := by omega
      simp [charBlock, hc, hc2]; omega

/-- C21 fails as stated: for the non-null sequence of `2 ^ 31` letters `A` the counting loop
leaves `inputCount = 0`, the fill loop runs, and its first store, the copy of a prototype
into `keystrokes[0]`, is at an index that is not below `inputCount`; the call stores outside
the array. -/
theorem C21_store_outside_array :
    (1000 : Nat) ≠ 0
    ∧ (List.replicate (2 ^ 31) 0x41).length = 2 ^ 31
    ∧ ∃ inputCount : Nat,
        stringCount (List.replicate (2 ^ 31) 0x41) (2 ^ 31) 0 ((2 ^ 31 * 2) % 2 ^ 32)
          = .ok inputCount
        ∧ (∃ stores final,
            stringStores (List.replicate (2 ^ 31) 0x41) (2 ^ 31) 0 0 = .ok (stores, final)
            ∧ ∃ p ∈ stores, ¬ p.1 < inputCount)
        ∧ (OutputFactory.construct sampleStorage).getInstance sampleModifiers sampleMemory
              .StringOutput (2 ^ 31) ⟨1000, List.replicate (2 ^ 31) 0x41⟩
            = .error Fault.outOfBounds :=
  have h := string_wraps sampleStorage sampleModifiers sampleMemory 1000
    (List.replicate (2 ^ 31) 0x41) 0x41 (List.replicate (2 ^ 31 - 1) 0x41) replicate_big
    (by decide) (by decide) (List.length_replicate _ _) (surrogateCount_replicate _)
  have hs := stringStores_first (List.replicate (2 ^ 31) 0x41) 0x41
    (List.replicate (2 ^ 31 - 1) 0x41) replicate_big (2 ^ 31) 0 (Nat.two_pow_pos 31)
    (Nat.le_of_eq (List.length_replicate _ _).symm)
  ⟨by decide, List.length_replicate _ _, 0, h.1,
    hs.elim fun stores hs1 => hs1.elim fun final hs2 =>
      ⟨stores, final, hs2.1, (0, StringStore.prototype), hs2.2, Nat.lt_irrefl 0⟩,
    h.2⟩

/-- C21, amended: for every non-null sequence of `n` code points, `k` of them greater than
`0xFFFF`, with `2n + 2k < 2 ^ 32`, Build String fills its event array exactly. The call
returns an array of `inputCount = 2n + 2k` cells; the fill loop, which runs without a fault
on an array exactly when all its stores are inside it, stores only at indices below
`inputCount` and ends with `currentIndex = inputCount`; the cells that receive a prototype
are `0, 1, .., inputCount - 1` in this order, and so are the cells that receive a code unit,
so that each cell receives exactly one prototype and exactly one code unit; and the array
returned is the same whatever the fresh cells and the unassigned members of the prototypes
held, no cell being left as allocated. -/
theorem C21_string_fill_exact (raw : OutputFactory) (M : VirtualModifiers)
    (mem : Nat → INPUT) (value : Nat) (sequence : List Nat) (hnull : value ≠ 0)
    (hfit : 2 * sequence.length + 2 * surrogateCount sequence < 2 ^ 32) :
    ∃ (keystrokes : List INPUT) (stores : List (Nat × StringStore)),
      (OutputFactory.construct raw).getInstance M mem .StringOutput sequence.length
          ⟨value, sequence⟩
        = .ok (some (.StringOutput (2 * sequence.length + 2 * surrogateCount sequence)
            keystrokes))
      ∧ keystrokes.length = 2 * sequence.length + 2 * surrogateCount sequence
      ∧ stringStores sequence sequence.length 0 0
          = .ok (stores, 2 * sequence.length + 2 * surrogateCount sequence)
      ∧ (∀ array : List INPUT,
          (∃ filled, stringFill (OutputFactory.construct raw) sequence sequence.length 0 0
              array = .ok filled) ↔ ∀ p ∈ stores, p.1 < array.length)
      ∧ (∀ p ∈ stores, p.1 < 2 * sequence.length + 2 * surrogateCount sequence)
      ∧ storeIndices .prototype stores
          = List.range (2 * sequence.length + 2 * surrogateCount sequence)
      ∧ storeIndices .wScan stores
          = List.range (2 * sequence.length + 2 * surrogateCount sequence)
      ∧ (∀ j, j < 2 * sequence.length + 2 * surrogateCount sequence →
          stores.count (j, .prototype) = 1 ∧ stores.count (j, .wScan) = 1)
      ∧ ∀ (raw2 : OutputFactory) (mem2 : Nat → INPUT),
          (OutputFactory.construct raw2).getInstance M mem2 .StringOutput sequence.length
              ⟨value, sequence⟩
            = .ok (some (.StringOutput (2 * sequence.length + 2 * surrogateCount sequence)
                keystrokes)) := by
  obtain ⟨stores, hs, hp, hw⟩ := stringStores_whole sequence hfit
  refine ⟨(sequence.map charBlock).flatten, stores,
    string_shape raw M mem value sequence hnull hfit, blocks_length sequence, hs, ?_, ?_, hp,
    hw, ?_, fun raw2 mem2 => string_shape raw2 M mem2 value sequence hnull hfit⟩
  · intro array
    rw [stringFill_ok_iff, hs, ok_exists_iff]
  · intro p hmem
    have h := store_mem_indices stores p hmem
    cases hk : p.2 with
    | prototype =>
      rw [hk, hp] at h
      exact List.mem_range.mp h
    | wScan =>
      rw [hk, hw] at h
      exact List.mem_range.mp h
  · intro j hj
    rw [count_store, count_store, hp, hw]
    have h1 := List.count_eq_one_of_mem (List.nodup_range _) (List.mem_range.mpr hj)
    exact ⟨h1, h1⟩

/-- C21, amended, at the fixture string of `Parser::ReadFile`, `Hi.` and U+1F642: ten cells,
twenty stores. -/
theorem C21_witness :
    (1000 : Nat) ≠ 0
    ∧ 2 * [0x48, 0x69, 0x2E, 0x1F642].length + 2 * surrogateCount [0x48, 0x69, 0x2E, 0x1F642]
        = 10
    ∧ stringStores [0x48, 0x69, 0x2E, 0x1F642] 4 0 0
        = .ok ([(0, .prototype), (0, .wScan), (1, .prototype), (1, .wScan),
                (2, .prototype), (2, .wScan), (3, .prototype), (3, .wScan),
                (4, .prototype), (4, .wScan), (5, .prototype), (5, .wScan),
                (6, .prototype), (7, .prototype), (6, .wScan), (7, .wScan),
                (8, .prototype), (9, .prototype), (8, .wScan), (9, .wScan)], 10)
    ∧ ∃ (keystrokes : List INPUT) (stores : List (Nat × StringStore)),
      (OutputFactory.construct sampleStorage).getInstance sampleModifiers sampleMemory
          .StringOutput [0x48, 0x69, 0x2E, 0x1F642].length ⟨1000, [0x48, 0x69, 0x2E, 0x1F642]⟩
        = .ok (some (.StringOutput
            (2 * [0x48, 0x69, 0x2E, 0x1F642].length
              + 2 * surrogateCount [0x48, 0x69, 0x2E, 0x1F642]) keystrokes))
      ∧ keystrokes.length
          = 2 * [0x48, 0x69, 0x2E, 0x1F642].length
              + 2 * surrogateCount [0x48, 0x69, 0x2E, 0x1F642]
      ∧ stringStores [0x48, 0x69, 0x2E, 0x1F642] [0x48, 0x69, 0x2E, 0x1F642].length 0 0
          = .ok (stores, 2 * [0x48, 0x69, 0x2E, 0x1F642].length
              + 2 * surrogateCount [0x48, 0x69, 0x2E, 0x1F642])
      ∧ (∀ array : List INPUT,
          (∃ filled, stringFill (OutputFactory.construct sampleStorage)
              [0x48, 0x69, 0x2E, 0x1F642] [0x48, 0x69, 0x2E, 0x1F642].length 0 0
              array = .ok filled) ↔ ∀ p ∈ stores, p.1 < array.length)
      ∧ (∀ p ∈ stores, p.1 < 2 * [0x48, 0x69, 0x2E, 0x1F642].length
              + 2 * surrogateCount [0x48, 0x69, 0x2E, 0x1F642])
      ∧ storeIndices .prototype stores
          = List.range (2 * [0x48, 0x69, 0x2E, 0x1F642].length
              + 2 * surrogateCount [0x48, 0x69, 0x2E, 0x1F642])
      ∧ storeIndices .wScan stores
          = List.range (2 * [0x48, 0x69, 0x2E, 0x1F642].length
              + 2 * surrogateCount [0x48, 0x69, 0x2E, 0x1F642])
      ∧ (∀ j, j < 2 * [0x48, 0x69, 0x2E, 0x1F642].length
              + 2 * surrogateCount [0x48, 0x69, 0x2E, 0x1F642] →
          stores.count (j, .prototype) = 1 ∧ stores.count (j, .wScan) = 1)
      ∧ ∀ (raw2 : OutputFactory) (mem2 : Nat → INPUT),
          (OutputFactory.construct raw2).getInstance sampleModifiers mem2 .StringOutput
              [0x48, 0x69, 0x2E, 0x1F642].length ⟨1000, [0x48, 0x69, 0x2E, 0x1F642]⟩
            = .ok (some (.StringOutput (2 * [0x48, 0x69, 0x2E, 0x1F642].length
                + 2 * surrogateCount [0x48, 0x69, 0x2E, 0x1F642]) keystrokes)) :=
  ⟨by decide, by decide, by decide,
   C21_string_fill_exact sampleStorage sampleModifiers sampleMemory 1000
     [0x48, 0x69, 0x2E, 0x1F642] (by decide) (by decide)⟩

/-! ## Theorems: the key code or code unit of the events -/

/-- Each event of the block of a character carries one of its code units in `wScan`. -/
theorem charBlock_codes (c : Nat) :
    ∀ e ∈ charBlock c, ∃ u ∈ codeUnits c, e.ki.wScan = u % 2 ^ 16 := by
  intro e he
  unfold charBlock at he
  unfold codeUnits
  by_cases hc : c ≤ 0xFFFF
  · rw [if_pos hc] at he ⊢
    simp only [List.mem_cons, List.mem_singleton, List.not_mem_nil, or_false] at he
    rcases he with rfl | rfl
    · exact ⟨c, List.mem_singleton.mpr rfl, rfl⟩
    · exact ⟨c, List.mem_singleton.mpr rfl, rfl⟩
  · rw [if_neg hc] at he ⊢
    simp only [List.mem_cons, List.mem_singleton, List.not_mem_nil, or_false] at he
    rcases he with rfl | rfl | rfl | rfl
    · exact ⟨highSurrogate c, List.mem_cons_self _ _, rfl⟩
    · exact ⟨lowSurrogate c, List.mem_cons_of_mem _ (List.mem_singleton.mpr rfl), rfl⟩
    · exact ⟨highSurrogate c, List.mem_cons_self _ _, rfl⟩
    · exact ⟨lowSurrogate c, List.mem_cons_of_mem _ (List.mem_singleton.mpr rfl), rfl⟩

/-- The key codes that `getInstance` places are 16-bit values, none of them `VK_LSHIFT`. -/
theorem placed_codes (M : VirtualModifiers) (l : Nat) :
    ∀ vk ∈ placedModifiers M l, vk % 2 ^ 16 = vk ∧ vk ≠ VK_LSHIFT := by
  unfold placedModifiers
  generalize flagSet l M.VIRTUAL_MODIFIER_LCTRL = c0
  generalize flagSet l M.VIRTUAL_MODIFIER_RCTRL = c1
  generalize flagSet l M.VIRTUAL_MODIFIER_LALT = c2
  generalize flagSet l M.VIRTUAL_MODIFIER_RALT = c3
  generalize flagSet l M.VIRTUAL_MODIFIER_LWIN = c4
  generalize flagSet l M.VIRTUAL_MODIFIER_RWIN = c5
  generalize flagSet l M.VIRTUAL_MODIFIER_RSHIFT = c7
  revert c0 c1 c2 c3 c4 c5 c7
  decide

/-- The key code of each event of a Virtual descriptor: the target key, a placed modifier,
or, in the cell that a Shift-L mask leaves untouched, what the prototype holds. -/
theorem phase_key_codes (raw : OutputFactory) (M : VirtualModifiers) (l key : Nat) :
    ∀ e ∈ downPhase (OutputFactory.construct raw).VirtualKeyPrototypeDown M l key
        ++ upPhase (OutputFactory.construct raw).VirtualKeyPrototypeUp M l key,
      e.ki.wVk = key % 2 ^ 16 ∨ e.ki.wVk ∈ placedModifiers M l
        ∨ (flagSet l M.VIRTUAL_MODIFIER_LSHIFT = true
            ∧ e.ki.wVk = raw.VirtualKeyPrototypeDown.ki.wVk) := by
  intro e he
  simp only [downPhase, upPhase, List.mem_append, List.mem_map, List.mem_singleton,
    List.mem_reverse] at he
  rcases he with ((⟨vk, hvk, rfl⟩ | rfl) | he) | ((he | rfl) | ⟨vk, hvk, rfl⟩)
  · right; left
    show vk % 2 ^ 16 ∈ placedModifiers M l
    rw [(placed_codes M l vk hvk).1]
    exact hvk
  · left
    show key % 2 ^ 16 % 2 ^ 16 = key % 2 ^ 16
    omega
  · cases h : flagSet l M.VIRTUAL_MODIFIER_LSHIFT
    · simp [h] at he
    · simp [h] at he
      subst he
      exact Or.inr (Or.inr ⟨rfl, rfl⟩)
  · cases h : flagSet l M.VIRTUAL_MODIFIER_LSHIFT
    · simp [h] at he
    · simp [h] at he
      subst he
      exact Or.inr (Or.inr ⟨rfl, rfl⟩)
  · left
    show key % 2 ^ 16 % 2 ^ 16 = key % 2 ^ 16
    omega
  · right; left
    show vk % 2 ^ 16 ∈ placedModifiers M l
    rw [(placed_codes M l vk hvk).1]
    exact hvk

/-- What the events carry besides their markers, for every call that returns a descriptor:
a Unicode event has in `wScan` a code unit of the code point, a String event a code unit of
one of the first `_nParam` code points, a Macro event has in `wVk` the low byte of one of
the first `_nParam` entries, and a Virtual event has in `wVk` the target key code
`(WORD)_nParam` or the key code of a modifier of the mask, unless the mask has Shift-L: then
the descriptor has cells whose `wVk` is what the prototype's storage held. -/
theorem events_carry_codes (raw : OutputFactory) (M : VirtualModifiers)
    (mem : Nat → INPUT) (_type : KeystrokeOutputType) (_nParam : Nat) (_lParam : ULONG_PTR)
    (out : IKeystrokeOutput) (hM : M.WellFormed)
    (h : (OutputFactory.construct raw).getInstance M mem _type _nParam _lParam
      = .ok (some out)) :
    (_type = .UnicodeOutput →
      ∀ e ∈ out.events, ∃ u ∈ codeUnits _nParam, e.ki.wScan = u % 2 ^ 16)
    ∧ (_type = .StringOutput →
      ∀ e ∈ out.events, ∃ c ∈ _lParam.target.take _nParam, ∃ u ∈ codeUnits c,
        e.ki.wScan = u % 2 ^ 16)
    ∧ (_type = .MacroOutput →
      ∀ e ∈ out.events, ∃ entry ∈ _lParam.target.take _nParam,
        e.ki.wVk = (entry &&& 0xFF) % 2 ^ 16)
    ∧ (_type = .VirtualOutput →
      ∀ e ∈ out.events, e.ki.wVk = _nParam % 2 ^ 16
        ∨ e.ki.wVk ∈ placedModifiers M _lParam.value
        ∨ (flagSet _lParam.value M.VIRTUAL_MODIFIER_LSHIFT = true
            ∧ e.ki.wVk = raw.VirtualKeyPrototypeDown.ki.wVk)) := by
  cases _type with
  | UnicodeOutput =>
    rw [unicode_shape] at h
    simp only [Except.ok.injEq, Option.some.injEq] at h
    subst h
    refine ⟨fun _ e he => ?_, (fun hk => by cases hk), (fun hk => by cases hk),
      (fun hk => by cases hk)⟩
    apply charBlock_codes _nParam e
    unfold charBlock
    by_cases hv : _nParam ≤ 0xFFFF
    · rw [if_pos hv] at he ⊢
      simpa [IKeystrokeOutput.events] using he
    · rw [if_neg hv] at he ⊢
      simp only [IKeystrokeOutput.events, List.mem_append, List.mem_cons, List.mem_singleton,
        List.not_mem_nil, or_false] at he
      simp only [List.mem_cons, List.mem_singleton, List.not_mem_nil, or_false]
      rcases he with (h1 | h1) | (h1 | h1)
      · exact Or.inl h1
      · exact Or.inr (Or.inl h1)
      · exact Or.inr (Or.inr (Or.inl h1))
      · exact Or.inr (Or.inr (Or.inr h1))
  | StringOutput =>
    obtain ⟨_, l, post, htar, hlen, _, hout⟩ :=
      string_ok_shape raw M mem _nParam _lParam out h
    subst hout
    refine ⟨(fun hk => by cases hk), fun _ e he => ?_, (fun hk => by cases hk),
      (fun hk => by cases hk)⟩
    have htake : _lParam.target.take _nParam = l := by
      rw [htar, ← hlen, List.take_left]
    rw [htake]
    simp only [IKeystrokeOutput.events, List.mem_flatten, List.mem_map] at he
    obtain ⟨blk, ⟨c, hc, rfl⟩, hmem⟩ := he
    exact ⟨c, hc, charBlock_codes c e hmem⟩
  | MacroOutput =>
    obtain ⟨_, l, post, htar, hlen, hout⟩ := macro_ok_shape raw M mem _nParam _lParam out h
    subst hout
    refine ⟨(fun hk => by cases hk), (fun hk => by cases hk), fun _ e he => ?_,
      (fun hk => by cases hk)⟩
    have htake : _lParam.target.take _nParam = l := by
      rw [htar, ← hlen, List.take_left]
    rw [htake]
    simp only [IKeystrokeOutput.events, List.mem_map] at he
    obtain ⟨entry, hentry, rfl⟩ := he
    refine ⟨entry, hentry, ?_⟩
    unfold macroEvent
    split <;> rfl
  | VirtualOutput =>
    rw [virtual_shape raw M mem _nParam _lParam hM] at h
    simp only [Except.ok.injEq, Option.some.injEq] at h
    subst h
    exact ⟨(fun hk => by cases hk), (fun hk => by cases hk), (fun hk => by cases hk),
      fun _ => phase_key_codes raw M _lParam.value _nParam⟩
  | ScriptOutput =>
    exact ⟨(fun hk => by cases hk), (fun hk => by cases hk), (fun hk => by cases hk),
      (fun hk => by cases hk)⟩
  | NoOutput =>
    exact ⟨(fun hk => by cases hk), (fun hk => by cases hk), (fun hk => by cases hk),
      (fun hk => by cases hk)⟩
  | Invalid =>
    exact ⟨(fun hk => by cases hk), (fun hk => by cases hk), (fun hk => by cases hk),
      (fun hk => by cases hk)⟩

/-- Shift-L is among the canonical modifiers of a mask that has its flag. -/
theorem lshift_canonical (M : VirtualModifiers) (l : Nat)
    (hshift : flagSet l M.VIRTUAL_MODIFIER_LSHIFT = true) :
    VK_LSHIFT ∈ canonicalModifiers M l := by
  unfold canonicalModifiers
  rw [hshift]
  simp

/-- C19, the code at a mask with Shift-L: for every key and every mask in which the Shift-L
flag is set, `getInstance` returns a Virtual descriptor whose last key-down event and first
key-up event are the untouched prototypes. They carry the markers, `wScan = 0` and
`KEYEVENTF_EXTENDEDKEY`, and differ only by `KEYEVENTF_KEYUP`, but what they carry in `wVk`
is not a key code of the call: it is what the storage of `VirtualKeyPrototypeDown` held
before the constructor ran, which assigns no `wVk`. The key code `VK_LSHIFT` that the mask
asks for is in the `wVk` of no event of the descriptor, unless it is the target key or the
storage happened to hold it. -/
theorem C19_shift_left_cells_carry_no_key_code (raw : OutputFactory) (M : VirtualModifiers)
    (mem : Nat → INPUT) (_nParam : Nat) (_lParam : ULONG_PTR) (hM : M.WellFormed)
    (hshift : flagSet _lParam.value M.VIRTUAL_MODIFIER_LSHIFT = true) :
    let pd := (OutputFactory.construct raw).VirtualKeyPrototypeDown
    let pu := (OutputFactory.construct raw).VirtualKeyPrototypeUp
    ∃ downs ups : List INPUT,
      (OutputFactory.construct raw).getInstance M mem .VirtualOutput _nParam _lParam
        = .ok (some (.VirtualKeyOutput (popCount8 _lParam.value + 1) (downs ++ [pd])
            (pu :: ups)))
      ∧ VirtualMarked pd ∧ VirtualMarked pu ∧ pu = orFlags KEYEVENTF_KEYUP pd
      ∧ pd.ki.wVk = raw.VirtualKeyPrototypeDown.ki.wVk
      ∧ pu.ki.wVk = raw.VirtualKeyPrototypeDown.ki.wVk
      ∧ VK_LSHIFT ∈ canonicalModifiers M _lParam.value
      ∧ ∀ e ∈ (downs ++ [pd]) ++ (pu :: ups), e.ki.wVk = VK_LSHIFT →
          _nParam % 2 ^ 16 = VK_LSHIFT ∨ raw.VirtualKeyPrototypeDown.ki.wVk = VK_LSHIFT := by
  intro pd pu
  have hshape := virtual_shape raw M mem _nParam _lParam hM
  have hcodes := phase_key_codes raw M _lParam.value _nParam
  simp only [downPhase, upPhase, hshift, if_true, List.singleton_append, List.cons_append,
    List.nil_append] at hshape hcodes
  refine ⟨_, _, hshape, ⟨rfl, ?_⟩, ⟨rfl, ?_⟩, rfl, rfl, rfl,
    lshift_canonical M _lParam.value hshift, ?_⟩
  · show KEYEVENTF_EXTENDEDKEY &&& KEYEVENTF_EXTENDEDKEY = KEYEVENTF_EXTENDEDKEY
    decide
  · show (KEYEVENTF_EXTENDEDKEY ||| KEYEVENTF_KEYUP) &&& KEYEVENTF_EXTENDEDKEY
      = KEYEVENTF_EXTENDEDKEY
    decide
  · intro e he hvk
    rcases hcodes e he with h1 | h1 | ⟨_, h1⟩
    · left
      rw [← h1, hvk]
    · rw [hvk] at h1
      exact absurd rfl (placed_codes M _lParam.value VK_LSHIFT h1).2
    · right
      rw [← h1, hvk]

/-- C19's code at the key `A` with the mask `0x40`, Shift-L alone in the sample constants,
on the sample storage: the descriptor has four events, and the second key-down and the
first key-up carry `31` in `wVk`, which is neither the key `A` nor `VK_LSHIFT`. -/
theorem C19_witness :
    sampleModifiers.WellFormed
    ∧ flagSet (ULONG_PTR.mk 0x40 []).value sampleModifiers.VIRTUAL_MODIFIER_LSHIFT = true
    ∧ (OutputFactory.construct sampleStorage).getInstance sampleModifiers sampleMemory
          .VirtualOutput 0x41 ⟨0x40, []⟩
        = .ok (some (.VirtualKeyOutput 2
            [⟨INPUT_KEYBOARD, ⟨0x41, 0, KEYEVENTF_EXTENDEDKEY, 0, 0⟩⟩,
             ⟨INPUT_KEYBOARD, ⟨31, 0, KEYEVENTF_EXTENDEDKEY, 0, 0⟩⟩]
            [⟨INPUT_KEYBOARD, ⟨31, 0, KEYEVENTF_EXTENDEDKEY ||| KEYEVENTF_KEYUP, 0, 0⟩⟩,
             ⟨INPUT_KEYBOARD, ⟨0x41, 0, KEYEVENTF_EXTENDEDKEY ||| KEYEVENTF_KEYUP, 0, 0⟩⟩]))
    ∧ sampleStorage.VirtualKeyPrototypeDown.ki.wVk = 31
    ∧ (31 : Nat) ≠ 0x41 ∧ (31 : Nat) ≠ VK_LSHIFT
    ∧ (let pd := (OutputFactory.construct sampleStorage).VirtualKeyPrototypeDown
       let pu := (OutputFactory.construct sampleStorage).VirtualKeyPrototypeUp
       ∃ downs ups : List INPUT,
        (OutputFactory.construct sampleStorage).getInstance sampleModifiers sampleMemory
            .VirtualOutput 0x41 ⟨0x40, []⟩
          = .ok (some (.VirtualKeyOutput (popCount8 (ULONG_PTR.mk 0x40 []).value + 1)
              (downs ++ [pd]) (pu :: ups)))
        ∧ VirtualMarked pd ∧ VirtualMarked pu ∧ pu = orFlags KEYEVENTF_KEYUP pd
        ∧ pd.ki.wVk = sampleStorage.VirtualKeyPrototypeDown.ki.wVk
        ∧ pu.ki.wVk = sampleStorage.VirtualKeyPrototypeDown.ki.wVk
        ∧ VK_LSHIFT ∈ canonicalModifiers sampleModifiers (ULONG_PTR.mk 0x40 []).value
        ∧ ∀ e ∈ (downs ++ [pd]) ++ (pu :: ups), e.ki.wVk = VK_LSHIFT →
            0x41 % 2 ^ 16 = VK_LSHIFT
              ∨ sampleStorage.VirtualKeyPrototypeDown.ki.wVk = VK_LSHIFT) :=
  ⟨by decide, by decide, by decide, by decide, by decide, by decide,
   C19_shift_left_cells_carry_no_key_code sampleStorage sampleModifiers sampleMemory 0x41
     ⟨0x40, []⟩ (by decide) (by decide)⟩

end MultiKeys
